import Mathlib

/-!
# Verification of the alfred context switcher

A shallow embedding of the alfred multi-repository context switcher
(github.com/viniciusamelio/alfred) in Lean 4, with theorems settling the
specification claims about it.

Modelling conventions:
* A `pubspec.yaml` manifest is a list of lines, each line a `List Char`
  (the trailing newline of each line is implicit in the representation).
* The Go manifest editor works with `regexp` patterns of the form
  `(?m)^(\s*)dep:\s*\n(\s+)git:\s*\n(\s+url:.*\n)(\s+ref:.*\n)?`.  These are
  embedded as line matchers; `\s` is modelled as intra-line whitespace
  (space or tab), so a match never spans a blank line, which is the shape
  the patterns are anchored against in practice.
* Subprocess git operations are modelled by a small git semantics over an
  explicit `World` state; read-only queries (status, branch listing) are
  modelled as reliable, while mutating operations can be failed by an
  environment oracle, reflecting that the Go code aborts or warns on a
  non-zero exit status of those commands.
-/

namespace Alfred

/-- A line of text (without its terminating newline). -/
abbrev Line := List Char

/-- The content of a `pubspec.yaml`, as lines. -/
abbrev Manifest := List Line

/-- Intra-line whitespace, the line-local reading of the regex class `\s`. -/
def isSp (c : Char) : Bool := c = ' ' || c = '\t'

/-- Substring test on character lists (Go `strings.Contains`). -/
def seqIn (sub : List Char) : List Char → Bool
  | [] => sub.isEmpty
  | a :: t => sub.isPrefixOf (a :: t) || seqIn sub t

/-- Go `strings.Contains` on strings. -/
def strContains (s sub : String) : Bool := seqIn sub.data s.data

/-- Go `strings.TrimSpace`. -/
def trimStr (s : String) : String :=
  ⟨((s.data.dropWhile isWs).reverse.dropWhile isWs).reverse⟩
where isWs (c : Char) : Bool := c = ' ' || c = '\t' || c = '\n' || c = '\r'

/-- Matches the line `^(\s*)key:\s*$` (a block-introducing line such as
`  depName:` or `    git:`); returns the captured indentation. -/
def headIndent (key : List Char) (l : Line) : Option (List Char) :=
  let ind := l.takeWhile isSp
  let r := l.dropWhile isSp
  if key.isPrefixOf r then
    match r.drop key.length with
    | ':' :: t => if t.all isSp then some ind else none
    | _ => none
  else none

/-- Matches the line `^\s+key.*$` with a non-empty indentation (the shape of
the `url:` / `ref:` / `path:` lines inside a dependency block). -/
def keyedLine (key : List Char) (l : Line) : Bool :=
  !(l.takeWhile isSp).isEmpty && key.isPrefixOf (l.dropWhile isSp)

/-- Captured groups of a git-shape dependency-block match. -/
structure GitM where
  /-- `${1}`: indentation of the `dep:` line. -/
  ind1 : List Char
  /-- `${2}`: indentation of the `git:` line. -/
  ind2 : List Char
  /-- whether the optional `ref:` line was matched. -/
  hasRef : Bool
deriving DecidableEq, Repr

/-- Number of lines consumed by a git-shape match. -/
def GitM.len (m : GitM) : Nat := if m.hasRef then 4 else 3

/-- The Go pattern `^(\s*)dep:\s*\n(\s+)git:\s*\n(\s+url:.*\n)(\s+ref:.*\n)?`
tried at the head of the given line list. -/
def matchGitAt (dep : List Char) : Manifest → Option GitM
  | l1 :: l2 :: l3 :: rest =>
    match headIndent dep l1, headIndent "git".data l2 with
    | some i1, some i2 =>
      if i2.isEmpty then none
      else if keyedLine "url:".data l3 then
        match rest with
        | l4 :: _ =>
          if keyedLine "ref:".data l4 then some ⟨i1, i2, true⟩ else some ⟨i1, i2, false⟩
        | [] => some ⟨i1, i2, false⟩
      else none
    | _, _ => none
  | _ => none

/-- `MatchString` of the git-shape pattern: some line starts a match. -/
def hasGitMatch (dep : List Char) : Manifest → Bool
  | [] => false
  | l :: rest => (matchGitAt dep (l :: rest)).isSome || hasGitMatch dep rest

/-- `ReplaceAllString` for the git-shape pattern: leftmost-first,
non-overlapping replacement of every match by `mk m`. -/
def replaceGitAll (dep : List Char) (mk : GitM → Manifest) : Manifest → Manifest
  | [] => []
  | l1 :: rest =>
    match matchGitAt dep (l1 :: rest) with
    | none => l1 :: replaceGitAll dep mk rest
    | some m =>
      match rest with
      | _ :: _ :: rest' =>
        if m.hasRef then
          match rest' with
          | _ :: rest'' => mk m ++ replaceGitAll dep mk rest''
          | [] => mk m
        else mk m ++ replaceGitAll dep mk rest'
      | [r2] => [l1, r2]
      | [] => [l1]

/-- Captured groups of a path-shape dependency-block match. -/
structure PathM where
  /-- `${1}`: indentation of the `dep:` line. -/
  ind1 : List Char
  /-- `${2}`: indentation of the `path:` line. -/
  ind2 : List Char
deriving DecidableEq, Repr

/-- The Go pattern `^(\s*)dep:\s*\n(\s+)path:.*\n` (with `valued := false`) or
`^(\s*)dep:\s*\n(\s+)path:\s*(.+)\n` (with `valued := true`, which requires at
least one character after `path:`) tried at the head of the line list. -/
def matchPathAt (dep : List Char) (valued : Bool) : Manifest → Option PathM
  | l1 :: l2 :: _ =>
    match headIndent dep l1 with
    | some i1 =>
      let ind := l2.takeWhile isSp
      let r := l2.dropWhile isSp
      if !ind.isEmpty && "path:".data.isPrefixOf r
          && (!valued || !(r.drop 5).isEmpty) then
        some ⟨i1, ind⟩
      else none
    | none => none
  | _ => none

/-- `MatchString` of the path-shape pattern. -/
def hasPathMatch (dep : List Char) (valued : Bool) : Manifest → Bool
  | [] => false
  | l :: rest => (matchPathAt dep valued (l :: rest)).isSome || hasPathMatch dep valued rest

/-- `ReplaceAllString` for the path-shape pattern (a match spans two lines). -/
def replacePathAll (dep : List Char) (valued : Bool) (mk : PathM → Manifest) :
    Manifest → Manifest
  | [] => []
  | l1 :: rest =>
    match matchPathAt dep valued (l1 :: rest) with
    | none => l1 :: replacePathAll dep valued mk rest
    | some m =>
      match rest with
      | _ :: rest' => mk m ++ replacePathAll dep valued mk rest'
      | [] => l1 :: []

/-- The replacement `${1}dep:\n${2}path: p\n`. -/
def pathReplG (dep p : List Char) (m : GitM) : Manifest :=
  [m.ind1 ++ dep ++ [':'], m.ind2 ++ "path: ".data ++ p]

/-- The replacement `${1}dep:\n${2}path: p\n` (path-match variant). -/
def pathReplP (dep p : List Char) (m : PathM) : Manifest :=
  [m.ind1 ++ dep ++ [':'], m.ind2 ++ "path: ".data ++ p]

/-- The replacement `${1}dep:\n${2}git:\n${2}  url: u\n${2}  ref: r\n`. -/
def gitRepl (dep url ref : List Char) (m : PathM) : Manifest :=
  [m.ind1 ++ dep ++ [':'],
   m.ind2 ++ "git:".data,
   m.ind2 ++ "  url: ".data ++ url,
   m.ind2 ++ "  ref: ".data ++ ref]

/-- `PubspecYaml.ConvertGitToPath` (internal/pubspec/pubspec.go): replace the
git-shape block of `dep` by a path-shape block; error (leaving the content
untouched) when no git-shape block for `dep` is present. -/
def ConvertGitToPath (dep p : List Char) (ms : Manifest) : Except String Unit × Manifest :=
  if hasGitMatch dep ms then
    (.ok (), replaceGitAll dep (pathReplG dep p) ms)
  else
    (.error "dependency is not a git dependency", ms)

/-- `PubspecYaml.ConvertPathToGit` (internal/pubspec/pubspec.go). -/
def ConvertPathToGit (dep url ref : List Char) (ms : Manifest) :
    Except String Unit × Manifest :=
  if hasPathMatch dep false ms then
    (.ok (), replacePathAll dep false (gitRepl dep url ref) ms)
  else
    (.error "dependency is not a path dependency", ms)

/-- `PubspecYaml.UpdatePathDependency` (internal/pubspec/pubspec.go). -/
def UpdatePathDependency (dep p : List Char) (ms : Manifest) :
    Except String Unit × Manifest :=
  if hasPathMatch dep true ms then
    (.ok (), replacePathAll dep true (pathReplP dep p) ms)
  else
    (.error "dependency is not a path dependency", ms)

/-- Comment out one line with the `# ` prefix. -/
def commentLine (l : Line) : Line := '#' :: ' ' :: l

/-- Strip one `# ` comment prefix. -/
def stripComment (l : Line) : Option Line :=
  match l with
  | '#' :: ' ' :: r => some r
  | _ => none

/-- Whether a line carries the `# ` comment prefix. -/
def isCommentLine (l : Line) : Bool := (stripComment l).isSome

/-- Helper of `CommentGitDependencyAndAddPath`: rewrite the first git-shape
block of `dep`, or `none` when no block matches. -/
def commentGo (dep p : List Char) : Manifest → Option Manifest
  | [] => none
  | l1 :: rest =>
    match matchGitAt dep (l1 :: rest) with
    | some m =>
      some (pathReplG dep p m
        ++ ((l1 :: rest).take m.len).map commentLine
        ++ (l1 :: rest).drop m.len)
    | none =>
      match commentGo dep p rest with
      | some c => some (l1 :: c)
      | none => none

/-- Modelled from the spec: `PubspecYaml.CommentGitDependencyAndAddPath` is
called by the orchestrator (part_006) but its definition is not among the
source files.  Spec 4.2: "requires git-shape; rewrites the block so that a
path-shape block precedes a line-by-line commented-out copy of the original
git-shape" (each line prefixed with `# `). -/
def CommentGitDependencyAndAddPath (dep p : List Char) (ms : Manifest) :
    Except String Unit × Manifest :=
  match commentGo dep p ms with
  | some c => (.ok (), c)
  | none => (.error "dependency is not a git dependency", ms)

/-- Locate a commented-git-over-path region for `dep` at the head of the line
list: a path-shape block for `dep` directly followed by `# `-commented lines
whose uncommented form is a git-shape block for `dep`.  Returns the restored
git-shape lines and the number of commented lines consumed. -/
def matchCommentedAt (dep : List Char) : Manifest → Option (Manifest × Nat)
  | l1 :: l2 :: rest =>
    match headIndent dep l1 with
    | some _ =>
      if keyedLine "path:".data l2 then
        let us := (rest.takeWhile isCommentLine).filterMap stripComment
        match matchGitAt dep us with
        | some m => some (us.take m.len, m.len)
        | none => none
      else none
    | none => none
  | _ => none

/-- Helper of `UncommentGitDependencyAndRemovePath`: restore the first
commented-git-over-path region of `dep`, or `none` when none matches. -/
def uncommentGo (dep : List Char) : Manifest → Option Manifest
  | [] => none
  | l1 :: rest =>
    match matchCommentedAt dep (l1 :: rest) with
    | some (gl, used) => some (gl ++ rest.drop (1 + used))
    | none =>
      match uncommentGo dep rest with
      | some c => some (l1 :: c)
      | none => none

/-- Modelled from the spec: `PubspecYaml.UncommentGitDependencyAndRemovePath`
is called by the orchestrator (part_006) but its definition is not among the
source files.  Spec 4.2: "requires commented-git-over-path shape; replaces the
entire region with a restored git-shape block reconstructed from the commented
lines. Fails if the pattern is not found." -/
def UncommentGitDependencyAndRemovePath (dep : List Char) (ms : Manifest) :
    Except String Unit × Manifest :=
  match uncommentGo dep ms with
  | some c => (.ok (), c)
  | none => (.error "commented git dependency not found", ms)

/-! ## Configuration store (internal/config/config.go) -/

/-- A configured repository (`config.Repository`); `alias` is `""` when absent
(the Go zero value). -/
structure Repository where
  name : String
  /-- The Go `Alias` field (`alias` is a Lean keyword). -/
  aliasName : String
  path : String
deriving DecidableEq, Repr

/-- The workspace descriptor (`config.Config`); `contexts` is an association
list standing for the Go map. -/
structure Config where
  repos : List Repository
  master : String
  mode : String
  mainBranch : String
  contexts : List (String × List String)
deriving DecidableEq, Repr

/-- The recurring Go idiom `repoIdentifier := repo.Alias; if "" use Name`. -/
def Repository.identifier (r : Repository) : String :=
  if r.aliasName = "" then r.name else r.aliasName

/-- The alias-or-name resolution test used by `GetRepoByAlias` and
`AddContext`: the alias matches when set, otherwise the name. -/
def Repository.resolvesAs (r : Repository) (a : String) : Bool :=
  (r.aliasName != "" && r.aliasName == a) || (r.aliasName == "" && r.name == a)

/-- `Config.GetRepoByAlias`. -/
def Config.getRepoByAlias (c : Config) (a : String) : Except String Repository :=
  match c.repos.find? (fun r => r.resolvesAs a) with
  | some r => .ok r
  | none => .error "repository alias not found"

/-- Lookup in the `contexts` map. -/
def Config.ctxLookup (c : Config) (name : String) : Option (List String) :=
  (c.contexts.find? (fun p => p.1 == name)).map (·.2)

/-- Resolve a list of alias-or-name references, failing on the first that
does not resolve (the loop body of `GetContextRepos`). -/
def Config.resolveAll (c : Config) : List String → Except String (List Repository)
  | [] => .ok []
  | a :: t =>
    match c.getRepoByAlias a with
    | .error e => .error e
    | .ok r =>
      match c.resolveAll t with
      | .error e => .error e
      | .ok rs => .ok (r :: rs)

/-- `Config.GetContextRepos`: the synthetic `main`/`master` context contains
every configured repository. -/
def Config.getContextRepos (c : Config) (ctx : String) : Except String (List Repository) :=
  if ctx = "main" ∨ ctx = "master" then .ok c.repos
  else
    match c.ctxLookup ctx with
    | none => .error "context not found"
    | some aliases => c.resolveAll aliases

/-- `Config.GetContextNames`: the synthetic `main` context first. -/
def Config.getContextNames (c : Config) : List String :=
  "main" :: c.contexts.map (·.1)

/-- `Config.ContextExists` (the synthetic context is not in the map). -/
def Config.contextExists (c : Config) (name : String) : Bool :=
  (c.ctxLookup name).isSome

/-- Go map assignment on the association list. -/
def setAssoc (m : List (String × List String)) (k : String) (v : List String) :
    List (String × List String) :=
  if m.any (fun p => p.1 == k) then
    m.map (fun p => if p.1 == k then (k, v) else p)
  else m ++ [(k, v)]

/-- `Config.AddContext`: validates that every supplied alias-or-name resolves,
then stores the context.  Note that it performs no reserved-name check. -/
def Config.addContext (c : Config) (name : String) (aliases : List String) :
    Except String Config :=
  if aliases.all (fun a => c.repos.any (fun r => r.resolvesAs a)) then
    .ok { c with contexts := setAssoc c.contexts name aliases }
  else .error "repository alias not found"

/-- `Config.RemoveContext`: the existence check precedes the reserved-name
check, so for `main`/`master` (never map keys) it fails with the
does-not-exist error. -/
def Config.removeContext (c : Config) (name : String) : Except String Config :=
  if !(c.contextExists name) then .error "context does not exist"
  else if name = "main" ∨ name = "master" then .error "cannot remove built-in context"
  else .ok { c with contexts := c.contexts.filter (fun p => !(p.1 == name)) }

/-- `Config.IsContextContainsMaster`. -/
def Config.isContextContainsMaster (c : Config) (ctx : String) : Bool :=
  if c.master = "" then false
  else if ctx = "main" ∨ ctx = "master" then true
  else
    match c.ctxLookup ctx with
    | none => false
    | some aliases => aliases.any (fun a => a == c.master)

/-- `Config.GetMasterRepo`. -/
def Config.getMasterRepo (c : Config) : Except String Repository :=
  if c.master = "" then .error "no master repository configured"
  else c.getRepoByAlias c.master

/-- `Config.GetNonMasterReposForContext`. -/
def Config.getNonMasterReposForContext (c : Config) (ctx : String) :
    Except String (List Repository) :=
  match c.getContextRepos ctx with
  | .error e => .error e
  | .ok rs => .ok (rs.filter (fun r => !(r.identifier == c.master)))

/-- `Config.IsBranchMode`. -/
def Config.isBranchMode (c : Config) : Bool := c.mode == "branch"

/-- `Config.GetMainBranch`. -/
def Config.getMainBranch (c : Config) : String :=
  if c.mainBranch = "" then "main" else c.mainBranch

/-! ## Git and filesystem state

A `World` holds the state the orchestrator manipulates: per-repository git
state (branches, stashes, attached worktrees), the current-context pointer
file, the manifests on disk, their backups, and the saved workspace
descriptor.  Worktrees share the branch list and the stash list of their
owning repository, as in git. -/

/-- A worktree registered with a repository. -/
structure GitWt where
  path : String
  branch : String
  dirty : Bool
deriving DecidableEq, Repr

/-- Git state of one repository (keyed by its primary path). -/
structure RepoGit where
  isGit : Bool
  branches : List String
  current : String
  dirty : Bool
  /-- Stash messages, newest first (as `git stash list` reports them). -/
  stashes : List String
  wts : List GitWt
deriving DecidableEq, Repr

/-- The mutable state visible to the orchestrator. -/
structure World where
  repoPaths : List String
  repoSt : String → RepoGit
  ctxFile : Option String
  manifests : String → Option Manifest
  backups : String → Option Manifest
  savedCfg : Option Config

/-- Mutating git subprocess invocations (and the pointer write), recorded in
the execution trace in invocation order. -/
inductive GitOp where
  | checkout (dir branch : String)
  | createBranch (dir branch : String)
  | stashPushOp (dir msg : String)
  | stashPopOp (dir msg : String)
  | wtAdd (repoPath wtPath branch : String)
  | wtRemove (repoPath wtPath : String)
  | branchDel (repoPath branch : String)
  | setPointer (name : String)
deriving DecidableEq, Repr

/-- Outcome of the interactive stash-confirmation prompt
(`tui.RunStashConfirmation`): an answer, or a failure with its message
(a message mentioning `TTY` stands for the no-terminal failure). -/
inductive TuiRes where
  | answer (confirmed : Bool)
  | tuiErr (msg : String)
deriving DecidableEq, Repr

/-- The environment: which mutating git commands succeed, and the outcomes of
the interactive prompts. -/
structure Env where
  gitOk : GitOp → Bool
  stashGate : TuiRes
  deleterSel : Except String (List String)

/-- Resolve a directory to the primary path of the repository owning it
(either the directory is a primary path, or a registered worktree). -/
def World.ownerOf (w : World) (dir : String) : Option String :=
  if w.repoPaths.contains dir then some dir
  else w.repoPaths.find? (fun p => (w.repoSt p).wts.any (fun t => t.path == dir))

/-- `GitRepo.IsGitRepo` for a directory. -/
def World.isGitDir (w : World) (dir : String) : Bool :=
  match w.ownerOf dir with
  | some p => (w.repoSt p).isGit
  | none => false

/-- Directory existence (`os.Stat`): primary paths and registered worktrees. -/
def World.dirExists (w : World) (dir : String) : Bool := (w.ownerOf dir).isSome

/-- Point update of one repository's git state. -/
def World.updRepo (w : World) (p : String) (f : RepoGit → RepoGit) : World :=
  { w with repoSt := fun q => if q = p then f (w.repoSt q) else w.repoSt q }

/-- The branch checked out in a directory (primary checkout or worktree). -/
def World.curBranch (w : World) (dir : String) : Option String :=
  if w.repoPaths.contains dir then some (w.repoSt dir).current
  else
    match w.ownerOf dir with
    | some p => ((w.repoSt p).wts.find? (fun t => t.path == dir)).map (·.branch)
    | none => none

/-- Whether a directory's working tree has uncommitted changes. -/
def World.dirDirty (w : World) (dir : String) : Option Bool :=
  if w.repoPaths.contains dir then some (w.repoSt dir).dirty
  else
    match w.ownerOf dir with
    | some p => ((w.repoSt p).wts.find? (fun t => t.path == dir)).map (·.dirty)
    | none => none

/-- Rebind the branch checked out in a directory. -/
def World.setDirBranch (w : World) (dir branch : String) : World :=
  if w.repoPaths.contains dir then
    w.updRepo dir (fun rs => { rs with current := branch })
  else
    match w.ownerOf dir with
    | some p =>
      w.updRepo p (fun rs =>
        { rs with wts := rs.wts.map (fun t => if t.path == dir then { t with branch := branch } else t) })
    | none => w

/-- Set the dirty flag of a directory's working tree. -/
def World.setDirDirty (w : World) (dir : String) (d : Bool) : World :=
  if w.repoPaths.contains dir then
    w.updRepo dir (fun rs => { rs with dirty := d })
  else
    match w.ownerOf dir with
    | some p =>
      w.updRepo p (fun rs =>
        { rs with wts := rs.wts.map (fun t => if t.path == dir then { t with dirty := d } else t) })
    | none => w

/-! ## The effect monad

`M α` threads the world, the trace of attempted mutating git commands, and a
Go-style error value. -/

/-- State + error + trace monad of the embedded program. -/
abbrev M (α : Type) := World → Except String α × World × List GitOp

/-- `pure` of `M`. -/
def mret {α : Type} (a : α) : M α := fun w => (.ok a, w, [])

/-- `bind` of `M`: error short-circuits; traces concatenate. -/
def mbind {α β : Type} (x : M α) (f : α → M β) : M β := fun w =>
  match x w with
  | (.error e, w', t) => (.error e, w', t)
  | (.ok a, w', t) =>
    let r := f a w'
    (r.1, r.2.1, t ++ r.2.2)

instance : Monad M where
  pure := mret
  bind := mbind

/-- A Go `return err`. -/
def mfail {α : Type} (e : String) : M α := fun w => (.error e, w, [])

/-- The Go `if err := ...; err != nil { log } ` idiom: run, tolerate failure. -/
def mtry (x : M Unit) : M Unit := fun w =>
  match x w with
  | (.error _, w', t) => (.ok (), w', t)
  | r => r

/-- Lift a pure `Except` computation (configuration queries). -/
def liftE {α : Type} (e : Except String α) : M α := fun w => (e, w, [])

/-- Lift a pure read of the world. -/
def readW {α : Type} (f : World → α) : M α := fun w => (.ok (f w), w, [])

/-- Remove the first matching element (popping one stash entry). -/
def removeFirst {α : Type} (p : α → Bool) : List α → List α
  | [] => []
  | a :: t => if p a then t else a :: removeFirst p t

/-- The stash label `alfred-context-<context>`. -/
def stashMsg (ctx : String) : String := "alfred-context-" ++ ctx

/-! ### Git adapter operations (internal/git/git.go)

Read-only queries are modelled as reliable; mutating commands consult the
environment oracle and are recorded in the trace. -/

/-- `GitRepo.IsGitRepo`. -/
def gIsGitRepo (dir : String) : M Bool := readW (fun w => w.isGitDir dir)

/-- `GitRepo.GetCurrentBranch`. -/
def gCurrentBranch (dir : String) : M String := fun w =>
  match w.curBranch dir with
  | some b => (.ok b, w, [])
  | none => (.error "failed to get current branch", w, [])

/-- `GitRepo.HasUncommittedChanges`. -/
def gHasChanges (dir : String) : M Bool := fun w =>
  match w.dirDirty dir with
  | some b => (.ok b, w, [])
  | none => (.error "failed to check git status", w, [])

/-- `GitRepo.BranchExists` (`show-ref`; local branches are shared between a
repository and its worktrees). -/
def gBranchExists (dir branch : String) : M Bool := fun w =>
  match w.ownerOf dir with
  | some p => (.ok ((w.repoSt p).branches.contains branch), w, [])
  | none => (.error "failed to check if branch exists", w, [])

/-- `GitRepo.StashChanges` (`stash push -m msg`): pushes onto the owning
repository's stash list, clearing the directory's dirty flag. -/
def gStashPush (env : Env) (dir msg : String) : M Unit := fun w =>
  match w.ownerOf dir with
  | some p =>
    if env.gitOk (.stashPushOp dir msg) then
      (.ok (),
        (w.updRepo p (fun rs => { rs with stashes := msg :: rs.stashes })).setDirDirty dir false,
        [.stashPushOp dir msg])
    else (.error "failed to stash changes", w, [.stashPushOp dir msg])
  | none => (.error "failed to stash changes", w, [.stashPushOp dir msg])

/-- `GitRepo.PopStash`: scans the stash list for the first (newest) entry
containing the message; absence is an error reported without running a
subprocess; an environment-failed pop (conflict) leaves the stash in place. -/
def gStashPop (env : Env) (dir msg : String) : M Unit := fun w =>
  match w.ownerOf dir with
  | none => (.error "failed to list stashes", w, [])
  | some p =>
    if (w.repoSt p).stashes.any (fun s => strContains s msg) then
      if env.gitOk (.stashPopOp dir msg) then
        (.ok (),
          ((w.updRepo p (fun rs =>
            { rs with stashes := removeFirst (fun s => strContains s msg) rs.stashes })).setDirDirty dir true),
          [.stashPopOp dir msg])
      else (.error "failed to pop stash", w, [.stashPopOp dir msg])
    else (.error "stash not found", w, [])

/-- `GitRepo.CreateBranch` (`checkout -b branch HEAD`): fails when the branch
already exists; on success the directory moves to the new branch. -/
def gCreateBranch (env : Env) (dir branch : String) : M Unit := fun w =>
  match w.ownerOf dir with
  | none => (.error "failed to create branch", w, [.createBranch dir branch])
  | some p =>
    if (w.repoSt p).branches.contains branch then
      (.error "failed to create branch", w, [.createBranch dir branch])
    else if env.gitOk (.createBranch dir branch) then
      (.ok (),
        (w.updRepo p (fun rs => { rs with branches := branch :: rs.branches })).setDirBranch dir branch,
        [.createBranch dir branch])
    else (.error "failed to create branch", w, [.createBranch dir branch])

/-- `GitRepo.CheckoutBranch`: succeeds when the branch exists and the
environment lets the command through. -/
def gCheckout (env : Env) (dir branch : String) : M Unit := fun w =>
  match w.ownerOf dir with
  | none => (.error "failed to checkout branch", w, [.checkout dir branch])
  | some p =>
    if (w.repoSt p).branches.contains branch && env.gitOk (.checkout dir branch) then
      (.ok (), w.setDirBranch dir branch, [.checkout dir branch])
    else (.error "failed to checkout branch", w, [.checkout dir branch])

/-- `GitRepo.CreateWorktree` (`worktree add [-b]`): registers the worktree,
creating the branch when it does not exist yet. -/
def gWtAddRaw (env : Env) (repoPath wtPath branch : String) : M Unit := fun w =>
  if w.repoPaths.contains repoPath then
    if env.gitOk (.wtAdd repoPath wtPath branch) then
      (.ok (),
        w.updRepo repoPath (fun rs =>
          { rs with
            branches := if rs.branches.contains branch then rs.branches else branch :: rs.branches,
            wts := rs.wts ++ [{ path := wtPath, branch := branch, dirty := false }] }),
        [.wtAdd repoPath wtPath branch])
    else (.error "failed to create worktree", w, [.wtAdd repoPath wtPath branch])
  else (.error "failed to create worktree", w, [.wtAdd repoPath wtPath branch])

/-- `GitRepo.RemoveWorktree`: a no-op (without a subprocess) when the path
does not exist; otherwise `worktree remove --force`. -/
def gWtRemove (env : Env) (repoPath wtPath : String) : M Unit := fun w =>
  if w.repoPaths.contains repoPath && (w.repoSt repoPath).wts.any (fun t => t.path == wtPath) then
    if env.gitOk (.wtRemove repoPath wtPath) then
      (.ok (),
        w.updRepo repoPath (fun rs =>
          { rs with wts := rs.wts.filter (fun t => !(t.path == wtPath)) }),
        [.wtRemove repoPath wtPath])
    else (.error "failed to remove worktree", w, [.wtRemove repoPath wtPath])
  else (.ok (), w, [])

/-- `GitRepo.WorktreeExists` (via the porcelain worktree list). -/
def gWtExists (repoPath wtPath : String) : M Bool :=
  readW (fun w => (w.repoSt repoPath).wts.any (fun t => t.path == wtPath))

/-- `git branch -D` (inlined in `deleteBranchIfExists`): refuses to delete a
branch checked out in the primary working tree or any worktree. -/
def gBranchDelete (env : Env) (repoPath branch : String) : M Unit := fun w =>
  if w.repoPaths.contains repoPath then
    if !((w.repoSt repoPath).current == branch)
        && (w.repoSt repoPath).wts.all (fun t => !(t.branch == branch))
        && env.gitOk (.branchDel repoPath branch) then
      (.ok (),
        w.updRepo repoPath (fun r => { r with branches := r.branches.filter (fun b => !(b == branch)) }),
        [.branchDel repoPath branch])
    else (.error "failed to delete branch", w, [.branchDel repoPath branch])
  else (.error "failed to delete branch", w, [.branchDel repoPath branch])

/-- `GitRepo.HasStashForContext`. -/
def gHasStashForContext (dir ctx : String) : M Bool := fun w =>
  match w.ownerOf dir with
  | some p => (.ok ((w.repoSt p).stashes.any (fun s => strContains s (stashMsg ctx))), w, [])
  | none => (.error "failed to list stashes", w, [])

/-- `GitRepo.StashForContext`. -/
def gStashForContext (env : Env) (dir ctx : String) : M Unit :=
  gStashPush env dir (stashMsg ctx)

/-- `GitRepo.PopStashForContext`. -/
def gPopStashForContext (env : Env) (dir ctx : String) : M Unit :=
  gStashPop env dir (stashMsg ctx)

/-! ### Persisted state and manifests as world operations -/

/-- `Manager.GetCurrentContext`: absent file reads as `""`; the content is
passed through `strings.TrimSpace`. -/
def getCurrentContextM : M String :=
  readW (fun w => match w.ctxFile with | some s => trimStr s | none => "")

/-- `Manager.SetCurrentContext`: write the pointer file (recorded in the
trace as `setPointer`). -/
def setCurrentContextM (name : String) : M Unit := fun w =>
  (.ok (), { w with ctxFile := some name }, [.setPointer name])

/-- `pubspec.LoadPubspec` of the manifest in a directory. -/
def loadPubspecM (dir : String) : M Manifest := fun w =>
  match w.manifests dir with
  | some m => (.ok m, w, [])
  | none => (.error "failed to read pubspec", w, [])

/-- `os.Stat` on `<dir>/pubspec.yaml`. -/
def pubspecExistsM (dir : String) : M Bool := readW (fun w => (w.manifests dir).isSome)

/-- `PubspecYaml.Save`. -/
def savePubspecM (dir : String) (m : Manifest) : M Unit := fun w =>
  (.ok (), { w with manifests := fun q => if q = dir then some m else w.manifests q }, [])

/-- `PubspecYaml.BackupOriginal`: copy the on-disk manifest to its backup. -/
def backupPubspecM (dir : String) : M Unit := fun w =>
  match w.manifests dir with
  | some m => (.ok (), { w with backups := fun q => if q = dir then some m else w.backups q }, [])
  | none => (.error "failed to read original pubspec", w, [])

/-- `Config.Save` (the descriptor write is modelled as reliable). -/
def saveConfigM (cfg : Config) : M Unit := fun w =>
  (.ok (), { w with savedCfg := some cfg }, [])

/-- `flutter pub get`: an external post-hook whose outcome never affects the
orchestrator's state; modelled as a no-op. -/
def runFlutterNoop : M Unit := pure ()

/-! ## Worktree manager (the `worktree` package) -/

/-- `worktree.WorktreeInfo`. -/
structure WtInfo where
  repo : Repository
  worktreePath : String
  branchName : String
deriving DecidableEq, Repr

/-- `worktree.Manager.GetWorktreePath`: the deterministic sibling directory
`<repo-path>-<context>`. -/
def getWorktreePath (repo : Repository) (ctx : String) : String :=
  repo.path ++ "-" ++ ctx

/-- `worktree.Manager.CreateWorktreeForContext`: ensure a worktree bound to
the context branch exists at the deterministic path. -/
def createWorktreeForContext (env : Env) (repo : Repository) (ctx : String) : M WtInfo := do
  let isG ← gIsGitRepo repo.path
  if !isG then mfail "repository is not a git repository"
  else do
    let wtPath := getWorktreePath repo ctx
    let ex ← gWtExists repo.path wtPath
    if ex then pure () else gWtAddRaw env repo.path wtPath ctx
    pure { repo := repo, worktreePath := wtPath, branchName := ctx }

/-- `worktree.Manager.RemoveWorktreeForContext`. -/
def removeWorktreeForContext (env : Env) (repo : Repository) (ctx : String) : M Unit := do
  let wtPath := getWorktreePath repo ctx
  let ex ← gWtExists repo.path wtPath
  if ex then gWtRemove env repo.path wtPath else pure ()

/-- `worktree.Manager.ListWorktreesForContext`: the sub-list of repositories
whose worktree directory currently exists. -/
def listWorktreesForContext (repos : List Repository) (ctx : String) : M (List WtInfo) :=
  readW (fun w =>
    (repos.filter (fun r => w.dirExists (getWorktreePath r ctx))).map
      (fun r => { repo := r, worktreePath := getWorktreePath r ctx, branchName := ctx }))

/-- `worktree.Manager.HandleStashForWorktree`: push is conditional on
uncommitted changes; pop tolerates absence and conflicts. -/
def handleStashForWorktree (env : Env) (wt : WtInfo) (ctx : String) (op : String) : M Unit := do
  if op = "push" then do
    let hasCh ← gHasChanges wt.worktreePath
    if hasCh then gStashPush env wt.worktreePath (stashMsg ctx) else pure ()
  else if op = "pop" then
    mtry (gStashPop env wt.worktreePath (stashMsg ctx))
  else pure ()

/-! ## Context switcher orchestrator (the `context` package, part_006) -/

/-- `Manager.stashRepoChanges`. -/
def stashRepoChanges (env : Env) (repo : Repository) (ctx : String) : M Unit := do
  let isG ← gIsGitRepo repo.path
  if !isG then pure ()
  else do
    let hasCh ← gHasChanges repo.path
    if hasCh then gStashPush env repo.path (stashMsg ctx) else pure ()

/-- `Manager.stashAllRepos` (per-repository failures are warned, not fatal). -/
def stashAllRepos (env : Env) (repos : List Repository) (ctx : String) : M Unit :=
  match repos with
  | [] => pure ()
  | r :: rest => do
    mtry (stashRepoChanges env r ctx)
    stashAllRepos env rest ctx

/-- `Manager.restoreStashInRepo` (absence of the stash is a debug event). -/
def restoreStashInRepo (env : Env) (info : WtInfo) (ctx : String) : M Unit :=
  mtry (gStashPop env info.repo.path (stashMsg ctx))

/-- Local-branch existence as a boolean world query (the
`branchExists, err := ...; err == nil && branchExists` idiom: a query error
counts as not-found). -/
def branchExistsB (w : World) (dir branch : String) : Bool :=
  match w.ownerOf dir with
  | some p => (w.repoSt p).branches.contains branch
  | none => false

/-- The fallback candidates of `switchRepoToMainBranch`, with the configured
branch filtered out. -/
def mainCandidates (configured : String) : List String :=
  ["main", "master", "develop"].filter (fun b => !(b == configured))

/-- First branch of the list that exists locally. -/
def firstExisting (w : World) (dir : String) : List String → Option String
  | [] => none
  | b :: t => if branchExistsB w dir b then some b else firstExisting w dir t

/-- `Manager.switchRepoToMainBranch` (part_006 lines 292-340): try the
configured main branch, then `main`, `master`, `develop` (skipping the
configured one), and stay on the current branch when none exists. -/
def switchRepoToMainBranch (env : Env) (cfg : Config) (dir : String) : M Unit := fun w =>
  if branchExistsB w dir cfg.getMainBranch then gCheckout env dir cfg.getMainBranch w
  else
    match firstExisting w dir (mainCandidates cfg.getMainBranch) with
    | some b => gCheckout env dir b w
    | none =>
      match w.curBranch dir with
      | some _ => (.ok (), w, [])
      | none => (.error "failed to get current branch", w, [])

/-- The branch transition shared by `switchRepoToContext` and
`switchMasterRepoToContext`: `create-branch(ctx, HEAD)` when the branch does
not exist, else `checkout-branch(ctx)`. -/
def branchTransition (env : Env) (dir ctx : String) : M Unit := do
  let ex ← gBranchExists dir ctx
  if !ex then gCreateBranch env dir ctx
  else gCheckout env dir ctx

/-- `Manager.switchRepoToContext`. -/
def switchRepoToContext (env : Env) (cfg : Config) (repo : Repository) (ctx : String) : M Unit := do
  let isG ← gIsGitRepo repo.path
  if !isG then mfail "repository is not a git repository"
  else if ctx = "main" ∨ ctx = "master" then switchRepoToMainBranch env cfg repo.path
  else branchTransition env repo.path ctx

/-- `Manager.handleMasterRepoStashRestore`: restore the master's stash for the
target context where present; never fails. -/
def handleMasterRepoStashRestore (env : Env) (cfg : Config) (targetCtx : String) : M Unit :=
  match cfg.getMasterRepo with
  | .error _ => pure ()
  | .ok masterRepo => do
    let isG ← gIsGitRepo masterRepo.path
    if !isG then pure ()
    else
      mtry (do
        let has ← gHasStashForContext masterRepo.path targetCtx
        if has then mtry (gPopStashForContext env masterRepo.path targetCtx) else pure ())

/-- `Manager.switchMasterRepoToContext` (part_006 lines 217-255): branch
transition of the master repository in place, then stash restore. -/
def switchMasterRepoToContext (env : Env) (cfg : Config) (masterRepo : Repository)
    (ctx : String) : M Unit := do
  let isG ← gIsGitRepo masterRepo.path
  if !isG then mfail "master repository is not a git repository"
  else do
    branchTransition env masterRepo.path ctx
    mtry (handleMasterRepoStashRestore env cfg ctx)

/-- Model of Go `filepath.Rel` for the sibling paths involved; only the fact
that some path string is produced matters to the claims. -/
def relPath (_base target : String) : String := "../" ++ target

/-- The per-pair manifest edit of `updatePubspecFilesForWorktrees` (part_006
lines 589-648): comment-git-and-add-path keyed by the other repository's
package name, falling back to update-path-dependency; failures of both are
logged and skipped.  Master targets use the master's original path, non-master
targets their worktree path. -/
def updateManifestForWorktrees (cfg : Config) (wt : WtInfo) (all : List WtInfo)
    (ctx : String) (ms : Manifest) : Manifest :=
  all.foldl (fun acc other =>
    if other.repo.identifier == wt.repo.identifier then acc
    else
      let targetPath :=
        if other.repo.identifier == cfg.master then other.repo.path
        else getWorktreePath other.repo ctx
      let rel := relPath wt.worktreePath targetPath
      match CommentGitDependencyAndAddPath other.repo.name.data rel.data acc with
      | (.ok _, ms') => ms'
      | (.error _, _) =>
        match UpdatePathDependency other.repo.name.data rel.data acc with
        | (.ok _, ms') => ms'
        | (.error _, _) => acc) ms

/-- The per-worktree body of `updatePubspecFilesForWorktrees`: load, backup,
edit, save; a missing or unreadable manifest is skipped. -/
def updatePubspecWtGo (cfg : Config) (all : List WtInfo) (ctx : String) :
    List WtInfo → M Unit
  | [] => pure ()
  | wt :: rest => do
    mtry (do
      let ex ← pubspecExistsM wt.worktreePath
      if !ex then pure ()
      else do
        let ms ← loadPubspecM wt.worktreePath
        mtry (backupPubspecM wt.worktreePath)
        savePubspecM wt.worktreePath (updateManifestForWorktrees cfg wt all ctx ms))
    updatePubspecWtGo cfg all ctx rest

/-- `Manager.updatePubspecFilesForWorktrees` (always returns success). -/
def updatePubspecFilesForWorktrees (cfg : Config) (wts : List WtInfo) (ctx : String) : M Unit :=
  updatePubspecWtGo cfg wts ctx wts

/-- The per-pair manifest edit of `updatePubspecFilesForBranchMode` (part_006
lines 476-538): comment-git-and-add-path keyed by package name, no fallback. -/
def updateManifestForBranchMode (wt : WtInfo) (all : List WtInfo) (ms : Manifest) : Manifest :=
  all.foldl (fun acc other =>
    if other.repo.identifier == wt.repo.identifier then acc
    else
      let rel := relPath wt.worktreePath other.worktreePath
      match CommentGitDependencyAndAddPath other.repo.name.data rel.data acc with
      | (.ok _, ms') => ms'
      | (.error _, _) => acc) ms

/-- The per-repository body of `updatePubspecFilesForBranchMode`. -/
def updatePubspecBrGo (all : List WtInfo) : List WtInfo → M Unit
  | [] => pure ()
  | wt :: rest => do
    mtry (do
      let ex ← pubspecExistsM wt.worktreePath
      if !ex then pure ()
      else do
        let ms ← loadPubspecM wt.worktreePath
        mtry (backupPubspecM wt.worktreePath)
        savePubspecM wt.worktreePath (updateManifestForBranchMode wt all ms))
    updatePubspecBrGo all rest

/-- `Manager.updatePubspecFilesForBranchMode` (always returns success). -/
def updatePubspecFilesForBranchMode (infos : List WtInfo) : M Unit :=
  updatePubspecBrGo infos infos

/-- Stash-push loop over the source context's worktrees. -/
def stashWtsLoop (env : Env) (wts : List WtInfo) (ctx : String) : M Unit :=
  match wts with
  | [] => pure ()
  | wt :: rest => do
    mtry (handleStashForWorktree env wt ctx "push")
    stashWtsLoop env rest ctx

/-- `Manager.stashCurrentContextWorktrees`. -/
def stashCurrentContextWorktrees (env : Env) (cfg : Config) (ctx : String) : M Unit := do
  let nonMaster ← liftE (cfg.getNonMasterReposForContext ctx)
  let wts ← listWorktreesForContext nonMaster ctx
  stashWtsLoop env wts ctx

/-- The dependency loop of `revertMasterDependenciesToGit`: uncomment the git
block of every other repository's package name; per-dependency failures are
logged and skipped. -/
def revertLoop (cfg : Config) (masterRepo : Repository) (ms : Manifest) : Manifest :=
  cfg.repos.foldl (fun acc repo =>
    if repo.aliasName == masterRepo.aliasName || repo.name == masterRepo.name then acc
    else
      match UncommentGitDependencyAndRemovePath repo.name.data acc with
      | (.ok _, ms') => ms'
      | (.error _, _) => acc) ms

/-- `Manager.revertMasterDependenciesToGit` (part_006 lines 966-1002). -/
def revertMasterDependenciesToGit (cfg : Config) (masterRepo : Repository) : M Unit := do
  let ex ← pubspecExistsM masterRepo.path
  if !ex then pure ()
  else do
    let ms ← loadPubspecM masterRepo.path
    savePubspecM masterRepo.path (revertLoop cfg masterRepo ms)

/-- Run a read; when it fails, warn and succeed, otherwise continue
(the `if err != nil { warn; return nil }` idiom). -/
def orSkip {α : Type} (x : M α) (f : α → M Unit) : M Unit := fun w =>
  match x w with
  | (.error _, w', t) => (.ok (), w', t)
  | (.ok a, w', t) =>
    let r := f a w'
    (r.1, r.2.1, t ++ r.2.2)

/-- `Manager.handleMasterRepoStashForMainSwitch` (part_006 lines 869-924): the
interactive stash gate guarding a switch to the main context. -/
def handleMasterRepoStashForMainSwitch (env : Env) (cfg : Config) (cur : String) : M Unit :=
  match cfg.getMasterRepo with
  | .error _ => pure ()
  | .ok masterRepo => do
    let isG ← gIsGitRepo masterRepo.path
    if !isG then pure ()
    else
      orSkip (gHasChanges masterRepo.path) (fun hasCh =>
        if !hasCh then pure ()
        else
          match env.stashGate with
          | .answer c =>
            if c then gStashForContext env masterRepo.path cur
            else mfail "switch cancelled by user"
          | .tuiErr msg =>
            if strContains msg "TTY" || strContains msg "tty" then
              gStashForContext env masterRepo.path cur
            else mfail ("stash confirmation failed: " ++ msg))

/-- Step 0 of `switchToMainContext` (part_006 lines 342-382, the
keep-worktrees variant): the interactive stash gate runs only when leaving a
user context. -/
def mainGateStep (env : Env) (cfg : Config) (cur : String) : M Unit :=
  if cur != "" && cur != "main" && cur != "master" then
    handleMasterRepoStashForMainSwitch env cfg cur
  else pure ()

/-- Steps 1-3 of `switchToMainContext` for a configured master: mainline
transition, manifest revert (tolerated), post-hook, pointer write. -/
def mainMasterPhase (env : Env) (cfg : Config) (mr : Repository) : M Unit := do
  switchRepoToMainBranch env cfg mr.path
  mtry (revertMasterDependenciesToGit cfg mr)
  runFlutterNoop
  setCurrentContextM "main"

/-- `Manager.switchToMainContext` (part_006 lines 342-382, the keep-worktrees
variant): stash gate, master to its mainline, master manifest reverted,
pointer set to `main`.  A missing master is only warned about. -/
def switchToMainContext (env : Env) (cfg : Config) (cur : String) : M Unit := do
  mainGateStep env cfg cur
  match cfg.getMasterRepo with
  | .error _ => setCurrentContextM "main"
  | .ok masterRepo => mainMasterPhase env cfg masterRepo

/-- The step-2 loop of `switchContextBranchMode`: move every repository to the
context branch, collecting the repo records used afterwards. -/
def switchReposLoop (env : Env) (cfg : Config) (ctx : String) :
    List Repository → M (List WtInfo)
  | [] => pure []
  | r :: rest => do
    switchRepoToContext env cfg r ctx
    let infos ← switchReposLoop env cfg ctx rest
    pure ({ repo := r, worktreePath := r.path, branchName := ctx } :: infos)

/-- The step-3 loop of `switchContextBranchMode`. -/
def restoreStashLoop (env : Env) (ctx : String) : List WtInfo → M Unit
  | [] => pure ()
  | i :: rest => do
    mtry (restoreStashInRepo env i ctx)
    restoreStashLoop env ctx rest

/-- Step 1 of `switchContextBranchMode`: stash only when a context is
active. -/
def maybeStashAll (env : Env) (repos : List Repository) (cur : String) : M Unit :=
  if cur != "" then mtry (stashAllRepos env repos cur) else pure ()

/-- Steps 3-6 of `switchContextBranchMode`: stash restore, manifest rewrite,
pointer write, post-hook. -/
def switchBranchRest (env : Env) (ctx : String) (infos : List WtInfo) : M Unit := do
  restoreStashLoop env ctx infos
  updatePubspecFilesForBranchMode infos
  setCurrentContextM ctx
  mtry runFlutterNoop

/-- `Manager.switchContextBranchMode` (part_006 lines 81-135). -/
def switchContextBranchMode (env : Env) (cfg : Config) (ctx cur : String) : M Unit := do
  let repos ← liftE (cfg.getContextRepos ctx)
  maybeStashAll env repos cur
  let infos ← switchReposLoop env cfg ctx repos
  switchBranchRest env ctx infos

/-- The step-3 loop of `switchContextWorktreeMode`: create the per-context
worktree of every non-master repository. -/
def createWtLoop (env : Env) (ctx : String) : List Repository → M (List WtInfo)
  | [] => pure []
  | r :: rest => do
    let info ← createWorktreeForContext env r ctx
    let infos ← createWtLoop env ctx rest
    pure (info :: infos)

/-- The step-4 loop of `switchContextWorktreeMode`: pop the target-context
stash in every non-master worktree. -/
def popWtLoop (env : Env) (cfg : Config) (ctx : String) : List WtInfo → M Unit
  | [] => pure ()
  | i :: rest => do
    if i.repo.aliasName != cfg.master then mtry (handleStashForWorktree env i ctx "pop")
    else pure ()
    popWtLoop env cfg ctx rest

/-- Step 2 of `switchContextWorktreeMode`: stash the source context's
worktrees only when a context is active. -/
def maybeStashCurrent (env : Env) (cfg : Config) (cur : String) : M Unit :=
  if cur != "" then mtry (stashCurrentContextWorktrees env cfg cur) else pure ()

/-- Step 1 of `switchContextWorktreeMode`: the master repository's branch
transition, producing its synthetic worktree record when it participates. -/
def masterPhase (env : Env) (cfg : Config) (ctx : String) : M (Option WtInfo) :=
  if cfg.isContextContainsMaster ctx then do
    let masterRepo ← liftE cfg.getMasterRepo
    switchMasterRepoToContext env cfg masterRepo ctx
    pure (some ({ repo := masterRepo, worktreePath := masterRepo.path,
                  branchName := ctx } : WtInfo))
  else pure none

/-- Steps 4-7 of `switchContextWorktreeMode`: stash pops, manifest rewrite,
pointer write, post-hook. -/
def switchWtRest (env : Env) (cfg : Config) (ctx : String) (contextWts : List WtInfo) :
    M Unit := do
  popWtLoop env cfg ctx contextWts
  updatePubspecFilesForWorktrees cfg contextWts ctx
  setCurrentContextM ctx
  mtry runFlutterNoop

/-- The master repository record is prepended to the worktree list when it
participates. -/
def miList : Option WtInfo → List WtInfo
  | some i => [i]
  | none => []

/-- Steps 2-7 of `switchContextWorktreeMode`. -/
def switchWtTail (env : Env) (cfg : Config) (ctx cur : String) (masterInfo? : Option WtInfo) :
    M Unit := do
  maybeStashCurrent env cfg cur
  let nonMaster ← liftE (cfg.getNonMasterReposForContext ctx)
  let wtInfos ← createWtLoop env ctx nonMaster
  switchWtRest env cfg ctx (miList masterInfo? ++ wtInfos)

/-- `Manager.switchContextWorktreeMode` (part_006 lines 137-215). -/
def switchContextWorktreeMode (env : Env) (cfg : Config) (ctx cur : String) : M Unit := do
  if ctx = "main" ∨ ctx = "master" then switchToMainContext env cfg cur
  else do
    let masterInfo? ← masterPhase env cfg ctx
    switchWtTail env cfg ctx cur masterInfo?

/-- `Manager.SwitchContext` (part_006 lines 61-79): read the current context,
no-op when already there, dispatch on the workspace mode. -/
def SwitchContext (env : Env) (cfg : Config) (ctx : String) : M Unit := do
  let cur ← getCurrentContextM
  if cur = ctx then pure ()
  else if cfg.isBranchMode then switchContextBranchMode env cfg ctx cur
  else switchContextWorktreeMode env cfg ctx cur

/-! ## Context deletion and the CLI command layer -/

/-- `Manager.deleteBranchIfExists`. -/
def deleteBranchIfExists (env : Env) (repo : Repository) (branch : String) : M Unit := do
  let isG ← gIsGitRepo repo.path
  if !isG then pure ()
  else do
    let ex ← gBranchExists repo.path branch
    if !ex then pure ()
    else gBranchDelete env repo.path branch

/-- The worktree-removal loop of `deleteContext` (failures warned). -/
def delWtLoop (env : Env) (ctx : String) : List Repository → M Unit
  | [] => pure ()
  | r :: rest => do
    mtry (removeWorktreeForContext env r ctx)
    delWtLoop env ctx rest

/-- The branch-deletion loop of `deleteContext` (failures warned). -/
def delBrLoop (env : Env) (ctx : String) : List Repository → M Unit
  | [] => pure ()
  | r :: rest => do
    mtry (deleteBranchIfExists env r ctx)
    delBrLoop env ctx rest

/-- `Manager.deleteContext` (part_006 lines 816-842): remove worktrees of the
non-master repositories, then force-delete the context branch everywhere. -/
def deleteContext (env : Env) (cfg : Config) (ctx : String) : M Unit := do
  let nonMaster ← liftE (cfg.getNonMasterReposForContext ctx)
  delWtLoop env ctx nonMaster
  let allRepos ← liftE (cfg.getContextRepos ctx)
  delBrLoop env ctx allRepos

/-- The phase-1 loop of `DeleteContexts` (an error aborts). -/
def deleteCtxLoop (env : Env) (cfg : Config) : List String → M Unit
  | [] => pure ()
  | n :: rest => do
    deleteContext env cfg n
    deleteCtxLoop env cfg rest

/-- The phase-2 fold of `DeleteContexts`: `RemoveContext` per name, failures
only warned. -/
def removeCtxFold (cfg : Config) : List String → Config
  | [] => cfg
  | n :: rest =>
    match cfg.removeContext n with
    | .ok c' => removeCtxFold c' rest
    | .error _ => removeCtxFold cfg rest

/-- `Manager.DeleteContexts` (part_006 lines 792-814): per-context deletion
(worktrees and branches), then the descriptor update and save.  Note that no
reserved-name check happens here. -/
def DeleteContexts (env : Env) (cfg : Config) (names : List String) : M Unit := do
  deleteCtxLoop env cfg names
  saveConfigM (removeCtxFold cfg names)

/-- `CreateCmd.Run` (part_001 lines 650-692), given the name and repository
selection returned by the interactive creator: reserved-name check, existence
check, `AddContext` validation, save. -/
def CreateCmdRun (cfg : Config) (contextName : String) (selectedRepos : List String) : M Unit := do
  if cfg.repos.isEmpty then mfail "no repositories configured"
  else if contextName = "main" ∨ contextName = "master" then
    mfail "cannot create context with reserved name"
  else if cfg.contextExists contextName then mfail "context already exists"
  else
    match cfg.addContext contextName selectedRepos with
    | .error e => mfail ("failed to add context: " ++ e)
    | .ok cfg' => saveConfigM cfg'

/-- The validation loop of `DeleteCmd.Run` over explicitly named contexts:
reserved names and unknown contexts are rejected before any deletion. -/
def validateDeleteArgs (allContexts : List String) : List String → Except String Unit
  | [] => .ok ()
  | n :: rest =>
    if n = "main" ∨ n = "master" then .error "cannot delete built-in main context"
    else if !(allContexts.contains n) then .error "context not found"
    else validateDeleteArgs allContexts rest

/-- The target-selection step of `DeleteCmd.Run`: validated explicit
arguments, or the interactive deleter (whose no-TTY failure selects
nothing). -/
def deleteTargets (env : Env) (allContexts : List String) (args : List String) :
    M (Option (List String)) :=
  if !args.isEmpty then do
    liftE (validateDeleteArgs allContexts args)
    pure (some args)
  else
    match env.deleterSel with
    | .error msg =>
      if strContains msg "TTY" || strContains msg "tty" then pure (none : Option (List String))
      else mfail msg
    | .ok sel => if sel.isEmpty then pure none else pure (some sel)

/-- `DeleteCmd.Run` (part_001 lines 698-769): validate explicit arguments (or
consult the interactive deleter), then hand over to `DeleteContexts`. -/
def DeleteCmdRun (env : Env) (cfg : Config) (args : List String) : M Unit := do
  let allContexts := cfg.getContextNames
  if allContexts.isEmpty then pure ()
  else do
    let target? ← deleteTargets env allContexts args
    match target? with
    | none => pure ()
    | some targets => DeleteContexts env cfg targets

/-! ## Proof infrastructure -/

instance {e a : Type} [DecidableEq e] [DecidableEq a] : DecidableEq (Except e a) := fun x y =>
  match x, y with
  | .ok u, .ok v =>
    if h : u = v then .isTrue (by rw [h]) else .isFalse (by intro hc; cases hc; exact h rfl)
  | .error u, .error v =>
    if h : u = v then .isTrue (by rw [h]) else .isFalse (by intro hc; cases hc; exact h rfl)
  | .ok _, .error _ => .isFalse (by intro hc; cases hc)
  | .error _, .ok _ => .isFalse (by intro hc; cases hc)

theorem bind_is_mbind {α β : Type} (x : M α) (f : α → M β) : x >>= f = mbind x f := rfl

theorem pure_is_mret {α : Type} (a : α) : (pure a : M α) = mret a := rfl

theorem mbind_err {α β : Type} {x : M α} {f : α → M β} {w : World} {e : String}
    {w' : World} {t : List GitOp} (h : x w = (.error e, w', t)) :
    mbind x f w = (.error e, w', t) := by
  unfold mbind; rw [h]

theorem mbind_ok {α β : Type} {x : M α} {f : α → M β} {w : World} {a : α}
    {w' : World} {t : List GitOp} (h : x w = (.ok a, w', t)) :
    mbind x f w = ((f a w').1, (f a w').2.1, t ++ (f a w').2.2) := by
  unfold mbind; rw [h]

theorem mtry_eq {x : M Unit} {w : World} :
    mtry x w = (.ok (), (x w).2.1, (x w).2.2) := by
  unfold mtry
  rcases h : x w with ⟨r, w', t⟩
  cases r with
  | error e => simp
  | ok a => cases a; simp

theorem orSkip_eq_read {α : Type} {x : M α} {f : α → M Unit} {w : World} {a : α}
    (h : x w = (.ok a, w, [])) : orSkip x f w = f a w := by
  unfold orSkip; rw [h]; simp

/-- The current-context value as read by `GetCurrentContext`. -/
def curCtx (w : World) : String :=
  match w.ctxFile with
  | some s => trimStr s
  | none => ""

theorem getCurrentContextM_eq {w : World} : getCurrentContextM w = (.ok (curCtx w), w, []) := rfl

/-! ### Classification of trace operations -/

/-- Branch checkouts, branch creations and worktree creations: the
"per-repository transitions" of the claims. -/
def isTransOp : GitOp → Bool
  | .checkout _ _ => true
  | .createBranch _ _ => true
  | .wtAdd _ _ _ => true
  | _ => false

/-- Stash pushes. -/
def isPushOp : GitOp → Bool
  | .stashPushOp _ _ => true
  | _ => false

/-- Worktree creations. -/
def isWtAddOp : GitOp → Bool
  | .wtAdd _ _ _ => true
  | _ => false

/-- Branch checkouts and creations (without worktree adds). -/
def isCkCrOp : GitOp → Bool
  | .checkout _ _ => true
  | .createBranch _ _ => true
  | _ => false

/-- Pointer writes. -/
def isPtrOp : GitOp → Bool
  | .setPointer _ => true
  | _ => false

/-! ### Compositional run predicates -/

/-- The run leaves the current-context pointer file untouched. -/
def CtxPres {α : Type} (x : M α) : Prop := ∀ w, ((x w).2.1).ctxFile = w.ctxFile

/-- Every operation of the trace satisfies `P`. -/
def TraceP {α : Type} (P : GitOp → Bool) (x : M α) : Prop :=
  ∀ w, ∀ op ∈ (x w).2.2, P op = true

/-- On a successful run, every transition in the trace was let through by the
environment (it "completed without error"). -/
def OkTrans (env : Env) {α : Type} (x : M α) : Prop :=
  ∀ w, (x w).1.isOk = true → ∀ op ∈ (x w).2.2, isTransOp op = true → env.gitOk op = true

/-- The run never fails. -/
def NeverErr {α : Type} (x : M α) : Prop := ∀ w, (x w).1.isOk = true

theorem ctxPres_mret {α : Type} (a : α) : CtxPres (mret a) := fun _ => rfl

theorem ctxPres_mfail {α : Type} (e : String) : CtxPres (mfail (α := α) e) := fun _ => rfl

theorem ctxPres_liftE {α : Type} (e : Except String α) : CtxPres (liftE e) := fun _ => rfl

theorem ctxPres_readW {α : Type} (f : World → α) : CtxPres (readW f) := fun _ => rfl

theorem ctxPres_mbind {α β : Type} {x : M α} {f : α → M β}
    (hx : CtxPres x) (hf : ∀ a, CtxPres (f a)) : CtxPres (mbind x f) := by
  intro w
  rcases h : x w with ⟨r, w', t⟩
  cases r with
  | error e =>
    rw [mbind_err h]
    have := hx w; rw [h] at this; exact this
  | ok a =>
    rw [mbind_ok h]
    have h1 := hx w; rw [h] at h1
    have h2 := hf a w'
    simp only []
    rw [h2, h1]

theorem ctxPres_bind {α β : Type} {x : M α} {f : α → M β}
    (hx : CtxPres x) (hf : ∀ a, CtxPres (f a)) : CtxPres (x >>= f) := by
  rw [bind_is_mbind]; exact ctxPres_mbind hx hf

theorem ctxPres_mtry {x : M Unit} (hx : CtxPres x) : CtxPres (mtry x) := by
  intro w
  rw [mtry_eq]
  exact hx w

theorem ctxPres_orSkip {α : Type} {x : M α} {f : α → M Unit}
    (hx : CtxPres x) (hf : ∀ a, CtxPres (f a)) : CtxPres (orSkip x f) := by
  intro w
  unfold orSkip
  rcases h : x w with ⟨r, w', t⟩
  cases r with
  | error e =>
    have := hx w; rw [h] at this; exact this
  | ok a =>
    have h1 := hx w; rw [h] at h1
    have h2 := hf a w'
    simp only []
    rw [h2, h1]

theorem ctxPres_ite {α : Type} {c : Prop} [Decidable c] {x y : M α}
    (hx : CtxPres x) (hy : CtxPres y) : CtxPres (if c then x else y) := by
  by_cases h : c
  · rw [if_pos h]; exact hx
  · rw [if_neg h]; exact hy

theorem traceP_mret {α : Type} (P : GitOp → Bool) (a : α) : TraceP P (mret a) := by
  intro w op hop; cases hop

theorem traceP_mfail {α : Type} (P : GitOp → Bool) (e : String) :
    TraceP P (mfail (α := α) e) := by
  intro w op hop; cases hop

theorem traceP_liftE {α : Type} (P : GitOp → Bool) (e : Except String α) :
    TraceP P (liftE e) := by
  intro w op hop; cases hop

theorem traceP_readW {α : Type} (P : GitOp → Bool) (f : World → α) :
    TraceP P (readW f) := by
  intro w op hop; cases hop

theorem traceP_mbind {α β : Type} {P : GitOp → Bool} {x : M α} {f : α → M β}
    (hx : TraceP P x) (hf : ∀ a, TraceP P (f a)) : TraceP P (mbind x f) := by
  intro w op hop
  rcases h : x w with ⟨r, w', t⟩
  cases r with
  | error e =>
    rw [mbind_err h] at hop
    have := hx w; rw [h] at this; exact this op hop
  | ok a =>
    rw [mbind_ok h] at hop
    simp only [List.mem_append] at hop
    rcases hop with hop | hop
    · have := hx w; rw [h] at this; exact this op hop
    · exact hf a w' op hop

theorem traceP_bind {α β : Type} {P : GitOp → Bool} {x : M α} {f : α → M β}
    (hx : TraceP P x) (hf : ∀ a, TraceP P (f a)) : TraceP P (x >>= f) := by
  rw [bind_is_mbind]; exact traceP_mbind hx hf

theorem traceP_mtry {P : GitOp → Bool} {x : M Unit} (hx : TraceP P x) :
    TraceP P (mtry x) := by
  intro w op hop
  rw [mtry_eq] at hop
  exact hx w op hop

theorem traceP_orSkip {α : Type} {P : GitOp → Bool} {x : M α} {f : α → M Unit}
    (hx : TraceP P x) (hf : ∀ a, TraceP P (f a)) : TraceP P (orSkip x f) := by
  intro w op hop
  unfold orSkip at hop
  rcases h : x w with ⟨r, w', t⟩
  cases r with
  | error e =>
    rw [h] at hop
    have := hx w; rw [h] at this; exact this op hop
  | ok a =>
    rw [h] at hop
    simp only [List.mem_append] at hop
    rcases hop with hop | hop
    · have := hx w; rw [h] at this; exact this op hop
    · exact hf a w' op hop

theorem traceP_ite {α : Type} {P : GitOp → Bool} {c : Prop} [Decidable c] {x y : M α}
    (hx : TraceP P x) (hy : TraceP P y) : TraceP P (if c then x else y) := by
  by_cases h : c
  · rw [if_pos h]; exact hx
  · rw [if_neg h]; exact hy

theorem okTrans_of_traceP {env : Env} {α : Type} {x : M α}
    (hx : TraceP (fun op => !isTransOp op) x) : OkTrans env x := by
  intro w _ op hop htr
  have := hx w op hop
  simp [htr] at this

theorem okTrans_mbind {env : Env} {α β : Type} {x : M α} {f : α → M β}
    (hx : OkTrans env x) (hf : ∀ a, OkTrans env (f a)) : OkTrans env (mbind x f) := by
  intro w hok op hop htr
  rcases h : x w with ⟨r, w', t⟩
  cases r with
  | error e =>
    rw [mbind_err h] at hok
    cases hok
  | ok a =>
    rw [mbind_ok h] at hok hop
    simp only [List.mem_append] at hop
    rcases hop with hop | hop
    · have := hx w; rw [h] at this
      exact this rfl op hop htr
    · exact hf a w' hok op hop htr

theorem okTrans_bind {env : Env} {α β : Type} {x : M α} {f : α → M β}
    (hx : OkTrans env x) (hf : ∀ a, OkTrans env (f a)) : OkTrans env (x >>= f) := by
  rw [bind_is_mbind]; exact okTrans_mbind hx hf

theorem okTrans_ite {env : Env} {α : Type} {c : Prop} [Decidable c] {x y : M α}
    (hx : OkTrans env x) (hy : OkTrans env y) : OkTrans env (if c then x else y) := by
  by_cases h : c
  · rw [if_pos h]; exact hx
  · rw [if_neg h]; exact hy

theorem neverErr_mtry (x : M Unit) : NeverErr (mtry x) := by
  intro w; rw [mtry_eq]; rfl

theorem neverErr_mret {α : Type} (a : α) : NeverErr (mret a) := fun _ => rfl

/-- Stash pops. -/
def isPopOp : GitOp → Bool
  | .stashPopOp _ _ => true
  | _ => false

/-- Monotonicity of trace classification. -/
theorem traceP_mono {α : Type} {P Q : GitOp → Bool} {x : M α}
    (h : ∀ op, P op = true → Q op = true) (hx : TraceP P x) : TraceP Q x :=
  fun w op hop => h op (hx w op hop)

/-- A read: the world and the trace are untouched. -/
def PureRead {α : Type} (x : M α) : Prop := ∀ w, (x w).2.1 = w ∧ (x w).2.2 = []

/-- A run that invokes no subprocess (empty trace). -/
def NoTrace {α : Type} (x : M α) : Prop := ∀ w, (x w).2.2 = []

theorem pureRead_ctxPres {α : Type} {x : M α} (h : PureRead x) : CtxPres x :=
  fun w => by rw [(h w).1]

theorem noTrace_traceP {α : Type} {P : GitOp → Bool} {x : M α} (h : NoTrace x) :
    TraceP P x := by
  intro w op hop
  rw [h w] at hop
  cases hop

theorem pureRead_traceP {α : Type} {P : GitOp → Bool} {x : M α} (h : PureRead x) :
    TraceP P x :=
  noTrace_traceP (fun w => (h w).2)

theorem pureRead_gIsGitRepo (dir : String) : PureRead (gIsGitRepo dir) :=
  fun _ => ⟨rfl, rfl⟩

theorem pureRead_readW {α : Type} (f : World → α) : PureRead (readW f) :=
  fun _ => ⟨rfl, rfl⟩

theorem pureRead_gCurrentBranch (dir : String) : PureRead (gCurrentBranch dir) := by
  intro w
  unfold gCurrentBranch
  rcases w.curBranch dir <;> exact ⟨rfl, rfl⟩

theorem pureRead_gHasChanges (dir : String) : PureRead (gHasChanges dir) := by
  intro w
  unfold gHasChanges
  rcases w.dirDirty dir <;> exact ⟨rfl, rfl⟩

theorem pureRead_gBranchExists (dir branch : String) : PureRead (gBranchExists dir branch) := by
  intro w
  unfold gBranchExists
  rcases w.ownerOf dir <;> exact ⟨rfl, rfl⟩

theorem pureRead_gHasStashForContext (dir ctx : String) :
    PureRead (gHasStashForContext dir ctx) := by
  intro w
  unfold gHasStashForContext
  rcases w.ownerOf dir <;> exact ⟨rfl, rfl⟩

theorem pureRead_liftE {α : Type} (e : Except String α) : PureRead (liftE e) :=
  fun _ => ⟨rfl, rfl⟩

theorem pureRead_mret {α : Type} (a : α) : PureRead (mret a) := fun _ => ⟨rfl, rfl⟩

theorem pureRead_mfail {α : Type} (e : String) : PureRead (mfail (α := α) e) :=
  fun _ => ⟨rfl, rfl⟩

theorem ctxFile_updRepo (w : World) (p : String) (f : RepoGit → RepoGit) :
    (w.updRepo p f).ctxFile = w.ctxFile := rfl

theorem ctxFile_setDirBranch (w : World) (dir branch : String) :
    (w.setDirBranch dir branch).ctxFile = w.ctxFile := by
  unfold World.setDirBranch
  split
  · rfl
  · rcases w.ownerOf dir <;> rfl

theorem ctxFile_setDirDirty (w : World) (dir : String) (d : Bool) :
    (w.setDirDirty dir d).ctxFile = w.ctxFile := by
  unfold World.setDirDirty
  split
  · rfl
  · rcases w.ownerOf dir <;> rfl

theorem ctxPres_gStashPush (env : Env) (dir msg : String) : CtxPres (gStashPush env dir msg) := by
  intro w
  unfold gStashPush
  split
  · split <;> simp [ctxFile_setDirDirty, ctxFile_updRepo]
  · rfl

theorem traceP_gStashPush {P : GitOp → Bool} (env : Env) (dir msg : String)
    (h : P (.stashPushOp dir msg) = true) : TraceP P (gStashPush env dir msg) := by
  intro w op hop
  unfold gStashPush at hop
  split at hop
  · split at hop <;> (simp at hop; rw [hop]; exact h)
  · simp at hop; rw [hop]; exact h

theorem ctxPres_gStashPop (env : Env) (dir msg : String) : CtxPres (gStashPop env dir msg) := by
  intro w
  unfold gStashPop
  split
  · rfl
  · split
    · split <;> simp [ctxFile_setDirDirty, ctxFile_updRepo]
    · rfl

theorem traceP_gStashPop {P : GitOp → Bool} (env : Env) (dir msg : String)
    (h : P (.stashPopOp dir msg) = true) : TraceP P (gStashPop env dir msg) := by
  intro w op hop
  unfold gStashPop at hop
  split at hop
  · simp at hop
  · split at hop
    · split at hop <;> (simp at hop; rw [hop]; exact h)
    · simp at hop

theorem ctxPres_gCheckout (env : Env) (dir branch : String) :
    CtxPres (gCheckout env dir branch) := by
  intro w
  unfold gCheckout
  split
  · rfl
  · split <;> simp [ctxFile_setDirBranch]

theorem traceP_gCheckout {P : GitOp → Bool} (env : Env) (dir branch : String)
    (h : P (.checkout dir branch) = true) : TraceP P (gCheckout env dir branch) := by
  intro w op hop
  unfold gCheckout at hop
  split at hop
  · simp at hop; rw [hop]; exact h
  · split at hop <;> (simp at hop; rw [hop]; exact h)

theorem okTrans_gCheckout (env : Env) (dir branch : String) :
    OkTrans env (gCheckout env dir branch) := by
  intro w hok op hop _
  unfold gCheckout at hok hop
  revert hok hop
  split
  · intro hok _
    simp [Except.isOk, Except.toBool] at hok
  · split
    · next hcond =>
      intro _ hop
      simp at hop
      rw [hop]
      exact (Bool.and_eq_true_iff.mp hcond).2
    · intro hok _
      simp [Except.isOk, Except.toBool] at hok

theorem ctxPres_gCreateBranch (env : Env) (dir branch : String) :
    CtxPres (gCreateBranch env dir branch) := by
  intro w
  unfold gCreateBranch
  split
  · rfl
  · split
    · rfl
    · split <;> simp [ctxFile_setDirBranch, ctxFile_updRepo]

theorem traceP_gCreateBranch {P : GitOp → Bool} (env : Env) (dir branch : String)
    (h : P (.createBranch dir branch) = true) : TraceP P (gCreateBranch env dir branch) := by
  intro w op hop
  unfold gCreateBranch at hop
  split at hop
  · simp at hop; rw [hop]; exact h
  · split at hop
    · simp at hop; rw [hop]; exact h
    · split at hop <;> (simp at hop; rw [hop]; exact h)

theorem okTrans_gCreateBranch (env : Env) (dir branch : String) :
    OkTrans env (gCreateBranch env dir branch) := by
  intro w hok op hop _
  unfold gCreateBranch at hok hop
  revert hok hop
  split
  · intro hok _
    simp [Except.isOk, Except.toBool] at hok
  · split
    · intro hok _
      simp [Except.isOk, Except.toBool] at hok
    · split
      · next hcond =>
        intro _ hop
        simp at hop
        rw [hop]
        exact hcond
      · intro hok _
        simp [Except.isOk, Except.toBool] at hok

theorem ctxPres_gWtAddRaw (env : Env) (repoPath wtPath branch : String) :
    CtxPres (gWtAddRaw env repoPath wtPath branch) := by
  intro w
  unfold gWtAddRaw
  split
  · split <;> simp [ctxFile_updRepo]
  · rfl

theorem traceP_gWtAddRaw {P : GitOp → Bool} (env : Env) (repoPath wtPath branch : String)
    (h : P (.wtAdd repoPath wtPath branch) = true) :
    TraceP P (gWtAddRaw env repoPath wtPath branch) := by
  intro w op hop
  unfold gWtAddRaw at hop
  split at hop
  · split at hop <;> (simp at hop; rw [hop]; exact h)
  · simp at hop; rw [hop]; exact h

theorem okTrans_gWtAddRaw (env : Env) (repoPath wtPath branch : String) :
    OkTrans env (gWtAddRaw env repoPath wtPath branch) := by
  intro w hok op hop _
  unfold gWtAddRaw at hok hop
  revert hok hop
  split
  · split
    · next hcond =>
      intro _ hop
      simp at hop
      rw [hop]
      exact hcond
    · intro hok _
      simp [Except.isOk, Except.toBool] at hok
  · intro hok _
    simp [Except.isOk, Except.toBool] at hok

theorem ctxPres_gWtRemove (env : Env) (repoPath wtPath : String) :
    CtxPres (gWtRemove env repoPath wtPath) := by
  intro w
  unfold gWtRemove
  split
  · split <;> simp [ctxFile_updRepo]
  · rfl

theorem traceP_gWtRemove {P : GitOp → Bool} (env : Env) (repoPath wtPath : String)
    (h : P (.wtRemove repoPath wtPath) = true) : TraceP P (gWtRemove env repoPath wtPath) := by
  intro w op hop
  unfold gWtRemove at hop
  split at hop
  · split at hop <;> (simp at hop; rw [hop]; exact h)
  · simp at hop

theorem pureRead_gWtExists (repoPath wtPath : String) : PureRead (gWtExists repoPath wtPath) :=
  fun _ => ⟨rfl, rfl⟩



theorem ctxPres_gBranchDelete (env : Env) (repoPath branch : String) :
    CtxPres (gBranchDelete env repoPath branch) := by
  intro w
  unfold gBranchDelete
  split
  · split <;> simp [ctxFile_updRepo]
  · rfl

theorem traceP_gBranchDelete {P : GitOp → Bool} (env : Env) (repoPath branch : String)
    (h : P (.branchDel repoPath branch) = true) : TraceP P (gBranchDelete env repoPath branch) := by
  intro w op hop
  unfold gBranchDelete at hop
  split at hop
  · split at hop <;> (simp at hop; rw [hop]; exact h)
  · simp at hop; rw [hop]; exact h

theorem noTrace_savePubspecM (dir : String) (m : Manifest) : NoTrace (savePubspecM dir m) :=
  fun _ => rfl

theorem ctxPres_savePubspecM (dir : String) (m : Manifest) : CtxPres (savePubspecM dir m) :=
  fun _ => rfl

theorem noTrace_backupPubspecM (dir : String) : NoTrace (backupPubspecM dir) := by
  intro w
  unfold backupPubspecM
  rcases w.manifests dir <;> rfl

theorem ctxPres_backupPubspecM (dir : String) : CtxPres (backupPubspecM dir) := by
  intro w
  unfold backupPubspecM
  rcases w.manifests dir <;> rfl

theorem pureRead_loadPubspecM (dir : String) : PureRead (loadPubspecM dir) := by
  intro w
  unfold loadPubspecM
  rcases w.manifests dir <;> exact ⟨rfl, rfl⟩

theorem pureRead_pubspecExistsM (dir : String) : PureRead (pubspecExistsM dir) :=
  fun _ => ⟨rfl, rfl⟩

theorem noTrace_saveConfigM (cfg : Config) : NoTrace (saveConfigM cfg) := fun _ => rfl

theorem ctxPres_saveConfigM (cfg : Config) : CtxPres (saveConfigM cfg) := fun _ => rfl

/-! ### Component lemmas -/

theorem neverErr_mbind {α β : Type} {x : M α} {f : α → M β}
    (hx : NeverErr x) (hf : ∀ a, NeverErr (f a)) : NeverErr (mbind x f) := by
  intro w
  rcases h : x w with ⟨r, w', t⟩
  cases r with
  | error e =>
    have := hx w; rw [h] at this
    simp [Except.isOk, Except.toBool] at this
  | ok a =>
    rw [mbind_ok h]
    exact hf a w'

theorem neverErr_bind {α β : Type} {x : M α} {f : α → M β}
    (hx : NeverErr x) (hf : ∀ a, NeverErr (f a)) : NeverErr (x >>= f) := by
  rw [bind_is_mbind]; exact neverErr_mbind hx hf

theorem neverErr_ite {α : Type} {c : Prop} [Decidable c] {x y : M α}
    (hx : NeverErr x) (hy : NeverErr y) : NeverErr (if c then x else y) := by
  by_cases h : c
  · rw [if_pos h]; exact hx
  · rw [if_neg h]; exact hy

theorem okTrans_mret {env : Env} {α : Type} (a : α) : OkTrans env (mret a) :=
  okTrans_of_traceP (pureRead_traceP (pureRead_mret a))

theorem okTrans_mfail {env : Env} {α : Type} (e : String) : OkTrans env (mfail (α := α) e) :=
  okTrans_of_traceP (pureRead_traceP (pureRead_mfail e))

theorem okTrans_pureRead {env : Env} {α : Type} {x : M α} (h : PureRead x) : OkTrans env x :=
  okTrans_of_traceP (pureRead_traceP h)

theorem okTrans_noTrace {env : Env} {α : Type} {x : M α} (h : NoTrace x) : OkTrans env x :=
  okTrans_of_traceP (noTrace_traceP h)

/-- `createWorktreeForContext`: pointer untouched, trace is worktree
creations only. -/
theorem ctxPres_createWorktreeForContext (env : Env) (repo : Repository) (ctx : String) :
    CtxPres (createWorktreeForContext env repo ctx) := by
  unfold createWorktreeForContext
  refine ctxPres_bind (pureRead_ctxPres (pureRead_gIsGitRepo _)) (fun isG => ?_)
  refine ctxPres_ite (ctxPres_mfail _) ?_
  refine ctxPres_bind (pureRead_ctxPres (pureRead_gWtExists _ _)) (fun ex => ?_)
  refine ctxPres_ite ?_ ?_
  · exact ctxPres_bind (ctxPres_mret _) (fun _ => ctxPres_mret _)
  · exact ctxPres_bind (ctxPres_gWtAddRaw env _ _ _) (fun _ => ctxPres_mret _)

theorem traceP_createWorktreeForContext (env : Env) (repo : Repository) (ctx : String) :
    TraceP isWtAddOp (createWorktreeForContext env repo ctx) := by
  unfold createWorktreeForContext
  refine traceP_bind (pureRead_traceP (pureRead_gIsGitRepo _)) (fun isG => ?_)
  refine traceP_ite (traceP_mfail _ _) ?_
  refine traceP_bind (pureRead_traceP (pureRead_gWtExists _ _)) (fun ex => ?_)
  refine traceP_ite ?_ ?_
  · exact traceP_bind (traceP_mret _ _) (fun _ => traceP_mret _ _)
  · exact traceP_bind (traceP_gWtAddRaw env _ _ _ rfl) (fun _ => traceP_mret _ _)

theorem okTrans_createWorktreeForContext (env : Env) (repo : Repository) (ctx : String) :
    OkTrans env (createWorktreeForContext env repo ctx) := by
  unfold createWorktreeForContext
  refine okTrans_bind (okTrans_pureRead (pureRead_gIsGitRepo _)) (fun isG => ?_)
  refine okTrans_ite (okTrans_mfail _) ?_
  refine okTrans_bind (okTrans_pureRead (pureRead_gWtExists _ _)) (fun ex => ?_)
  refine okTrans_ite ?_ ?_
  · exact okTrans_bind (okTrans_mret _) (fun _ => okTrans_mret _)
  · exact okTrans_bind (okTrans_gWtAddRaw env _ _ _) (fun _ => okTrans_mret _)

/-- `handleStashForWorktree` with `"push"` emits only stash pushes. -/
theorem ctxPres_handleStashPush (env : Env) (wt : WtInfo) (ctx : String) :
    CtxPres (handleStashForWorktree env wt ctx "push") := by
  unfold handleStashForWorktree
  rw [if_pos rfl]
  refine ctxPres_bind (pureRead_ctxPres (pureRead_gHasChanges _)) (fun hasCh => ?_)
  exact ctxPres_ite (ctxPres_gStashPush env _ _) (ctxPres_mret _)

theorem traceP_handleStashPush (env : Env) (wt : WtInfo) (ctx : String) :
    TraceP isPushOp (handleStashForWorktree env wt ctx "push") := by
  unfold handleStashForWorktree
  rw [if_pos rfl]
  refine traceP_bind (pureRead_traceP (pureRead_gHasChanges _)) (fun hasCh => ?_)
  exact traceP_ite (traceP_gStashPush env _ _ rfl) (traceP_mret _ _)

/-- `handleStashForWorktree` with `"pop"` emits only stash pops, never fails. -/
theorem ctxPres_handleStashPop (env : Env) (wt : WtInfo) (ctx : String) :
    CtxPres (handleStashForWorktree env wt ctx "pop") := by
  unfold handleStashForWorktree
  rw [if_neg (by decide), if_pos rfl]
  exact ctxPres_mtry (ctxPres_gStashPop env _ _)

theorem traceP_handleStashPop (env : Env) (wt : WtInfo) (ctx : String) :
    TraceP isPopOp (handleStashForWorktree env wt ctx "pop") := by
  unfold handleStashForWorktree
  rw [if_neg (by decide), if_pos rfl]
  exact traceP_mtry (traceP_gStashPop env _ _ rfl)

theorem neverErr_handleStashPop (env : Env) (wt : WtInfo) (ctx : String) :
    NeverErr (handleStashForWorktree env wt ctx "pop") := by
  unfold handleStashForWorktree
  rw [if_neg (by decide), if_pos rfl]
  exact neverErr_mtry _

/-- `stashRepoChanges` emits only stash pushes and keeps the pointer. -/
theorem ctxPres_stashRepoChanges (env : Env) (repo : Repository) (ctx : String) :
    CtxPres (stashRepoChanges env repo ctx) := by
  unfold stashRepoChanges
  refine ctxPres_bind (pureRead_ctxPres (pureRead_gIsGitRepo _)) (fun isG => ?_)
  refine ctxPres_ite (ctxPres_mret _) ?_
  refine ctxPres_bind (pureRead_ctxPres (pureRead_gHasChanges _)) (fun hasCh => ?_)
  exact ctxPres_ite (ctxPres_gStashPush env _ _) (ctxPres_mret _)

theorem traceP_stashRepoChanges (env : Env) (repo : Repository) (ctx : String) :
    TraceP isPushOp (stashRepoChanges env repo ctx) := by
  unfold stashRepoChanges
  refine traceP_bind (pureRead_traceP (pureRead_gIsGitRepo _)) (fun isG => ?_)
  refine traceP_ite (traceP_mret _ _) ?_
  refine traceP_bind (pureRead_traceP (pureRead_gHasChanges _)) (fun hasCh => ?_)
  exact traceP_ite (traceP_gStashPush env _ _ rfl) (traceP_mret _ _)

/-- `stashAllRepos` emits only stash pushes, keeps the pointer, never fails. -/
theorem ctxPres_stashAllRepos (env : Env) (repos : List Repository) (ctx : String) :
    CtxPres (stashAllRepos env repos ctx) := by
  induction repos with
  | nil => exact ctxPres_mret ()
  | cons r rest ih =>
    show CtxPres (mtry (stashRepoChanges env r ctx) >>= fun _ => stashAllRepos env rest ctx)
    exact ctxPres_bind (ctxPres_mtry (ctxPres_stashRepoChanges env r ctx)) (fun _ => ih)

theorem traceP_stashAllRepos (env : Env) (repos : List Repository) (ctx : String) :
    TraceP isPushOp (stashAllRepos env repos ctx) := by
  induction repos with
  | nil => exact traceP_mret _ ()
  | cons r rest ih =>
    show TraceP isPushOp (mtry (stashRepoChanges env r ctx) >>= fun _ => stashAllRepos env rest ctx)
    exact traceP_bind (traceP_mtry (traceP_stashRepoChanges env r ctx)) (fun _ => ih)

theorem neverErr_stashAllRepos (env : Env) (repos : List Repository) (ctx : String) :
    NeverErr (stashAllRepos env repos ctx) := by
  induction repos with
  | nil => exact neverErr_mret ()
  | cons r rest ih =>
    show NeverErr (mtry (stashRepoChanges env r ctx) >>= fun _ => stashAllRepos env rest ctx)
    exact neverErr_bind (neverErr_mtry _) (fun _ => ih)

/-- `restoreStashInRepo` emits only pops, keeps the pointer, never fails. -/
theorem ctxPres_restoreStashInRepo (env : Env) (info : WtInfo) (ctx : String) :
    CtxPres (restoreStashInRepo env info ctx) :=
  ctxPres_mtry (ctxPres_gStashPop env _ _)

theorem traceP_restoreStashInRepo (env : Env) (info : WtInfo) (ctx : String) :
    TraceP isPopOp (restoreStashInRepo env info ctx) :=
  traceP_mtry (traceP_gStashPop env _ _ rfl)

theorem neverErr_restoreStashInRepo (env : Env) (info : WtInfo) (ctx : String) :
    NeverErr (restoreStashInRepo env info ctx) :=
  neverErr_mtry _

theorem ctxPres_restoreStashLoop (env : Env) (ctx : String) (infos : List WtInfo) :
    CtxPres (restoreStashLoop env ctx infos) := by
  induction infos with
  | nil => exact ctxPres_mret ()
  | cons i rest ih =>
    show CtxPres (mtry (restoreStashInRepo env i ctx) >>= fun _ => restoreStashLoop env ctx rest)
    exact ctxPres_bind (ctxPres_mtry (ctxPres_restoreStashInRepo env i ctx)) (fun _ => ih)

theorem traceP_restoreStashLoop (env : Env) (ctx : String) (infos : List WtInfo) :
    TraceP isPopOp (restoreStashLoop env ctx infos) := by
  induction infos with
  | nil => exact traceP_mret _ ()
  | cons i rest ih =>
    show TraceP isPopOp
      (mtry (restoreStashInRepo env i ctx) >>= fun _ => restoreStashLoop env ctx rest)
    exact traceP_bind (traceP_mtry (traceP_restoreStashInRepo env i ctx)) (fun _ => ih)

theorem neverErr_restoreStashLoop (env : Env) (ctx : String) (infos : List WtInfo) :
    NeverErr (restoreStashLoop env ctx infos) := by
  induction infos with
  | nil => exact neverErr_mret ()
  | cons i rest ih =>
    show NeverErr (mtry (restoreStashInRepo env i ctx) >>= fun _ => restoreStashLoop env ctx rest)
    exact neverErr_bind (neverErr_mtry _) (fun _ => ih)

/-- `switchRepoToMainBranch` emits only branch checkouts. -/
theorem ctxPres_switchRepoToMainBranch (env : Env) (cfg : Config) (dir : String) :
    CtxPres (switchRepoToMainBranch env cfg dir) := by
  intro w
  unfold switchRepoToMainBranch
  split
  · exact ctxPres_gCheckout env dir _ w
  · split
    · exact ctxPres_gCheckout env dir _ w
    · split <;> rfl

theorem traceP_switchRepoToMainBranch (env : Env) (cfg : Config) (dir : String) :
    TraceP isCkCrOp (switchRepoToMainBranch env cfg dir) := by
  intro w op hop
  unfold switchRepoToMainBranch at hop
  split at hop
  · exact traceP_gCheckout env dir _ rfl w op hop
  · split at hop
    · exact traceP_gCheckout env dir _ rfl w op hop
    · split at hop <;> simp at hop

theorem okTrans_switchRepoToMainBranch (env : Env) (cfg : Config) (dir : String) :
    OkTrans env (switchRepoToMainBranch env cfg dir) := by
  intro w hok op hop htr
  unfold switchRepoToMainBranch at hok hop
  revert hok hop
  split
  · intro hok hop
    exact okTrans_gCheckout env dir _ w hok op hop htr
  · split
    · intro hok hop
      exact okTrans_gCheckout env dir _ w hok op hop htr
    · split <;> (intro _ hop; simp at hop)

/-- `switchRepoToContext` emits only branch checkouts/creations. -/
theorem ctxPres_switchRepoToContext (env : Env) (cfg : Config) (repo : Repository)
    (ctx : String) : CtxPres (switchRepoToContext env cfg repo ctx) := by
  unfold switchRepoToContext
  refine ctxPres_bind (pureRead_ctxPres (pureRead_gIsGitRepo _)) (fun isG => ?_)
  refine ctxPres_ite (ctxPres_mfail _) ?_
  refine ctxPres_ite (ctxPres_switchRepoToMainBranch env cfg _) ?_
  refine ctxPres_bind (pureRead_ctxPres (pureRead_gBranchExists _ _)) (fun ex => ?_)
  exact ctxPres_ite (ctxPres_gCreateBranch env _ _) (ctxPres_gCheckout env _ _)

theorem traceP_switchRepoToContext (env : Env) (cfg : Config) (repo : Repository)
    (ctx : String) : TraceP isCkCrOp (switchRepoToContext env cfg repo ctx) := by
  unfold switchRepoToContext
  refine traceP_bind (pureRead_traceP (pureRead_gIsGitRepo _)) (fun isG => ?_)
  refine traceP_ite (traceP_mfail _ _) ?_
  refine traceP_ite (traceP_switchRepoToMainBranch env cfg _) ?_
  refine traceP_bind (pureRead_traceP (pureRead_gBranchExists _ _)) (fun ex => ?_)
  exact traceP_ite (traceP_gCreateBranch env _ _ rfl) (traceP_gCheckout env _ _ rfl)

theorem okTrans_switchRepoToContext (env : Env) (cfg : Config) (repo : Repository)
    (ctx : String) : OkTrans env (switchRepoToContext env cfg repo ctx) := by
  unfold switchRepoToContext
  refine okTrans_bind (okTrans_pureRead (pureRead_gIsGitRepo _)) (fun isG => ?_)
  refine okTrans_ite (okTrans_mfail _) ?_
  refine okTrans_ite (okTrans_switchRepoToMainBranch env cfg _) ?_
  refine okTrans_bind (okTrans_pureRead (pureRead_gBranchExists _ _)) (fun ex => ?_)
  exact okTrans_ite (okTrans_gCreateBranch env _ _) (okTrans_gCheckout env _ _)

/-- `switchReposLoop` emits only branch checkouts/creations. -/
theorem ctxPres_switchReposLoop (env : Env) (cfg : Config) (ctx : String)
    (repos : List Repository) : CtxPres (switchReposLoop env cfg ctx repos) := by
  induction repos with
  | nil => exact ctxPres_mret []
  | cons r rest ih =>
    show CtxPres (switchRepoToContext env cfg r ctx >>= fun _ =>
      switchReposLoop env cfg ctx rest >>= fun infos => pure (_ :: infos))
    refine ctxPres_bind (ctxPres_switchRepoToContext env cfg r ctx) (fun _ => ?_)
    exact ctxPres_bind ih (fun infos => ctxPres_mret _)

theorem traceP_switchReposLoop (env : Env) (cfg : Config) (ctx : String)
    (repos : List Repository) : TraceP isCkCrOp (switchReposLoop env cfg ctx repos) := by
  induction repos with
  | nil => exact traceP_mret _ []
  | cons r rest ih =>
    show TraceP isCkCrOp (switchRepoToContext env cfg r ctx >>= fun _ =>
      switchReposLoop env cfg ctx rest >>= fun infos => pure (_ :: infos))
    refine traceP_bind (traceP_switchRepoToContext env cfg r ctx) (fun _ => ?_)
    exact traceP_bind ih (fun infos => traceP_mret _ _)

theorem okTrans_switchReposLoop (env : Env) (cfg : Config) (ctx : String)
    (repos : List Repository) : OkTrans env (switchReposLoop env cfg ctx repos) := by
  induction repos with
  | nil => exact okTrans_mret []
  | cons r rest ih =>
    show OkTrans env (switchRepoToContext env cfg r ctx >>= fun _ =>
      switchReposLoop env cfg ctx rest >>= fun infos => pure (_ :: infos))
    refine okTrans_bind (okTrans_switchRepoToContext env cfg r ctx) (fun _ => ?_)
    exact okTrans_bind ih (fun infos => okTrans_mret _)

/-- `createWtLoop` emits only worktree creations. -/
theorem ctxPres_createWtLoop (env : Env) (ctx : String) (repos : List Repository) :
    CtxPres (createWtLoop env ctx repos) := by
  induction repos with
  | nil => exact ctxPres_mret []
  | cons r rest ih =>
    show CtxPres (createWorktreeForContext env r ctx >>= fun info =>
      createWtLoop env ctx rest >>= fun infos => pure (info :: infos))
    refine ctxPres_bind (ctxPres_createWorktreeForContext env r ctx) (fun info => ?_)
    exact ctxPres_bind ih (fun infos => ctxPres_mret _)

theorem traceP_createWtLoop (env : Env) (ctx : String) (repos : List Repository) :
    TraceP isWtAddOp (createWtLoop env ctx repos) := by
  induction repos with
  | nil => exact traceP_mret _ []
  | cons r rest ih =>
    show TraceP isWtAddOp (createWorktreeForContext env r ctx >>= fun info =>
      createWtLoop env ctx rest >>= fun infos => pure (info :: infos))
    refine traceP_bind (traceP_createWorktreeForContext env r ctx) (fun info => ?_)
    exact traceP_bind ih (fun infos => traceP_mret _ _)

theorem okTrans_createWtLoop (env : Env) (ctx : String) (repos : List Repository) :
    OkTrans env (createWtLoop env ctx repos) := by
  induction repos with
  | nil => exact okTrans_mret []
  | cons r rest ih =>
    show OkTrans env (createWorktreeForContext env r ctx >>= fun info =>
      createWtLoop env ctx rest >>= fun infos => pure (info :: infos))
    refine okTrans_bind (okTrans_createWorktreeForContext env r ctx) (fun info => ?_)
    exact okTrans_bind ih (fun infos => okTrans_mret _)

/-- `popWtLoop` emits only stash pops, never fails. -/
theorem ctxPres_popWtLoop (env : Env) (cfg : Config) (ctx : String) (wts : List WtInfo) :
    CtxPres (popWtLoop env cfg ctx wts) := by
  induction wts with
  | nil => exact ctxPres_mret ()
  | cons i rest ih =>
    simp only [popWtLoop]
    refine ctxPres_ite ?_ ?_
    · exact ctxPres_bind (ctxPres_mtry (ctxPres_handleStashPop env i ctx)) (fun _ => ih)
    · exact ctxPres_bind (ctxPres_mret ()) (fun _ => ih)

theorem traceP_popWtLoop (env : Env) (cfg : Config) (ctx : String) (wts : List WtInfo) :
    TraceP isPopOp (popWtLoop env cfg ctx wts) := by
  induction wts with
  | nil => exact traceP_mret _ ()
  | cons i rest ih =>
    simp only [popWtLoop]
    refine traceP_ite ?_ ?_
    · exact traceP_bind (traceP_mtry (traceP_handleStashPop env i ctx)) (fun _ => ih)
    · exact traceP_bind (traceP_mret _ ()) (fun _ => ih)

theorem neverErr_popWtLoop (env : Env) (cfg : Config) (ctx : String) (wts : List WtInfo) :
    NeverErr (popWtLoop env cfg ctx wts) := by
  induction wts with
  | nil => exact neverErr_mret ()
  | cons i rest ih =>
    simp only [popWtLoop]
    refine neverErr_ite ?_ ?_
    · exact neverErr_bind (neverErr_mtry _) (fun _ => ih)
    · exact neverErr_bind (neverErr_mret ()) (fun _ => ih)


theorem noTrace_mbind {α β : Type} {x : M α} {f : α → M β}
    (hx : NoTrace x) (hf : ∀ a, NoTrace (f a)) : NoTrace (mbind x f) := by
  intro w
  rcases h : x w with ⟨r, w', t⟩
  cases r with
  | error e =>
    have := hx w
    rw [h] at this
    rw [mbind_err h, this]
  | ok a =>
    rw [mbind_ok h]
    show t ++ (f a w').2.2 = []
    rw [hf a w', List.append_nil]
    have h1 := hx w
    rw [h] at h1
    exact h1

theorem noTrace_bind {α β : Type} {x : M α} {f : α → M β}
    (hx : NoTrace x) (hf : ∀ a, NoTrace (f a)) : NoTrace (x >>= f) := by
  rw [bind_is_mbind]; exact noTrace_mbind hx hf

theorem noTrace_mtry {x : M Unit} (hx : NoTrace x) : NoTrace (mtry x) := by
  intro w
  rw [mtry_eq]
  exact hx w

theorem noTrace_ite {α : Type} {c : Prop} [Decidable c] {x y : M α}
    (hx : NoTrace x) (hy : NoTrace y) : NoTrace (if c then x else y) := by
  by_cases h : c
  · rw [if_pos h]; exact hx
  · rw [if_neg h]; exact hy

theorem noTrace_pureRead {α : Type} {x : M α} (h : PureRead x) : NoTrace x :=
  fun w => (h w).2

/-- `branchTransition` emits only branch checkouts/creations. -/
theorem ctxPres_branchTransition (env : Env) (dir ctx : String) :
    CtxPres (branchTransition env dir ctx) := by
  unfold branchTransition
  refine ctxPres_bind (pureRead_ctxPres (pureRead_gBranchExists _ _)) (fun ex => ?_)
  exact ctxPres_ite (ctxPres_gCreateBranch env _ _) (ctxPres_gCheckout env _ _)

theorem traceP_branchTransition (env : Env) (dir ctx : String) :
    TraceP isCkCrOp (branchTransition env dir ctx) := by
  unfold branchTransition
  refine traceP_bind (pureRead_traceP (pureRead_gBranchExists _ _)) (fun ex => ?_)
  exact traceP_ite (traceP_gCreateBranch env _ _ rfl) (traceP_gCheckout env _ _ rfl)

theorem okTrans_branchTransition (env : Env) (dir ctx : String) :
    OkTrans env (branchTransition env dir ctx) := by
  unfold branchTransition
  refine okTrans_bind (okTrans_pureRead (pureRead_gBranchExists _ _)) (fun ex => ?_)
  exact okTrans_ite (okTrans_gCreateBranch env _ _) (okTrans_gCheckout env _ _)

/-- `handleMasterRepoStashRestore` emits only pops, keeps the pointer, never
fails. -/
theorem ctxPres_handleMasterRepoStashRestore (env : Env) (cfg : Config) (ctx : String) :
    CtxPres (handleMasterRepoStashRestore env cfg ctx) := by
  unfold handleMasterRepoStashRestore
  rcases cfg.getMasterRepo with e | mr
  · exact ctxPres_mret ()
  · refine ctxPres_bind (pureRead_ctxPres (pureRead_gIsGitRepo _)) (fun isG => ?_)
    refine ctxPres_ite (ctxPres_mret ()) (ctxPres_mtry ?_)
    refine ctxPres_bind (pureRead_ctxPres (pureRead_gHasStashForContext _ _)) (fun has => ?_)
    exact ctxPres_ite (ctxPres_mtry (ctxPres_gStashPop env _ _)) (ctxPres_mret ())

theorem traceP_handleMasterRepoStashRestore (env : Env) (cfg : Config) (ctx : String) :
    TraceP isPopOp (handleMasterRepoStashRestore env cfg ctx) := by
  unfold handleMasterRepoStashRestore
  rcases cfg.getMasterRepo with e | mr
  · exact traceP_mret _ ()
  · refine traceP_bind (pureRead_traceP (pureRead_gIsGitRepo _)) (fun isG => ?_)
    refine traceP_ite (traceP_mret _ ()) (traceP_mtry ?_)
    refine traceP_bind (pureRead_traceP (pureRead_gHasStashForContext _ _)) (fun has => ?_)
    exact traceP_ite (traceP_mtry (traceP_gStashPop env _ _ rfl)) (traceP_mret _ ())

theorem neverErr_handleMasterRepoStashRestore (env : Env) (cfg : Config) (ctx : String) :
    NeverErr (handleMasterRepoStashRestore env cfg ctx) := by
  unfold handleMasterRepoStashRestore
  rcases cfg.getMasterRepo with e | mr
  · exact neverErr_mret ()
  · refine neverErr_bind (fun w => rfl) (fun isG => ?_)
    exact neverErr_ite (neverErr_mret ()) (neverErr_mtry _)

/-- `switchMasterRepoToContext` emits branch transitions and stash pops. -/
theorem ctxPres_switchMasterRepoToContext (env : Env) (cfg : Config) (mr : Repository)
    (ctx : String) : CtxPres (switchMasterRepoToContext env cfg mr ctx) := by
  unfold switchMasterRepoToContext
  refine ctxPres_bind (pureRead_ctxPres (pureRead_gIsGitRepo _)) (fun isG => ?_)
  refine ctxPres_ite (ctxPres_mfail _) ?_
  refine ctxPres_bind (ctxPres_branchTransition env _ _) (fun _ => ?_)
  exact ctxPres_mtry (ctxPres_handleMasterRepoStashRestore env cfg ctx)

theorem traceP_switchMasterRepoToContext (env : Env) (cfg : Config) (mr : Repository)
    (ctx : String) :
    TraceP (fun op => isCkCrOp op || isPopOp op) (switchMasterRepoToContext env cfg mr ctx) := by
  unfold switchMasterRepoToContext
  refine traceP_bind (pureRead_traceP (pureRead_gIsGitRepo _)) (fun isG => ?_)
  refine traceP_ite (traceP_mfail _ _) ?_
  refine traceP_bind (traceP_mono (fun op h => by rw [h]; rfl)
    (traceP_branchTransition env _ _)) (fun _ => ?_)
  refine traceP_mtry (traceP_mono (fun op h => ?_) (traceP_handleMasterRepoStashRestore env cfg ctx))
  rw [h]
  simp

theorem okTrans_switchMasterRepoToContext (env : Env) (cfg : Config) (mr : Repository)
    (ctx : String) : OkTrans env (switchMasterRepoToContext env cfg mr ctx) := by
  unfold switchMasterRepoToContext
  refine okTrans_bind (okTrans_pureRead (pureRead_gIsGitRepo _)) (fun isG => ?_)
  refine okTrans_ite (okTrans_mfail _) ?_
  refine okTrans_bind (okTrans_branchTransition env _ _) (fun _ => ?_)
  exact okTrans_of_traceP (traceP_mono (fun op h => by
    revert h
    cases op <;> simp [isPopOp, isTransOp])
    (traceP_mtry (traceP_handleMasterRepoStashRestore env cfg ctx)))

/-- `stashWtsLoop` emits only pushes, never fails. -/
theorem ctxPres_stashWtsLoop (env : Env) (wts : List WtInfo) (ctx : String) :
    CtxPres (stashWtsLoop env wts ctx) := by
  induction wts with
  | nil => exact ctxPres_mret ()
  | cons i rest ih =>
    simp only [stashWtsLoop]
    exact ctxPres_bind (ctxPres_mtry (ctxPres_handleStashPush env i ctx)) (fun _ => ih)

theorem traceP_stashWtsLoop (env : Env) (wts : List WtInfo) (ctx : String) :
    TraceP isPushOp (stashWtsLoop env wts ctx) := by
  induction wts with
  | nil => exact traceP_mret _ ()
  | cons i rest ih =>
    simp only [stashWtsLoop]
    exact traceP_bind (traceP_mtry (traceP_handleStashPush env i ctx)) (fun _ => ih)

theorem neverErr_stashWtsLoop (env : Env) (wts : List WtInfo) (ctx : String) :
    NeverErr (stashWtsLoop env wts ctx) := by
  induction wts with
  | nil => exact neverErr_mret ()
  | cons i rest ih =>
    simp only [stashWtsLoop]
    exact neverErr_bind (neverErr_mtry _) (fun _ => ih)

/-- `stashCurrentContextWorktrees` emits only pushes. -/
theorem ctxPres_stashCurrentContextWorktrees (env : Env) (cfg : Config) (ctx : String) :
    CtxPres (stashCurrentContextWorktrees env cfg ctx) := by
  unfold stashCurrentContextWorktrees
  refine ctxPres_bind (ctxPres_liftE _) (fun nonMaster => ?_)
  refine ctxPres_bind (pureRead_ctxPres (pureRead_readW _)) (fun wts => ?_)
  exact ctxPres_stashWtsLoop env wts ctx

theorem traceP_stashCurrentContextWorktrees (env : Env) (cfg : Config) (ctx : String) :
    TraceP isPushOp (stashCurrentContextWorktrees env cfg ctx) := by
  unfold stashCurrentContextWorktrees
  refine traceP_bind (traceP_liftE _ _) (fun nonMaster => ?_)
  refine traceP_bind (pureRead_traceP (pureRead_readW _)) (fun wts => ?_)
  exact traceP_stashWtsLoop env wts ctx

/-- `maybeStashCurrent` emits only pushes, keeps the pointer, never fails. -/
theorem ctxPres_maybeStashCurrent (env : Env) (cfg : Config) (cur : String) :
    CtxPres (maybeStashCurrent env cfg cur) := by
  unfold maybeStashCurrent
  exact ctxPres_ite (ctxPres_mtry (ctxPres_stashCurrentContextWorktrees env cfg cur))
    (ctxPres_mret ())

theorem traceP_maybeStashCurrent (env : Env) (cfg : Config) (cur : String) :
    TraceP isPushOp (maybeStashCurrent env cfg cur) := by
  unfold maybeStashCurrent
  exact traceP_ite (traceP_mtry (traceP_stashCurrentContextWorktrees env cfg cur))
    (traceP_mret _ ())

theorem neverErr_maybeStashCurrent (env : Env) (cfg : Config) (cur : String) :
    NeverErr (maybeStashCurrent env cfg cur) := by
  unfold maybeStashCurrent
  exact neverErr_ite (neverErr_mtry _) (neverErr_mret ())

/-- `maybeStashAll` emits only pushes, keeps the pointer, never fails. -/
theorem ctxPres_maybeStashAll (env : Env) (repos : List Repository) (cur : String) :
    CtxPres (maybeStashAll env repos cur) := by
  unfold maybeStashAll
  exact ctxPres_ite (ctxPres_mtry (ctxPres_stashAllRepos env repos cur)) (ctxPres_mret ())

theorem traceP_maybeStashAll (env : Env) (repos : List Repository) (cur : String) :
    TraceP isPushOp (maybeStashAll env repos cur) := by
  unfold maybeStashAll
  exact traceP_ite (traceP_mtry (traceP_stashAllRepos env repos cur)) (traceP_mret _ ())

theorem neverErr_maybeStashAll (env : Env) (repos : List Repository) (cur : String) :
    NeverErr (maybeStashAll env repos cur) := by
  unfold maybeStashAll
  exact neverErr_ite (neverErr_mtry _) (neverErr_mret ())

/-- The pubspec-editing passes invoke no subprocess and keep the pointer. -/
theorem ctxPres_updatePubspecWtGo (cfg : Config) (all : List WtInfo) (ctx : String)
    (wts : List WtInfo) : CtxPres (updatePubspecWtGo cfg all ctx wts) := by
  induction wts with
  | nil => exact ctxPres_mret ()
  | cons wt rest ih =>
    simp only [updatePubspecWtGo]
    refine ctxPres_bind (ctxPres_mtry ?_) (fun _ => ih)
    refine ctxPres_bind (pureRead_ctxPres (pureRead_pubspecExistsM _)) (fun ex => ?_)
    refine ctxPres_ite (ctxPres_mret ()) ?_
    refine ctxPres_bind (pureRead_ctxPres (pureRead_loadPubspecM _)) (fun ms => ?_)
    refine ctxPres_bind (ctxPres_mtry (ctxPres_backupPubspecM _)) (fun _ => ?_)
    exact ctxPres_savePubspecM _ _

theorem noTrace_updatePubspecWtGo (cfg : Config) (all : List WtInfo) (ctx : String)
    (wts : List WtInfo) : NoTrace (updatePubspecWtGo cfg all ctx wts) := by
  induction wts with
  | nil => exact fun _ => rfl
  | cons wt rest ih =>
    simp only [updatePubspecWtGo]
    refine noTrace_bind (noTrace_mtry ?_) (fun _ => ih)
    refine noTrace_bind (noTrace_pureRead (pureRead_pubspecExistsM _)) (fun ex => ?_)
    refine noTrace_ite (fun _ => rfl) ?_
    refine noTrace_bind (noTrace_pureRead (pureRead_loadPubspecM _)) (fun ms => ?_)
    refine noTrace_bind (noTrace_mtry (noTrace_backupPubspecM _)) (fun _ => ?_)
    exact noTrace_savePubspecM _ _

theorem neverErr_updatePubspecWtGo (cfg : Config) (all : List WtInfo) (ctx : String)
    (wts : List WtInfo) : NeverErr (updatePubspecWtGo cfg all ctx wts) := by
  induction wts with
  | nil => exact neverErr_mret ()
  | cons wt rest ih =>
    simp only [updatePubspecWtGo]
    exact neverErr_bind (neverErr_mtry _) (fun _ => ih)

theorem ctxPres_updatePubspecFilesForWorktrees (cfg : Config) (wts : List WtInfo)
    (ctx : String) : CtxPres (updatePubspecFilesForWorktrees cfg wts ctx) :=
  ctxPres_updatePubspecWtGo cfg wts ctx wts

theorem noTrace_updatePubspecFilesForWorktrees (cfg : Config) (wts : List WtInfo)
    (ctx : String) : NoTrace (updatePubspecFilesForWorktrees cfg wts ctx) :=
  noTrace_updatePubspecWtGo cfg wts ctx wts

theorem neverErr_updatePubspecFilesForWorktrees (cfg : Config) (wts : List WtInfo)
    (ctx : String) : NeverErr (updatePubspecFilesForWorktrees cfg wts ctx) :=
  neverErr_updatePubspecWtGo cfg wts ctx wts

theorem ctxPres_updatePubspecBrGo (all : List WtInfo) (wts : List WtInfo) :
    CtxPres (updatePubspecBrGo all wts) := by
  induction wts with
  | nil => exact ctxPres_mret ()
  | cons wt rest ih =>
    simp only [updatePubspecBrGo]
    refine ctxPres_bind (ctxPres_mtry ?_) (fun _ => ih)
    refine ctxPres_bind (pureRead_ctxPres (pureRead_pubspecExistsM _)) (fun ex => ?_)
    refine ctxPres_ite (ctxPres_mret ()) ?_
    refine ctxPres_bind (pureRead_ctxPres (pureRead_loadPubspecM _)) (fun ms => ?_)
    refine ctxPres_bind (ctxPres_mtry (ctxPres_backupPubspecM _)) (fun _ => ?_)
    exact ctxPres_savePubspecM _ _

theorem noTrace_updatePubspecBrGo (all : List WtInfo) (wts : List WtInfo) :
    NoTrace (updatePubspecBrGo all wts) := by
  induction wts with
  | nil => exact fun _ => rfl
  | cons wt rest ih =>
    simp only [updatePubspecBrGo]
    refine noTrace_bind (noTrace_mtry ?_) (fun _ => ih)
    refine noTrace_bind (noTrace_pureRead (pureRead_pubspecExistsM _)) (fun ex => ?_)
    refine noTrace_ite (fun _ => rfl) ?_
    refine noTrace_bind (noTrace_pureRead (pureRead_loadPubspecM _)) (fun ms => ?_)
    refine noTrace_bind (noTrace_mtry (noTrace_backupPubspecM _)) (fun _ => ?_)
    exact noTrace_savePubspecM _ _

theorem neverErr_updatePubspecBrGo (all : List WtInfo) (wts : List WtInfo) :
    NeverErr (updatePubspecBrGo all wts) := by
  induction wts with
  | nil => exact neverErr_mret ()
  | cons wt rest ih =>
    simp only [updatePubspecBrGo]
    exact neverErr_bind (neverErr_mtry _) (fun _ => ih)

theorem ctxPres_updatePubspecFilesForBranchMode (infos : List WtInfo) :
    CtxPres (updatePubspecFilesForBranchMode infos) :=
  ctxPres_updatePubspecBrGo infos infos

theorem noTrace_updatePubspecFilesForBranchMode (infos : List WtInfo) :
    NoTrace (updatePubspecFilesForBranchMode infos) :=
  noTrace_updatePubspecBrGo infos infos

theorem neverErr_updatePubspecFilesForBranchMode (infos : List WtInfo) :
    NeverErr (updatePubspecFilesForBranchMode infos) :=
  neverErr_updatePubspecBrGo infos infos

/-- `revertMasterDependenciesToGit` invokes no subprocess, keeps the pointer. -/
theorem ctxPres_revertMasterDependenciesToGit (cfg : Config) (mr : Repository) :
    CtxPres (revertMasterDependenciesToGit cfg mr) := by
  unfold revertMasterDependenciesToGit
  refine ctxPres_bind (pureRead_ctxPres (pureRead_pubspecExistsM _)) (fun ex => ?_)
  refine ctxPres_ite (ctxPres_mret ()) ?_
  refine ctxPres_bind (pureRead_ctxPres (pureRead_loadPubspecM _)) (fun ms => ?_)
  exact ctxPres_savePubspecM _ _

theorem noTrace_revertMasterDependenciesToGit (cfg : Config) (mr : Repository) :
    NoTrace (revertMasterDependenciesToGit cfg mr) := by
  unfold revertMasterDependenciesToGit
  refine noTrace_bind (noTrace_pureRead (pureRead_pubspecExistsM _)) (fun ex => ?_)
  refine noTrace_ite (fun _ => rfl) ?_
  refine noTrace_bind (noTrace_pureRead (pureRead_loadPubspecM _)) (fun ms => ?_)
  exact noTrace_savePubspecM _ _

/-- The stash gate emits only stash pushes and keeps the pointer. -/
theorem ctxPres_handleMasterRepoStashForMainSwitch (env : Env) (cfg : Config) (cur : String) :
    CtxPres (handleMasterRepoStashForMainSwitch env cfg cur) := by
  unfold handleMasterRepoStashForMainSwitch
  rcases cfg.getMasterRepo with e | mr
  · exact ctxPres_mret ()
  · refine ctxPres_bind (pureRead_ctxPres (pureRead_gIsGitRepo _)) (fun isG => ?_)
    refine ctxPres_ite (ctxPres_mret ()) ?_
    refine ctxPres_orSkip (pureRead_ctxPres (pureRead_gHasChanges _)) (fun hasCh => ?_)
    refine ctxPres_ite (ctxPres_mret ()) ?_
    rcases env.stashGate with c | msg
    · exact ctxPres_ite (ctxPres_gStashPush env _ _) (ctxPres_mfail _)
    · exact ctxPres_ite (ctxPres_gStashPush env _ _) (ctxPres_mfail _)

theorem traceP_handleMasterRepoStashForMainSwitch (env : Env) (cfg : Config) (cur : String) :
    TraceP isPushOp (handleMasterRepoStashForMainSwitch env cfg cur) := by
  unfold handleMasterRepoStashForMainSwitch
  rcases cfg.getMasterRepo with e | mr
  · exact traceP_mret _ ()
  · refine traceP_bind (pureRead_traceP (pureRead_gIsGitRepo _)) (fun isG => ?_)
    refine traceP_ite (traceP_mret _ ()) ?_
    refine traceP_orSkip (pureRead_traceP (pureRead_gHasChanges _)) (fun hasCh => ?_)
    refine traceP_ite (traceP_mret _ ()) ?_
    rcases env.stashGate with c | msg
    · exact traceP_ite (traceP_gStashPush env _ _ rfl) (traceP_mfail _ _)
    · exact traceP_ite (traceP_gStashPush env _ _ rfl) (traceP_mfail _ _)

/-- `mainGateStep` emits only stash pushes and keeps the pointer. -/
theorem ctxPres_mainGateStep (env : Env) (cfg : Config) (cur : String) :
    CtxPres (mainGateStep env cfg cur) := by
  unfold mainGateStep
  exact ctxPres_ite (ctxPres_handleMasterRepoStashForMainSwitch env cfg cur) (ctxPres_mret ())

theorem traceP_mainGateStep (env : Env) (cfg : Config) (cur : String) :
    TraceP isPushOp (mainGateStep env cfg cur) := by
  unfold mainGateStep
  exact traceP_ite (traceP_handleMasterRepoStashForMainSwitch env cfg cur) (traceP_mret _ ())


/-! ### Extracting component facts at a concrete run -/

theorem ok_unit_of_neverErr {x : M Unit} (h : NeverErr x) {w : World}
    {r : Except String Unit} {w1 : World} {t : List GitOp}
    (hx : x w = (r, w1, t)) : r = .ok () := by
  have h1 := h w
  rw [hx] at h1
  cases r with
  | ok a => cases a; rfl
  | error e => simp [Except.isOk, Except.toBool] at h1

theorem trace_of_traceP {α : Type} {P : GitOp → Bool} {x : M α} (h : TraceP P x)
    {w : World} {r : Except String α} {w1 : World} {t : List GitOp}
    (hx : x w = (r, w1, t)) : ∀ op ∈ t, P op = true := by
  intro op hop
  have h1 := h w op
  rw [hx] at h1
  exact h1 hop

theorem ctx_of_ctxPres {α : Type} {x : M α} (h : CtxPres x) {w : World}
    {r : Except String α} {w1 : World} {t : List GitOp}
    (hx : x w = (r, w1, t)) : w1.ctxFile = w.ctxFile := by
  have h1 := h w
  rw [hx] at h1
  exact h1

theorem trans_of_okTrans {env : Env} {α : Type} {x : M α} (h : OkTrans env x) {w : World}
    {a : α} {w1 : World} {t : List GitOp} (hx : x w = (.ok a, w1, t)) :
    ∀ op ∈ t, isTransOp op = true → env.gitOk op = true := by
  intro op hop htr
  have h1 := h w
  rw [hx] at h1
  exact h1 (by simp [Except.isOk, Except.toBool]) op hop htr

theorem trace_of_noTrace {α : Type} {x : M α} (h : NoTrace x) {w : World}
    {r : Except String α} {w1 : World} {t : List GitOp}
    (hx : x w = (r, w1, t)) : t = [] := by
  have h1 := h w
  rw [hx] at h1
  exact h1

/-! ### Classifier arithmetic on operations -/

theorem push_class {op : GitOp} (h : isPushOp op = true) :
    isTransOp op = false ∧ isPtrOp op = false ∧ isWtAddOp op = false := by
  cases op <;> simp_all [isPushOp, isTransOp, isPtrOp, isWtAddOp]

theorem pop_class {op : GitOp} (h : isPopOp op = true) :
    isTransOp op = false ∧ isPtrOp op = false ∧ isPushOp op = false ∧ isWtAddOp op = false := by
  cases op <;> simp_all [isPopOp, isTransOp, isPtrOp, isPushOp, isWtAddOp]

theorem ckcr_class {op : GitOp} (h : isCkCrOp op = true) :
    isPtrOp op = false ∧ isPushOp op = false ∧ isWtAddOp op = false ∧ isTransOp op = true := by
  cases op <;> simp_all [isCkCrOp, isPtrOp, isPushOp, isWtAddOp, isTransOp]

theorem wtadd_class {op : GitOp} (h : isWtAddOp op = true) :
    isPtrOp op = false ∧ isPushOp op = false := by
  cases op <;> simp_all [isWtAddOp, isPtrOp, isPushOp]

theorem mcl_class {op : GitOp} (h : (isCkCrOp op || isPopOp op) = true) :
    isPtrOp op = false ∧ isPushOp op = false ∧ isWtAddOp op = false := by
  cases op <;> simp_all [isCkCrOp, isPopOp, isPtrOp, isPushOp, isWtAddOp]

/-- Whether some operation satisfying `pu` occurs strictly after some
operation satisfying `trig` in a trace. -/
def pushAfter (trig pu : GitOp → Bool) : List GitOp → Bool
  | [] => false
  | op :: rest => if trig op then rest.any pu else pushAfter trig pu rest

/-- A stash push carrying the label of source context `s`. -/
def isCtxPush (s : String) : GitOp → Bool
  | .stashPushOp _ msg => msg == stashMsg s
  | _ => false

theorem pushAfter_nil_of_no_push {trig pu : GitOp → Bool} :
    ∀ {t : List GitOp}, (∀ op ∈ t, pu op = false) → pushAfter trig pu t = false := by
  intro t
  induction t with
  | nil => intro _; rfl
  | cons op rest ih =>
    intro h2
    simp only [pushAfter]
    by_cases hc : trig op = true
    · rw [if_pos hc]
      refine List.any_eq_false.mpr (fun x hx => ?_)
      simp [h2 x (List.mem_cons_of_mem _ hx)]
    · rw [if_neg hc]
      exact ih (fun x hx => h2 x (List.mem_cons_of_mem _ hx))

theorem pushAfter_eq_false {trig pu : GitOp → Bool} {t1 t2 : List GitOp}
    (h1 : ∀ op ∈ t1, trig op = false) (h2 : ∀ op ∈ t2, pu op = false) :
    pushAfter trig pu (t1 ++ t2) = false := by
  induction t1 with
  | nil => simpa using pushAfter_nil_of_no_push h2
  | cons op rest ih =>
    simp only [List.cons_append, pushAfter]
    have hop := h1 op (List.mem_cons_self _ _)
    rw [if_neg (by simp [hop])]
    exact ih (fun x hx => h1 x (List.mem_cons_of_mem _ hx))

/-! ### Run shape of the branch-mode switch -/

theorem switchBranchRest_run (env : Env) (ctx : String) (infos : List WtInfo) (w : World) :
    ∃ t w1, switchBranchRest env ctx infos w = (.ok (), w1, t ++ [.setPointer ctx]) ∧
      w1.ctxFile = some ctx ∧ ∀ op ∈ t, isPopOp op = true := by
  rcases hA : restoreStashLoop env ctx infos w with ⟨rA, wa, ta⟩
  obtain rfl : rA = .ok () := ok_unit_of_neverErr (neverErr_restoreStashLoop env ctx infos) hA
  rcases hB : updatePubspecFilesForBranchMode infos wa with ⟨rB, wb, tb⟩
  obtain rfl : rB = .ok () :=
    ok_unit_of_neverErr (neverErr_updatePubspecFilesForBranchMode infos) hB
  obtain rfl : tb = [] := trace_of_noTrace (noTrace_updatePubspecFilesForBranchMode infos) hB
  refine ⟨ta, { wb with ctxFile := some ctx }, ?_, rfl,
    trace_of_traceP (traceP_restoreStashLoop env ctx infos) hA⟩
  unfold switchBranchRest
  rw [bind_is_mbind (restoreStashLoop env ctx infos), mbind_ok hA]
  rw [bind_is_mbind (updatePubspecFilesForBranchMode infos), mbind_ok hB]
  rw [bind_is_mbind (setCurrentContextM ctx),
    mbind_ok (show setCurrentContextM ctx wb
      = (.ok (), { wb with ctxFile := some ctx }, [.setPointer ctx]) from rfl)]
  rw [show mtry runFlutterNoop { wb with ctxFile := some ctx }
      = (.ok (), { wb with ctxFile := some ctx }, []) from rfl]
  simp

theorem switchContextBranchMode_run (env : Env) (cfg : Config) (ctx cur : String) (w : World) :
    ∃ t1 t2,
      (switchContextBranchMode env cfg ctx cur w).2.2 = t1 ++ t2 ∧
      (∀ op ∈ t1, isPushOp op = true) ∧
      (∀ op ∈ t2, isPushOp op = false) ∧
      ((switchContextBranchMode env cfg ctx cur w).1.isOk = true →
        ((switchContextBranchMode env cfg ctx cur w).2.1).ctxFile = some ctx ∧
        ∃ t3, t1 ++ t2 = t3 ++ [.setPointer ctx] ∧
          (∀ op ∈ t3, isPtrOp op = false) ∧
          (∀ op ∈ t3, isTransOp op = true → env.gitOk op = true)) ∧
      ((switchContextBranchMode env cfg ctx cur w).1.isOk = false →
        ((switchContextBranchMode env cfg ctx cur w).2.1).ctxFile = w.ctxFile) := by
  rcases hA : cfg.getContextRepos ctx with e | repos
  · have hrun : switchContextBranchMode env cfg ctx cur w = (.error e, w, []) := by
      unfold switchContextBranchMode
      rw [bind_is_mbind (liftE (cfg.getContextRepos ctx))]
      apply mbind_err
      unfold liftE
      rw [hA]
    refine ⟨[], [], by simp [hrun], by simp, by simp, ?_, ?_⟩
    · rw [hrun]; intro h; simp [Except.isOk, Except.toBool] at h
    · intro _; rw [hrun]
  · have hlift : liftE (α := List Repository) (cfg.getContextRepos ctx) w
        = (.ok repos, w, []) := by
      unfold liftE; rw [hA]
    rcases hB : maybeStashAll env repos cur w with ⟨rB, w1, t1⟩
    obtain rfl : rB = .ok () := ok_unit_of_neverErr (neverErr_maybeStashAll env repos cur) hB
    have ht1 : ∀ op ∈ t1, isPushOp op = true :=
      trace_of_traceP (traceP_maybeStashAll env repos cur) hB
    have hw1 : w1.ctxFile = w.ctxFile := ctx_of_ctxPres (ctxPres_maybeStashAll env repos cur) hB
    rcases hC : switchReposLoop env cfg ctx repos w1 with ⟨rC, w2, t2⟩
    have ht2 : ∀ op ∈ t2, isCkCrOp op = true :=
      trace_of_traceP (traceP_switchReposLoop env cfg ctx repos) hC
    have hw2 : w2.ctxFile = w1.ctxFile :=
      ctx_of_ctxPres (ctxPres_switchReposLoop env cfg ctx repos) hC
    cases rC with
    | error e2 =>
      have hrun : switchContextBranchMode env cfg ctx cur w = (.error e2, w2, t1 ++ t2) := by
        unfold switchContextBranchMode
        rw [bind_is_mbind (liftE (cfg.getContextRepos ctx)), mbind_ok hlift]
        rw [bind_is_mbind (maybeStashAll env repos cur), mbind_ok hB]
        rw [bind_is_mbind (switchReposLoop env cfg ctx repos), mbind_err hC]
        simp
      refine ⟨t1, t2, by simp [hrun], ht1,
        fun op hop => (ckcr_class (ht2 op hop)).2.1, ?_, ?_⟩
      · rw [hrun]; intro h; simp [Except.isOk, Except.toBool] at h
      · intro _; rw [hrun]; exact hw2.trans hw1
    | ok infos =>
      obtain ⟨t4, w3, hD, hw3, ht4⟩ := switchBranchRest_run env ctx infos w2
      have hrun : switchContextBranchMode env cfg ctx cur w
          = (.ok (), w3, t1 ++ (t2 ++ (t4 ++ [.setPointer ctx]))) := by
        unfold switchContextBranchMode
        rw [bind_is_mbind (liftE (cfg.getContextRepos ctx)), mbind_ok hlift]
        rw [bind_is_mbind (maybeStashAll env repos cur), mbind_ok hB]
        rw [bind_is_mbind (switchReposLoop env cfg ctx repos), mbind_ok hC]
        rw [hD]
        simp
      refine ⟨t1, t2 ++ (t4 ++ [.setPointer ctx]), by simp [hrun], ht1, ?_, ?_, ?_⟩
      · intro op hop
        rcases List.mem_append.mp hop with h | h
        · exact (ckcr_class (ht2 op h)).2.1
        · rcases List.mem_append.mp h with h | h
          · exact (pop_class (ht4 op h)).2.2.1
          · simp at h; subst h; rfl
      · intro _
        refine ⟨by rw [hrun]; exact hw3, t1 ++ (t2 ++ t4), by simp, ?_, ?_⟩
        · intro op hop
          rcases List.mem_append.mp hop with h | h
          · exact (push_class (ht1 op h)).2.1
          · rcases List.mem_append.mp h with h | h
            · exact (ckcr_class (ht2 op h)).1
            · exact (pop_class (ht4 op h)).2.1
        · intro op hop htr
          rcases List.mem_append.mp hop with h | h
          · exact absurd htr (by simp [(push_class (ht1 op h)).1])
          · rcases List.mem_append.mp h with h | h
            · exact trans_of_okTrans (okTrans_switchReposLoop env cfg ctx repos) hC op h htr
            · exact absurd htr (by simp [(pop_class (ht4 op h)).1])
      · rw [hrun]; intro h; simp [Except.isOk, Except.toBool] at h

/-! ### Run shape of the main-context switch -/

theorem mainMasterPhase_run (env : Env) (cfg : Config) (mr : Repository) (w : World) :
    (∃ e w1 t1, mainMasterPhase env cfg mr w = (.error e, w1, t1) ∧ w1.ctxFile = w.ctxFile ∧
      ∀ op ∈ t1, isCkCrOp op = true) ∨
    (∃ w1 t1, mainMasterPhase env cfg mr w = (.ok (), w1, t1 ++ [.setPointer "main"]) ∧
      w1.ctxFile = some "main" ∧ (∀ op ∈ t1, isCkCrOp op = true) ∧
      ∀ op ∈ t1, isTransOp op = true → env.gitOk op = true) := by
  rcases hA : switchRepoToMainBranch env cfg mr.path w with ⟨rA, wa, ta⟩
  have hta : ∀ op ∈ ta, isCkCrOp op = true :=
    trace_of_traceP (traceP_switchRepoToMainBranch env cfg mr.path) hA
  have hwa : wa.ctxFile = w.ctxFile :=
    ctx_of_ctxPres (ctxPres_switchRepoToMainBranch env cfg mr.path) hA
  cases rA with
  | error e =>
    refine .inl ⟨e, wa, ta, ?_, hwa, hta⟩
    unfold mainMasterPhase
    rw [bind_is_mbind (switchRepoToMainBranch env cfg mr.path)]
    exact mbind_err hA
  | ok a =>
    cases a
    rcases hB : mtry (revertMasterDependenciesToGit cfg mr) wa with ⟨rB, wb, tb⟩
    obtain rfl : rB = .ok () := ok_unit_of_neverErr (neverErr_mtry _) hB
    obtain rfl : tb = [] :=
      trace_of_noTrace (noTrace_mtry (noTrace_revertMasterDependenciesToGit cfg mr)) hB
    have hwb : wb.ctxFile = wa.ctxFile :=
      ctx_of_ctxPres (ctxPres_mtry (ctxPres_revertMasterDependenciesToGit cfg mr)) hB
    refine .inr ⟨{ wb with ctxFile := some "main" }, ta, ?_, rfl, hta,
      trans_of_okTrans (okTrans_switchRepoToMainBranch env cfg mr.path) hA⟩
    unfold mainMasterPhase
    rw [bind_is_mbind (switchRepoToMainBranch env cfg mr.path), mbind_ok hA]
    rw [bind_is_mbind (mtry (revertMasterDependenciesToGit cfg mr)), mbind_ok hB]
    rw [bind_is_mbind runFlutterNoop,
      mbind_ok (show runFlutterNoop wb = (.ok (), wb, []) from rfl)]
    rw [show setCurrentContextM "main" wb
      = (.ok (), { wb with ctxFile := some "main" }, [.setPointer "main"]) from rfl]
    simp

theorem switchToMainContext_run (env : Env) (cfg : Config) (cur : String) (w : World) :
    ∃ t1 t2,
      (switchToMainContext env cfg cur w).2.2 = t1 ++ t2 ∧
      (∀ op ∈ t1, isPushOp op = true) ∧
      (∀ op ∈ t2, isPushOp op = false) ∧
      ((switchToMainContext env cfg cur w).1.isOk = true →
        ((switchToMainContext env cfg cur w).2.1).ctxFile = some "main" ∧
        ∃ t3, t1 ++ t2 = t3 ++ [.setPointer "main"] ∧
          (∀ op ∈ t3, isPtrOp op = false) ∧
          (∀ op ∈ t3, isTransOp op = true → env.gitOk op = true)) ∧
      ((switchToMainContext env cfg cur w).1.isOk = false →
        ((switchToMainContext env cfg cur w).2.1).ctxFile = w.ctxFile) := by
  rcases hG : mainGateStep env cfg cur w with ⟨rG, wg, tg⟩
  have htg : ∀ op ∈ tg, isPushOp op = true :=
    trace_of_traceP (traceP_mainGateStep env cfg cur) hG
  have hwg : wg.ctxFile = w.ctxFile := ctx_of_ctxPres (ctxPres_mainGateStep env cfg cur) hG
  cases rG with
  | error e =>
    have hrun : switchToMainContext env cfg cur w = (.error e, wg, tg) := by
      unfold switchToMainContext
      rw [bind_is_mbind (mainGateStep env cfg cur)]
      exact mbind_err hG
    refine ⟨tg, [], by simp [hrun], htg, by simp, ?_, ?_⟩
    · rw [hrun]; intro h; simp [Except.isOk, Except.toBool] at h
    · intro _; rw [hrun]; exact hwg
  | ok a =>
    cases a
    rcases hM : cfg.getMasterRepo with e | mr
    · have hrun : switchToMainContext env cfg cur w
          = (.ok (), { wg with ctxFile := some "main" }, tg ++ [.setPointer "main"]) := by
        unfold switchToMainContext
        rw [bind_is_mbind (mainGateStep env cfg cur), mbind_ok hG, hM]
        simp only []
        rw [show setCurrentContextM "main" wg
          = (.ok (), { wg with ctxFile := some "main" }, [.setPointer "main"]) from rfl]
      refine ⟨tg, [.setPointer "main"], by simp [hrun], htg, ?_, ?_, ?_⟩
      · intro op hop; simp at hop; subst hop; rfl
      · intro _
        refine ⟨by rw [hrun], tg, rfl, ?_, ?_⟩
        · intro op hop; exact (push_class (htg op hop)).2.1
        · intro op hop htr; exact absurd htr (by simp [(push_class (htg op hop)).1])
      · rw [hrun]; intro h; simp [Except.isOk, Except.toBool] at h
    · rcases mainMasterPhase_run env cfg mr wg with
        ⟨e, w1, t1, hP, hw1, ht1⟩ | ⟨w1, t1, hP, hw1, ht1, htr1⟩
      · have hrun : switchToMainContext env cfg cur w = (.error e, w1, tg ++ t1) := by
          unfold switchToMainContext
          rw [bind_is_mbind (mainGateStep env cfg cur), mbind_ok hG, hM]
          simp only []
          rw [hP]
        refine ⟨tg, t1, by simp [hrun], htg,
          fun op hop => (ckcr_class (ht1 op hop)).2.1, ?_, ?_⟩
        · rw [hrun]; intro h; simp [Except.isOk, Except.toBool] at h
        · intro _; rw [hrun]; exact hw1.trans hwg
      · have hrun : switchToMainContext env cfg cur w
            = (.ok (), w1, tg ++ (t1 ++ [.setPointer "main"])) := by
          unfold switchToMainContext
          rw [bind_is_mbind (mainGateStep env cfg cur), mbind_ok hG, hM]
          simp only []
          rw [hP]
        refine ⟨tg, t1 ++ [.setPointer "main"], by simp [hrun], htg, ?_, ?_, ?_⟩
        · intro op hop
          rcases List.mem_append.mp hop with h | h
          · exact (ckcr_class (ht1 op h)).2.1
          · simp at h; subst h; rfl
        · intro _
          refine ⟨by rw [hrun]; exact hw1, tg ++ t1, by simp, ?_, ?_⟩
          · intro op hop
            rcases List.mem_append.mp hop with h | h
            · exact (push_class (htg op h)).2.1
            · exact (ckcr_class (ht1 op h)).1
          · intro op hop htr
            rcases List.mem_append.mp hop with h | h
            · exact absurd htr (by simp [(push_class (htg op h)).1])
            · exact htr1 op h htr
        · rw [hrun]; intro h; simp [Except.isOk, Except.toBool] at h

/-! ### Run shape of the worktree-mode switch -/

theorem masterPhase_run (env : Env) (cfg : Config) (ctx : String) (w : World) :
    (∃ e w1 t1, masterPhase env cfg ctx w = (.error e, w1, t1) ∧ w1.ctxFile = w.ctxFile ∧
      ∀ op ∈ t1, (isCkCrOp op || isPopOp op) = true) ∨
    (∃ mi w1 t1, masterPhase env cfg ctx w = (.ok mi, w1, t1) ∧ w1.ctxFile = w.ctxFile ∧
      (∀ op ∈ t1, (isCkCrOp op || isPopOp op) = true) ∧
      ∀ op ∈ t1, isTransOp op = true → env.gitOk op = true) := by
  by_cases hc : cfg.isContextContainsMaster ctx = true
  case neg =>
    refine .inr ⟨none, w, [], ?_, rfl, by simp, by simp⟩
    unfold masterPhase
    rw [if_neg hc]
    rfl
  case pos =>
    rcases hM : cfg.getMasterRepo with e | mr
    · refine .inl ⟨e, w, [], ?_, rfl, by simp⟩
      unfold masterPhase
      rw [if_pos hc]
      rw [bind_is_mbind (liftE cfg.getMasterRepo)]
      apply mbind_err
      unfold liftE
      rw [hM]
    · rcases hS : switchMasterRepoToContext env cfg mr ctx w with ⟨rS, ws, ts⟩
      have hts := trace_of_traceP (traceP_switchMasterRepoToContext env cfg mr ctx) hS
      have hws := ctx_of_ctxPres (ctxPres_switchMasterRepoToContext env cfg mr ctx) hS
      have hlift : liftE (α := Repository) cfg.getMasterRepo w = (.ok mr, w, []) := by
        unfold liftE; rw [hM]
      cases rS with
      | error e =>
        refine .inl ⟨e, ws, ts, ?_, hws, hts⟩
        unfold masterPhase
        rw [if_pos hc]
        rw [bind_is_mbind (liftE cfg.getMasterRepo), mbind_ok hlift]
        rw [bind_is_mbind (switchMasterRepoToContext env cfg mr ctx), mbind_err hS]
        simp
      | ok a =>
        cases a
        refine .inr ⟨some { repo := mr, worktreePath := mr.path, branchName := ctx }, ws, ts,
          ?_, hws, hts, trans_of_okTrans (okTrans_switchMasterRepoToContext env cfg mr ctx) hS⟩
        unfold masterPhase
        rw [if_pos hc]
        rw [bind_is_mbind (liftE cfg.getMasterRepo), mbind_ok hlift]
        rw [bind_is_mbind (switchMasterRepoToContext env cfg mr ctx), mbind_ok hS]
        simp [pure_is_mret, mret]

theorem switchWtRest_run (env : Env) (cfg : Config) (ctx : String) (wts : List WtInfo)
    (w : World) :
    ∃ t w1, switchWtRest env cfg ctx wts w = (.ok (), w1, t ++ [.setPointer ctx]) ∧
      w1.ctxFile = some ctx ∧ ∀ op ∈ t, isPopOp op = true := by
  rcases hA : popWtLoop env cfg ctx wts w with ⟨rA, wa, ta⟩
  obtain rfl : rA = .ok () := ok_unit_of_neverErr (neverErr_popWtLoop env cfg ctx wts) hA
  rcases hB : updatePubspecFilesForWorktrees cfg wts ctx wa with ⟨rB, wb, tb⟩
  obtain rfl : rB = .ok () :=
    ok_unit_of_neverErr (neverErr_updatePubspecFilesForWorktrees cfg wts ctx) hB
  obtain rfl : tb = [] :=
    trace_of_noTrace (noTrace_updatePubspecFilesForWorktrees cfg wts ctx) hB
  refine ⟨ta, { wb with ctxFile := some ctx }, ?_, rfl,
    trace_of_traceP (traceP_popWtLoop env cfg ctx wts) hA⟩
  unfold switchWtRest
  rw [bind_is_mbind (popWtLoop env cfg ctx wts), mbind_ok hA]
  rw [bind_is_mbind (updatePubspecFilesForWorktrees cfg wts ctx), mbind_ok hB]
  rw [bind_is_mbind (setCurrentContextM ctx),
    mbind_ok (show setCurrentContextM ctx wb
      = (.ok (), { wb with ctxFile := some ctx }, [.setPointer ctx]) from rfl)]
  rw [show mtry runFlutterNoop { wb with ctxFile := some ctx }
      = (.ok (), { wb with ctxFile := some ctx }, []) from rfl]
  simp

theorem switchWtTail_run (env : Env) (cfg : Config) (ctx cur : String)
    (mi : Option WtInfo) (w : World) :
    ∃ t1 t2,
      (switchWtTail env cfg ctx cur mi w).2.2 = t1 ++ t2 ∧
      (∀ op ∈ t1, isPushOp op = true) ∧
      (∀ op ∈ t2, isPushOp op = false) ∧
      ((switchWtTail env cfg ctx cur mi w).1.isOk = true →
        ((switchWtTail env cfg ctx cur mi w).2.1).ctxFile = some ctx ∧
        ∃ t3, t1 ++ t2 = t3 ++ [.setPointer ctx] ∧
          (∀ op ∈ t3, isPtrOp op = false) ∧
          (∀ op ∈ t3, isTransOp op = true → env.gitOk op = true)) ∧
      ((switchWtTail env cfg ctx cur mi w).1.isOk = false →
        ((switchWtTail env cfg ctx cur mi w).2.1).ctxFile = w.ctxFile) := by
  rcases hA : maybeStashCurrent env cfg cur w with ⟨rA, w1, t1⟩
  obtain rfl : rA = .ok () := ok_unit_of_neverErr (neverErr_maybeStashCurrent env cfg cur) hA
  have ht1 := trace_of_traceP (traceP_maybeStashCurrent env cfg cur) hA
  have hw1 := ctx_of_ctxPres (ctxPres_maybeStashCurrent env cfg cur) hA
  rcases hL : cfg.getNonMasterReposForContext ctx with e | nonMaster
  · have hrun : switchWtTail env cfg ctx cur mi w = (.error e, w1, t1) := by
      unfold switchWtTail
      rw [bind_is_mbind (maybeStashCurrent env cfg cur), mbind_ok hA]
      rw [bind_is_mbind (liftE (cfg.getNonMasterReposForContext ctx)),
        mbind_err (show liftE (α := List Repository) (cfg.getNonMasterReposForContext ctx) w1
          = (.error e, w1, []) from by unfold liftE; rw [hL])]
      simp
    refine ⟨t1, [], by simp [hrun], ht1, by simp, ?_, ?_⟩
    · rw [hrun]; intro h; simp [Except.isOk, Except.toBool] at h
    · intro _; rw [hrun]; exact hw1
  · have hlift : liftE (α := List Repository) (cfg.getNonMasterReposForContext ctx) w1
        = (.ok nonMaster, w1, []) := by
      unfold liftE; rw [hL]
    rcases hC : createWtLoop env ctx nonMaster w1 with ⟨rC, w2, t2⟩
    have ht2 := trace_of_traceP (traceP_createWtLoop env ctx nonMaster) hC
    have hw2 := ctx_of_ctxPres (ctxPres_createWtLoop env ctx nonMaster) hC
    cases rC with
    | error e2 =>
      have hrun : switchWtTail env cfg ctx cur mi w = (.error e2, w2, t1 ++ t2) := by
        unfold switchWtTail
        rw [bind_is_mbind (maybeStashCurrent env cfg cur), mbind_ok hA]
        rw [bind_is_mbind (liftE (cfg.getNonMasterReposForContext ctx)), mbind_ok hlift]
        rw [bind_is_mbind (createWtLoop env ctx nonMaster), mbind_err hC]
        simp
      refine ⟨t1, t2, by simp [hrun], ht1,
        fun op hop => (wtadd_class (ht2 op hop)).2, ?_, ?_⟩
      · rw [hrun]; intro h; simp [Except.isOk, Except.toBool] at h
      · intro _; rw [hrun]; exact hw2.trans hw1
    | ok wtInfos =>
      obtain ⟨t4, w3, hD, hw3, ht4⟩ :=
        switchWtRest_run env cfg ctx (miList mi ++ wtInfos) w2
      have hrun : switchWtTail env cfg ctx cur mi w
          = (.ok (), w3, t1 ++ (t2 ++ (t4 ++ [.setPointer ctx]))) := by
        unfold switchWtTail
        rw [bind_is_mbind (maybeStashCurrent env cfg cur), mbind_ok hA]
        rw [bind_is_mbind (liftE (cfg.getNonMasterReposForContext ctx)), mbind_ok hlift]
        rw [bind_is_mbind (createWtLoop env ctx nonMaster), mbind_ok hC]
        rw [hD]
        simp
      refine ⟨t1, t2 ++ (t4 ++ [.setPointer ctx]), by simp [hrun], ht1, ?_, ?_, ?_⟩
      · intro op hop
        rcases List.mem_append.mp hop with h | h
        · exact (wtadd_class (ht2 op h)).2
        · rcases List.mem_append.mp h with h | h
          · exact (pop_class (ht4 op h)).2.2.1
          · simp at h; subst h; rfl
      · intro _
        refine ⟨by rw [hrun]; exact hw3, t1 ++ (t2 ++ t4), by simp, ?_, ?_⟩
        · intro op hop
          rcases List.mem_append.mp hop with h | h
          · exact (push_class (ht1 op h)).2.1
          · rcases List.mem_append.mp h with h | h
            · exact (wtadd_class (ht2 op h)).1
            · exact (pop_class (ht4 op h)).2.1
        · intro op hop htr
          rcases List.mem_append.mp hop with h | h
          · exact absurd htr (by simp [(push_class (ht1 op h)).1])
          · rcases List.mem_append.mp h with h | h
            · exact trans_of_okTrans (okTrans_createWtLoop env ctx nonMaster) hC op h htr
            · exact absurd htr (by simp [(pop_class (ht4 op h)).1])
      · rw [hrun]; intro h; simp [Except.isOk, Except.toBool] at h

theorem switchWtMode_run (env : Env) (cfg : Config) (ctx cur : String) (w : World)
    (hctx : ¬(ctx = "main" ∨ ctx = "master")) :
    ∃ t0 t1 t2,
      (switchContextWorktreeMode env cfg ctx cur w).2.2 = t0 ++ (t1 ++ t2) ∧
      (∀ op ∈ t0, (isCkCrOp op || isPopOp op) = true) ∧
      (∀ op ∈ t1, isPushOp op = true) ∧
      (∀ op ∈ t2, isPushOp op = false) ∧
      ((switchContextWorktreeMode env cfg ctx cur w).1.isOk = true →
        ((switchContextWorktreeMode env cfg ctx cur w).2.1).ctxFile = some ctx ∧
        ∃ t3, t0 ++ (t1 ++ t2) = t3 ++ [.setPointer ctx] ∧
          (∀ op ∈ t3, isPtrOp op = false) ∧
          (∀ op ∈ t3, isTransOp op = true → env.gitOk op = true)) ∧
      ((switchContextWorktreeMode env cfg ctx cur w).1.isOk = false →
        ((switchContextWorktreeMode env cfg ctx cur w).2.1).ctxFile = w.ctxFile) := by
  rcases masterPhase_run env cfg ctx w with
    ⟨e, w1, t0, hP, hw1, ht0⟩ | ⟨mi, w1, t0, hP, hw1, ht0, htr0⟩
  · have hrun : switchContextWorktreeMode env cfg ctx cur w = (.error e, w1, t0) := by
      unfold switchContextWorktreeMode
      rw [if_neg hctx]
      rw [bind_is_mbind (masterPhase env cfg ctx)]
      exact mbind_err hP
    refine ⟨t0, [], [], by simp [hrun], ht0, by simp, by simp, ?_, ?_⟩
    · rw [hrun]; intro h; simp [Except.isOk, Except.toBool] at h
    · intro _; rw [hrun]; exact hw1
  · obtain ⟨t1, t2, htr, ht1, ht2, hok, herr⟩ := switchWtTail_run env cfg ctx cur mi w1
    have hrun : switchContextWorktreeMode env cfg ctx cur w
        = ((switchWtTail env cfg ctx cur mi w1).1,
           (switchWtTail env cfg ctx cur mi w1).2.1,
           t0 ++ (switchWtTail env cfg ctx cur mi w1).2.2) := by
      unfold switchContextWorktreeMode
      rw [if_neg hctx]
      rw [bind_is_mbind (masterPhase env cfg ctx)]
      exact mbind_ok hP
    refine ⟨t0, t1, t2, ?_, ht0, ht1, ht2, ?_, ?_⟩
    · rw [hrun]
      show t0 ++ (switchWtTail env cfg ctx cur mi w1).2.2 = _
      rw [htr]
    · intro h
      rw [hrun] at h
      replace h : (switchWtTail env cfg ctx cur mi w1).1.isOk = true := h
      obtain ⟨hctxf, t3, hdec, hptr, htrans⟩ := hok h
      constructor
      · rw [hrun]; exact hctxf
      · refine ⟨t0 ++ t3, ?_, ?_, ?_⟩
        · rw [hdec]; simp
        · intro op hop
          rcases List.mem_append.mp hop with h2 | h2
          · exact (mcl_class (ht0 op h2)).1
          · exact hptr op h2
        · intro op hop htr2
          rcases List.mem_append.mp hop with h2 | h2
          · exact htr0 op h2 htr2
          · exact htrans op h2 htr2
    · intro h
      rw [hrun] at h
      replace h : (switchWtTail env cfg ctx cur mi w1).1.isOk = false := h
      rw [hrun]
      exact (herr h).trans hw1

/-! ### The dispatching run shape of `SwitchContext` -/

/-- The string the pointer file holds after a successful switch to `ctx`:
in worktree mode a reserved target is aliased to `main`. -/
def ptrTarget (cfg : Config) (ctx : String) : String :=
  if cfg.isBranchMode then ctx
  else if ctx = "main" ∨ ctx = "master" then "main" else ctx

theorem SwitchContext_run (env : Env) (cfg : Config) (ctx : String) (w : World) :
    (curCtx w = ctx ∧ SwitchContext env cfg ctx w = (.ok (), w, [])) ∨
    (curCtx w ≠ ctx ∧ ∃ t0 t1 t2,
      (SwitchContext env cfg ctx w).2.2 = t0 ++ (t1 ++ t2) ∧
      (∀ op ∈ t0, (isCkCrOp op || isPopOp op) = true) ∧
      (cfg.isBranchMode = true → t0 = []) ∧
      (∀ op ∈ t1, isPushOp op = true) ∧
      (∀ op ∈ t2, isPushOp op = false) ∧
      ((SwitchContext env cfg ctx w).1.isOk = true →
        ((SwitchContext env cfg ctx w).2.1).ctxFile = some (ptrTarget cfg ctx) ∧
        ∃ t3, t0 ++ (t1 ++ t2) = t3 ++ [.setPointer (ptrTarget cfg ctx)] ∧
          (∀ op ∈ t3, isPtrOp op = false) ∧
          (∀ op ∈ t3, isTransOp op = true → env.gitOk op = true)) ∧
      ((SwitchContext env cfg ctx w).1.isOk = false →
        ((SwitchContext env cfg ctx w).2.1).ctxFile = w.ctxFile)) := by
  by_cases hc : curCtx w = ctx
  · left
    refine ⟨hc, ?_⟩
    unfold SwitchContext
    rw [bind_is_mbind getCurrentContextM, mbind_ok getCurrentContextM_eq]
    rw [if_pos hc]
    rfl
  · right
    refine ⟨hc, ?_⟩
    cases hmode : cfg.isBranchMode with
    | true =>
      obtain ⟨t1, t2, htr, ht1, ht2, hok, herr⟩ :=
        switchContextBranchMode_run env cfg ctx (curCtx w) w
      have hrun : SwitchContext env cfg ctx w
          = ((switchContextBranchMode env cfg ctx (curCtx w) w).1,
             (switchContextBranchMode env cfg ctx (curCtx w) w).2.1,
             [] ++ (switchContextBranchMode env cfg ctx (curCtx w) w).2.2) := by
        unfold SwitchContext
        rw [bind_is_mbind getCurrentContextM, mbind_ok getCurrentContextM_eq]
        rw [if_neg hc, if_pos hmode]
      have hpt : ptrTarget cfg ctx = ctx := by
        unfold ptrTarget
        rw [if_pos hmode]
      refine ⟨[], t1, t2, ?_, by simp, fun _ => rfl, ht1, ht2, ?_, ?_⟩
      · rw [hrun]
        show [] ++ (switchContextBranchMode env cfg ctx (curCtx w) w).2.2 = _
        rw [htr]
      · intro h
        rw [hrun] at h
        replace h : (switchContextBranchMode env cfg ctx (curCtx w) w).1.isOk = true := h
        obtain ⟨hctxf, t3, hdec, hptr, htrans⟩ := hok h
        refine ⟨by rw [hrun, hpt]; exact hctxf, t3, ?_, hptr, htrans⟩
        rw [hpt]
        simpa using hdec
      · intro h
        rw [hrun] at h
        replace h : (switchContextBranchMode env cfg ctx (curCtx w) w).1.isOk = false := h
        rw [hrun]
        exact herr h
    | false =>
      by_cases hctx2 : ctx = "main" ∨ ctx = "master"
      · obtain ⟨t1, t2, htr, ht1, ht2, hok, herr⟩ :=
          switchToMainContext_run env cfg (curCtx w) w
        have hrun : SwitchContext env cfg ctx w
            = ((switchToMainContext env cfg (curCtx w) w).1,
               (switchToMainContext env cfg (curCtx w) w).2.1,
               [] ++ (switchToMainContext env cfg (curCtx w) w).2.2) := by
          unfold SwitchContext
          rw [bind_is_mbind getCurrentContextM, mbind_ok getCurrentContextM_eq]
          rw [if_neg hc, if_neg (by simp [hmode])]
          unfold switchContextWorktreeMode
          rw [if_pos hctx2]
        have hpt : ptrTarget cfg ctx = "main" := by
          unfold ptrTarget
          rw [if_neg (by simp [hmode]), if_pos hctx2]
        refine ⟨[], t1, t2, ?_, by simp, fun hh => absurd hh (by simp [hmode]), ht1, ht2,
          ?_, ?_⟩
        · rw [hrun]
          show [] ++ (switchToMainContext env cfg (curCtx w) w).2.2 = _
          rw [htr]
        · intro h
          rw [hrun] at h
          replace h : (switchToMainContext env cfg (curCtx w) w).1.isOk = true := h
          obtain ⟨hctxf, t3, hdec, hptr, htrans⟩ := hok h
          refine ⟨by rw [hrun, hpt]; exact hctxf, t3, ?_, hptr, htrans⟩
          rw [hpt]
          simpa using hdec
        · intro h
          rw [hrun] at h
          replace h : (switchToMainContext env cfg (curCtx w) w).1.isOk = false := h
          rw [hrun]
          exact herr h
      · obtain ⟨t0, t1, t2, htr, ht0, ht1, ht2, hok, herr⟩ :=
          switchWtMode_run env cfg ctx (curCtx w) w hctx2
        have hrun : SwitchContext env cfg ctx w
            = ((switchContextWorktreeMode env cfg ctx (curCtx w) w).1,
               (switchContextWorktreeMode env cfg ctx (curCtx w) w).2.1,
               [] ++ (switchContextWorktreeMode env cfg ctx (curCtx w) w).2.2) := by
          unfold SwitchContext
          rw [bind_is_mbind getCurrentContextM, mbind_ok getCurrentContextM_eq]
          rw [if_neg hc, if_neg (by simp [hmode])]
        have hpt : ptrTarget cfg ctx = ctx := by
          unfold ptrTarget
          rw [if_neg (by simp [hmode]), if_neg hctx2]
        refine ⟨t0, t1, t2, ?_, ht0, fun hh => absurd hh (by simp [hmode]), ht1, ht2,
          ?_, ?_⟩
        · rw [hrun]
          show [] ++ (switchContextWorktreeMode env cfg ctx (curCtx w) w).2.2 = _
          rw [htr]
          simp
        · intro h
          rw [hrun] at h
          replace h : (switchContextWorktreeMode env cfg ctx (curCtx w) w).1.isOk = true := h
          obtain ⟨hctxf, t3, hdec, hptr, htrans⟩ := hok h
          refine ⟨by rw [hrun, hpt]; exact hctxf, t3, ?_, hptr, htrans⟩
          rw [hpt]
          simpa using hdec
        · intro h
          rw [hrun] at h
          replace h : (switchContextWorktreeMode env cfg ctx (curCtx w) w).1.isOk = false := h
          rw [hrun]
          exact herr h

/-! ## Claim C1: pointer discipline of `SwitchContext` -/

/-- C1 (corrected): for every switch, (i) an aborted run leaves the pointer
file byte-identical, and (ii) a successful run that actually switches writes
the pointer exactly once, as the final recorded operation, with every branch
checkout, branch creation and worktree creation in the trace let through by
the environment.  The written value is `ptrTarget cfg ctx`, which is `ctx`
except that a worktree-mode switch to `main`/`master` writes the literal
`main`; the original claim's "the pointer file contains T" fails on that
aliasing (see the counterexample), and stash pushes and pops are *not*
guaranteed to have succeeded (they are warned and tolerated). -/
theorem c1_switch_pointer (env : Env) (cfg : Config) (ctx : String) (w : World) :
    ((SwitchContext env cfg ctx w).1.isOk = false →
      ((SwitchContext env cfg ctx w).2.1).ctxFile = w.ctxFile) ∧
    ((SwitchContext env cfg ctx w).1.isOk = true → curCtx w ≠ ctx →
      ((SwitchContext env cfg ctx w).2.1).ctxFile = some (ptrTarget cfg ctx) ∧
      ∃ t3, (SwitchContext env cfg ctx w).2.2 = t3 ++ [.setPointer (ptrTarget cfg ctx)] ∧
        (∀ op ∈ t3, isPtrOp op = false) ∧
        ∀ op ∈ t3, isTransOp op = true → env.gitOk op = true) := by
  rcases SwitchContext_run env cfg ctx w with
    ⟨hcur, hrun⟩ | ⟨hcur, t0, t1, t2, htr, _, _, _, _, hok, herr⟩
  · constructor
    · intro h; rw [hrun] at h; simp [Except.isOk, Except.toBool] at h
    · intro _ hne; exact absurd hcur hne
  · constructor
    · exact herr
    · intro h _
      obtain ⟨hctxf, t3, hdec, hptr, htrans⟩ := hok h
      exact ⟨hctxf, t3, by rw [htr, hdec], hptr, htrans⟩

/-- A branch-mode workspace with one repository and one context. -/
def cfgW1 : Config :=
  ⟨[⟨"app", "app", "app"⟩], "", "branch", "main", [("feat", ["app"])]⟩

/-- A world where `app` is a clean repository on `main` and no context is
active. -/
def wW1 : World :=
  { repoPaths := ["app"],
    repoSt := fun p =>
      if p = "app" then ⟨true, ["main"], "main", false, [], []⟩
      else ⟨false, [], "", false, [], []⟩,
    ctxFile := none,
    manifests := fun _ => none,
    backups := fun _ => none,
    savedCfg := none }

/-- An environment where every git command succeeds. -/
def envW1 : Env := ⟨fun _ => true, .answer true, .ok []⟩

theorem c1_switch_pointer_witness :
    ((SwitchContext envW1 cfgW1 "feat" wW1).2.1).ctxFile = some (ptrTarget cfgW1 "feat") ∧
    ∃ t3, (SwitchContext envW1 cfgW1 "feat" wW1).2.2
        = t3 ++ [.setPointer (ptrTarget cfgW1 "feat")] ∧
      (∀ op ∈ t3, isPtrOp op = false) ∧
      ∀ op ∈ t3, isTransOp op = true → envW1.gitOk op = true :=
  (c1_switch_pointer envW1 cfgW1 "feat" wW1).2 (by decide) (by decide)

/-- A worktree-mode workspace with no master repository. -/
def cfg1c : Config := ⟨[], "", "worktree", "", []⟩

/-- A world currently on context `feat`. -/
def w1c : World :=
  ⟨[], fun _ => ⟨false, [], "", false, [], []⟩, some "feat", fun _ => none, fun _ => none, none⟩

theorem c1_switch_pointer_counterexample :
    (SwitchContext envW1 cfg1c "master" w1c).1.isOk = true ∧
    curCtx w1c ≠ "master" ∧
    ((SwitchContext envW1 cfg1c "master" w1c).2.1).ctxFile ≠ some "master" :=
  ⟨by decide, by decide, by decide⟩

/-! ## Claim C5: stashes versus branch transitions -/

/-- C5 (corrected): in branch mode every stash push of a switch happens before
every branch checkout/creation, and in every mode every stash push happens
before every worktree creation; but in worktree mode the master repository's
branch transition runs *before* the source context's worktrees are stashed,
so the original "stashes before any branch transition in any repository"
fails (see the counterexample). -/
theorem c5_stash_order (env : Env) (cfg : Config) (ctx : String) (w : World) :
    pushAfter isWtAddOp isPushOp (SwitchContext env cfg ctx w).2.2 = false ∧
    (cfg.isBranchMode = true →
      pushAfter isTransOp isPushOp (SwitchContext env cfg ctx w).2.2 = false) := by
  rcases SwitchContext_run env cfg ctx w with
    ⟨_, hrun⟩ | ⟨_, t0, t1, t2, htr, ht0, hbr, ht1, ht2, _, _⟩
  · rw [hrun]
    exact ⟨rfl, fun _ => rfl⟩
  · constructor
    · rw [htr, show t0 ++ (t1 ++ t2) = (t0 ++ t1) ++ t2 from by simp]
      refine pushAfter_eq_false ?_ ht2
      intro op hop
      rcases List.mem_append.mp hop with h | h
      · exact (mcl_class (ht0 op h)).2.2
      · exact (push_class (ht1 op h)).2.2
    · intro hb
      rw [htr, hbr hb, List.nil_append]
      exact pushAfter_eq_false (fun op hop => (push_class (ht1 op hop)).1) ht2

theorem c5_stash_order_witness :
    pushAfter isWtAddOp isPushOp (SwitchContext envW1 cfgW1 "feat" wW1).2.2 = false ∧
    pushAfter isTransOp isPushOp (SwitchContext envW1 cfgW1 "feat" wW1).2.2 = false :=
  ⟨(c5_stash_order envW1 cfgW1 "feat" wW1).1,
   (c5_stash_order envW1 cfgW1 "feat" wW1).2 (by decide)⟩

/-- A worktree-mode workspace whose target context contains the master. -/
def cfg5 : Config :=
  ⟨[⟨"app", "app", "app"⟩, ⟨"ui", "ui", "ui"⟩], "app", "worktree", "main",
   [("feat", ["app", "ui"]), ("old", ["ui"])]⟩

/-- A world on context `old` whose `ui-old` worktree has uncommitted
changes. -/
def w5 : World :=
  { repoPaths := ["app", "ui"],
    repoSt := fun p =>
      if p = "app" then ⟨true, ["main"], "main", false, [], []⟩
      else if p = "ui" then ⟨true, ["main", "old"], "main", false, [],
        [⟨"ui-old", "old", true⟩]⟩
      else ⟨false, [], "", false, [], []⟩,
    ctxFile := some "old",
    manifests := fun _ => none,
    backups := fun _ => none,
    savedCfg := none }

theorem c5_stash_order_counterexample :
    curCtx w5 = "old" ∧ "old" ≠ "" ∧
    pushAfter isTransOp (isCtxPush "old") (SwitchContext envW1 cfg5 "feat" w5).2.2 = true :=
  ⟨by decide, by decide, by decide⟩

/-! ## Claim C10: switching to `master` writes `main` -/

/-- C10 (confirmed): in worktree mode, a switch whose target is the reserved
name `master` (from any other current context) routes through the
main-context transition and, on success, writes the literal `main` to the
pointer file, never `master`. -/
theorem c10_master_pointer_main (env : Env) (cfg : Config) (w : World)
    (hmode : cfg.isBranchMode = false) (hcur : curCtx w ≠ "master")
    (hok : (SwitchContext env cfg "master" w).1.isOk = true) :
    ((SwitchContext env cfg "master" w).2.1).ctxFile = some "main" := by
  rcases SwitchContext_run env cfg "master" w with
    ⟨hc, _⟩ | ⟨_, t0, t1, t2, _, _, _, _, _, hok2, _⟩
  · exact absurd hc hcur
  · have h := (hok2 hok).1
    rwa [show ptrTarget cfg "master" = "main" from by
      unfold ptrTarget
      rw [if_neg (by simp [hmode]), if_pos (Or.inr rfl)]] at h

theorem c10_master_pointer_main_witness :
    ((SwitchContext envW1 cfg1c "master" w1c).2.1).ctxFile = some "main" :=
  c10_master_pointer_main envW1 cfg1c w1c (by decide) (by decide) (by decide)

/-! ## Claim C6: the main-switch stash gate -/

/-- C6 (confirmed): when leaving a user context for `main` with a dirty
master, a prompt failure whose message mentions `TTY` auto-confirms (the gate
behaves exactly as a confirmed stash), while a user decline aborts the whole
main-switch with the user-cancelled error, leaving the world untouched and
running no git command. -/
theorem c6_main_stash_gate (env : Env) (cfg : Config) (cur : String) (w : World)
    (mr : Repository) (hmr : cfg.getMasterRepo = .ok mr)
    (hgit : w.isGitDir mr.path = true)
    (hdirty : w.dirDirty mr.path = some true)
    (hcur : (cur != "" && cur != "main" && cur != "master") = true) :
    (∀ msg, env.stashGate = .tuiErr msg →
      (strContains msg "TTY" || strContains msg "tty") = true →
      handleMasterRepoStashForMainSwitch env cfg cur w
        = gStashForContext env mr.path cur w) ∧
    (env.stashGate = .answer false →
      switchToMainContext env cfg cur w = (.error "switch cancelled by user", w, [])) := by
  have hread : gIsGitRepo mr.path w = (.ok true, w, []) := by
    show (Except.ok (w.isGitDir mr.path), w, []) = _
    rw [hgit]
  have hch : gHasChanges mr.path w = (.ok true, w, []) := by
    unfold gHasChanges
    rw [hdirty]
  constructor
  · intro msg hgate htty
    unfold handleMasterRepoStashForMainSwitch
    rw [hmr]
    simp only []
    rw [bind_is_mbind (gIsGitRepo mr.path), mbind_ok hread]
    rw [if_neg (by decide : ¬((!true) = true))]
    rw [orSkip_eq_read hch]
    rw [if_neg (by decide : ¬((!true) = true))]
    rw [hgate]
    simp only []
    rw [if_pos htty]
    simp
  · intro hgate
    unfold switchToMainContext
    rw [bind_is_mbind (mainGateStep env cfg cur)]
    apply mbind_err
    unfold mainGateStep
    rw [if_pos hcur]
    unfold handleMasterRepoStashForMainSwitch
    rw [hmr]
    simp only []
    rw [bind_is_mbind (gIsGitRepo mr.path), mbind_ok hread]
    rw [if_neg (by decide : ¬((!true) = true))]
    rw [orSkip_eq_read hch]
    rw [if_neg (by decide : ¬((!true) = true))]
    rw [hgate]
    simp only []
    rw [if_neg (by decide : ¬((false : Bool) = true))]
    simp [mfail]

/-- A workspace whose master repository is `app`. -/
def cfg6 : Config := ⟨[⟨"app", "app", "app"⟩], "app", "worktree", "main", []⟩

/-- A world where `app` is a git repository with uncommitted changes. -/
def w6 : World :=
  { repoPaths := ["app"],
    repoSt := fun p =>
      if p = "app" then ⟨true, ["main"], "main", true, [], []⟩
      else ⟨false, [], "", false, [], []⟩,
    ctxFile := some "feat",
    manifests := fun _ => none,
    backups := fun _ => none,
    savedCfg := none }

/-- An environment whose stash prompt fails without a terminal. -/
def env6a : Env := ⟨fun _ => true, .tuiErr "no TTY available", .ok []⟩

/-- An environment whose stash prompt is answered "no". -/
def env6b : Env := ⟨fun _ => true, .answer false, .ok []⟩

theorem c6_main_stash_gate_witness :
    handleMasterRepoStashForMainSwitch env6a cfg6 "feat" w6
      = gStashForContext env6a "app" "feat" w6 ∧
    switchToMainContext env6b cfg6 "feat" w6
      = (.error "switch cancelled by user", w6, []) :=
  ⟨(c6_main_stash_gate env6a cfg6 "feat" w6 ⟨"app", "app", "app"⟩ (by decide) (by decide)
      (by decide) (by decide)).1 "no TTY available" rfl (by decide),
   (c6_main_stash_gate env6b cfg6 "feat" w6 ⟨"app", "app", "app"⟩ (by decide) (by decide)
      (by decide) (by decide)).2 rfl⟩

/-! ## Claim C8: mainline selection -/

/-- C8 (confirmed): moving a repository to its mainline checks the configured
main branch first and then `main`, `master`, `develop` with the configured
name filtered out (`mainCandidates`); the first locally existing candidate is
checked out, and when none exists the operation succeeds without running any
git command, leaving the repository on its current branch. -/
theorem c8_mainline_selection (env : Env) (cfg : Config) (dir : String) (w : World) :
    (∀ b, firstExisting w dir (cfg.getMainBranch :: mainCandidates cfg.getMainBranch)
        = some b →
      switchRepoToMainBranch env cfg dir w = gCheckout env dir b w) ∧
    (firstExisting w dir (cfg.getMainBranch :: mainCandidates cfg.getMainBranch) = none →
      ∀ b0, w.curBranch dir = some b0 →
        switchRepoToMainBranch env cfg dir w = (.ok (), w, [])) := by
  constructor
  · intro b hb
    simp only [firstExisting] at hb
    unfold switchRepoToMainBranch
    by_cases hex : branchExistsB w dir cfg.getMainBranch = true
    · rw [if_pos hex] at hb
      rw [if_pos hex]
      simp only [Option.some.injEq] at hb
      rw [hb]
    · rw [if_neg hex] at hb
      rw [if_neg hex, hb]
  · intro hnone b0 hb0
    simp only [firstExisting] at hnone
    unfold switchRepoToMainBranch
    by_cases hex : branchExistsB w dir cfg.getMainBranch = true
    · rw [if_pos hex] at hnone
      simp at hnone
    · rw [if_neg hex] at hnone
      rw [if_neg hex, hnone]
      simp only []
      rw [hb0]

/-- A workspace whose configured main branch is `trunk`. -/
def cfg8 : Config := ⟨[⟨"app", "app", "app"⟩], "", "branch", "trunk", []⟩

/-- A world where `app` has only a `develop` branch. -/
def w8 : World :=
  { repoPaths := ["app"],
    repoSt := fun p =>
      if p = "app" then ⟨true, ["develop", "feat"], "feat", false, [], []⟩
      else ⟨false, [], "", false, [], []⟩,
    ctxFile := none,
    manifests := fun _ => none,
    backups := fun _ => none,
    savedCfg := none }

/-- A world where `app` has no mainline candidate at all. -/
def w8b : World :=
  { repoPaths := ["app"],
    repoSt := fun p =>
      if p = "app" then ⟨true, ["feat"], "feat", false, [], []⟩
      else ⟨false, [], "", false, [], []⟩,
    ctxFile := none,
    manifests := fun _ => none,
    backups := fun _ => none,
    savedCfg := none }

theorem c8_mainline_selection_witness :
    switchRepoToMainBranch envW1 cfg8 "app" w8 = gCheckout envW1 "app" "develop" w8 ∧
    switchRepoToMainBranch envW1 cfg8 "app" w8b = (.ok (), w8b, []) :=
  ⟨(c8_mainline_selection envW1 cfg8 "app" w8).1 "develop" (by decide),
   (c8_mainline_selection envW1 cfg8 "app" w8b).2 (by decide) "feat" (by decide)⟩

/-! ## Claim C7: `add-context` validation -/

theorem find_map_set {m : List (String × List String)} {k : String} {v : List String}
    (hc : m.any (fun p => p.1 == k) = true) :
    (m.map (fun p => if p.1 == k then (k, v) else p)).find? (fun p => p.1 == k)
      = some (k, v) := by
  induction m with
  | nil => simp at hc
  | cons q rest ih =>
    by_cases hq : (q.1 == k) = true
    · simp only [List.map_cons, if_pos hq]
      simp [List.find?_cons]
    · have hq2 : (q.1 == k) = false := by
        cases hh : q.1 == k with
        | false => rfl
        | true => exact absurd hh hq
      have hc2 : rest.any (fun p => p.1 == k) = true := by
        simpa [List.any_cons, hq2] using hc
      simp only [List.map_cons, if_neg hq]
      simp only [List.find?_cons, hq2]
      exact ih hc2

theorem find_append_right {m : List (String × List String)} {k : String} {v : List String}
    (hc : m.any (fun p => p.1 == k) = false) :
    (m ++ [(k, v)]).find? (fun p => p.1 == k) = some (k, v) := by
  induction m with
  | nil =>
    simp only [List.nil_append]
    simp [List.find?_cons]
  | cons q rest ih =>
    have hq : (q.1 == k) = false := by
      cases hh : q.1 == k with
      | false => rfl
      | true => simp [List.any_cons, hh] at hc
    have hc2 : rest.any (fun p => p.1 == k) = false := by
      simpa [List.any_cons, hq] using hc
    simp only [List.cons_append, List.find?_cons, hq]
    exact ih hc2

theorem find_setAssoc (m : List (String × List String)) (k : String) (v : List String) :
    (setAssoc m k v).find? (fun p => p.1 == k) = some (k, v) := by
  unfold setAssoc
  by_cases hc : m.any (fun p => p.1 == k) = true
  · rw [if_pos hc]
    exact find_map_set hc
  · rw [if_neg hc]
    cases hh : m.any (fun p => p.1 == k) with
    | true => exact absurd hh hc
    | false => exact find_append_right hh

theorem ctxLookup_addContext {c : Config} {name : String} {aliases : List String}
    {c2 : Config} (h : c.addContext name aliases = .ok c2) :
    c2.ctxLookup name = some aliases := by
  unfold Config.addContext at h
  by_cases hv : aliases.all (fun a => c.repos.any (fun r => r.resolvesAs a)) = true
  · rw [if_pos hv] at h
    injection h with h2
    subst h2
    unfold Config.ctxLookup
    simp only []
    rw [find_setAssoc]
    rfl
  · rw [if_neg hv] at h
    simp at h

theorem any_resolves_eq_false {cfg : Config} {a : String}
    (h : (cfg.getRepoByAlias a).isOk = false) :
    cfg.repos.any (fun r => r.resolvesAs a) = false := by
  unfold Config.getRepoByAlias at h
  rcases hf : cfg.repos.find? (fun r => r.resolvesAs a) with _ | r
  · exact List.any_eq_false.mpr (List.find?_eq_none.mp hf)
  · rw [hf] at h
    simp [Except.isOk, Except.toBool] at h

/-- C7 (confirmed): `CreateCmd.Run` rejects reserved names and rejects any
selection containing an alias-or-name that resolves to no configured
repository; every failure leaves the world (in particular the saved
descriptor) untouched and runs nothing, and success saves a descriptor whose
context entry holds exactly the supplied references. -/
theorem c7_create_context_validation (cfg : Config) (name : String)
    (sel : List String) (w : World) :
    ((name = "main" ∨ name = "master") →
      ∃ e, CreateCmdRun cfg name sel w = (.error e, w, [])) ∧
    ((∃ a ∈ sel, (cfg.getRepoByAlias a).isOk = false) →
      ∃ e, CreateCmdRun cfg name sel w = (.error e, w, [])) ∧
    ((CreateCmdRun cfg name sel w).1.isOk = false →
      (CreateCmdRun cfg name sel w).2.1 = w ∧ (CreateCmdRun cfg name sel w).2.2 = []) ∧
    ((CreateCmdRun cfg name sel w).1.isOk = true →
      ∃ cfg2, cfg.addContext name sel = .ok cfg2 ∧
        (CreateCmdRun cfg name sel w).2.1 = { w with savedCfg := some cfg2 } ∧
        cfg2.ctxLookup name = some sel) := by
  by_cases h1 : cfg.repos.isEmpty = true
  · have hrun : CreateCmdRun cfg name sel w = (.error "no repositories configured", w, []) := by
      unfold CreateCmdRun
      rw [if_pos h1]
      rfl
    refine ⟨fun _ => ⟨_, hrun⟩, fun _ => ⟨_, hrun⟩, ?_, ?_⟩
    · intro _; rw [hrun]; exact ⟨rfl, rfl⟩
    · intro h; rw [hrun] at h; simp [Except.isOk, Except.toBool] at h
  · by_cases h2 : name = "main" ∨ name = "master"
    · have hrun : CreateCmdRun cfg name sel w
          = (.error "cannot create context with reserved name", w, []) := by
        unfold CreateCmdRun
        rw [if_neg h1, if_pos h2]
        rfl
      refine ⟨fun _ => ⟨_, hrun⟩, fun _ => ⟨_, hrun⟩, ?_, ?_⟩
      · intro _; rw [hrun]; exact ⟨rfl, rfl⟩
      · intro h; rw [hrun] at h; simp [Except.isOk, Except.toBool] at h
    · by_cases h3 : cfg.contextExists name = true
      · have hrun : CreateCmdRun cfg name sel w = (.error "context already exists", w, []) := by
          unfold CreateCmdRun
          rw [if_neg h1, if_neg h2, if_pos h3]
          rfl
        refine ⟨fun _ => ⟨_, hrun⟩, fun _ => ⟨_, hrun⟩, ?_, ?_⟩
        · intro _; rw [hrun]; exact ⟨rfl, rfl⟩
        · intro h; rw [hrun] at h; simp [Except.isOk, Except.toBool] at h
      · rcases hadd : cfg.addContext name sel with e | cfg2
        · have hrun : CreateCmdRun cfg name sel w
              = (.error ("failed to add context: " ++ e), w, []) := by
            unfold CreateCmdRun
            rw [if_neg h1, if_neg h2, if_neg h3, hadd]
            rfl
          refine ⟨fun _ => ⟨_, hrun⟩, fun _ => ⟨_, hrun⟩, ?_, ?_⟩
          · intro _; rw [hrun]; exact ⟨rfl, rfl⟩
          · intro h; rw [hrun] at h; simp [Except.isOk, Except.toBool] at h
        · have hrun : CreateCmdRun cfg name sel w
              = (.ok (), { w with savedCfg := some cfg2 }, []) := by
            unfold CreateCmdRun
            rw [if_neg h1, if_neg h2, if_neg h3, hadd]
            rfl
          refine ⟨fun hres => absurd hres h2, ?_, ?_, ?_⟩
          · rintro ⟨a, ha, hbad⟩
            have hv : sel.all (fun a => cfg.repos.any (fun r => r.resolvesAs a)) = true := by
              by_contra hv
              unfold Config.addContext at hadd
              rw [if_neg hv] at hadd
              simp at hadd
            have h5 := List.all_eq_true.mp hv a ha
            simp only [] at h5
            rw [any_resolves_eq_false hbad] at h5
            simp at h5
          · intro h; rw [hrun] at h; simp [Except.isOk, Except.toBool] at h
          · intro _
            exact ⟨cfg2, rfl, by rw [hrun], ctxLookup_addContext hadd⟩

theorem c7_create_context_validation_witness :
    (∃ e, CreateCmdRun cfgW1 "master" ["app"] wW1 = (.error e, wW1, [])) ∧
    (∃ e, CreateCmdRun cfgW1 "x" ["ghost"] wW1 = (.error e, wW1, [])) ∧
    (∃ cfg2, cfgW1.addContext "x" ["app"] = .ok cfg2 ∧
      (CreateCmdRun cfgW1 "x" ["app"] wW1).2.1 = { wW1 with savedCfg := some cfg2 } ∧
      cfg2.ctxLookup "x" = some ["app"]) :=
  ⟨(c7_create_context_validation cfgW1 "master" ["app"] wW1).1 (Or.inr rfl),
   (c7_create_context_validation cfgW1 "x" ["ghost"] wW1).2.1
     ⟨"ghost", by decide, by decide⟩,
   (c7_create_context_validation cfgW1 "x" ["app"] wW1).2.2.2 (by decide)⟩

/-! ## Claim C4: deleting reserved context names -/

theorem validate_reserved (all : List String) :
    ∀ args : List String, ("main" ∈ args ∨ "master" ∈ args) →
      ∃ e, validateDeleteArgs all args = .error e := by
  intro args
  induction args with
  | nil => rintro (h | h) <;> simp at h
  | cons n rest ih =>
    intro h
    by_cases hn : n = "main" ∨ n = "master"
    · refine ⟨"cannot delete built-in main context", ?_⟩
      simp only [validateDeleteArgs]
      rw [if_pos hn]
    · have hrest : "main" ∈ rest ∨ "master" ∈ rest := by
        rcases h with h | h
        · rcases List.mem_cons.mp h with h2 | h2
          · exact absurd (Or.inl h2.symm) hn
          · exact Or.inl h2
        · rcases List.mem_cons.mp h with h2 | h2
          · exact absurd (Or.inr h2.symm) hn
          · exact Or.inr h2
      obtain ⟨e, he⟩ := ih hrest
      cases hf : all.contains n with
      | true =>
        refine ⟨e, ?_⟩
        simp only [validateDeleteArgs]
        rw [if_neg hn, if_neg (by rw [hf]; decide)]
        exact he
      | false =>
        refine ⟨"context not found", ?_⟩
        simp only [validateDeleteArgs]
        rw [if_neg hn, if_pos (by rw [hf]; decide)]

/-- C4 (corrected): the reserved-name protection lives in the *command* layer:
`DeleteCmd.Run` with explicit arguments naming `main` or `master` fails with
no side effects (world unchanged, no git command run).  The manager operation
`DeleteContexts` itself performs no reserved-name check and destructively
processes reserved names while reporting success (see the counterexample), so
the original claim about "the context-deletion operation" fails. -/
theorem c4_delete_reserved (env : Env) (cfg : Config) (args : List String) (w : World)
    (hne : cfg.getContextNames.isEmpty = false) (hargs : args.isEmpty = false)
    (hres : "main" ∈ args ∨ "master" ∈ args) :
    ∃ e, DeleteCmdRun env cfg args w = (.error e, w, []) := by
  obtain ⟨e, he⟩ := validate_reserved cfg.getContextNames args hres
  refine ⟨e, ?_⟩
  unfold DeleteCmdRun
  rw [if_neg (by simp [hne])]
  rw [bind_is_mbind (deleteTargets env cfg.getContextNames args)]
  apply mbind_err
  unfold deleteTargets
  rw [if_pos (by simp [hargs])]
  rw [bind_is_mbind (liftE (validateDeleteArgs cfg.getContextNames args))]
  apply mbind_err
  unfold liftE
  rw [he]

/-- A workspace with a deletable context `feat` on repository `ui`. -/
def cfg4 : Config := ⟨[⟨"ui", "ui", "ui"⟩], "", "worktree", "main", [("feat", ["ui"])]⟩

/-- A world where `ui` is on branch `feat` and still has a `main` branch. -/
def w4 : World :=
  { repoPaths := ["ui"],
    repoSt := fun p =>
      if p = "ui" then ⟨true, ["main", "feat"], "feat", false, [], []⟩
      else ⟨false, [], "", false, [], []⟩,
    ctxFile := none,
    manifests := fun _ => none,
    backups := fun _ => none,
    savedCfg := none }

theorem c4_delete_reserved_witness :
    ∃ e, DeleteCmdRun envW1 cfg4 ["main"] w4 = (.error e, w4, []) :=
  c4_delete_reserved envW1 cfg4 ["main"] w4 (by decide) (by decide) (Or.inl (by decide))

theorem c4_delete_reserved_counterexample :
    (DeleteContexts envW1 cfg4 ["main"] w4).1.isOk = true ∧
    ((DeleteContexts envW1 cfg4 ["main"] w4).2.1.repoSt "ui").branches
      ≠ ((w4.repoSt "ui").branches) :=
  ⟨by decide, by decide⟩

/-! ## Claim C2: frame of the main-context switch -/

/-- The location-relevant key of a registered worktree: its directory and its
branch. -/
def wtKeys (rs : RepoGit) : List (String × String) :=
  rs.wts.map (fun t => (t.path, t.branch))

/-- The run touches only the repository rooted at the primary path `d`: every
other repository's git state, every other directory's manifest, all backups
and the saved descriptor are preserved, and no worktree is created, removed
or moved to another branch anywhere. -/
def TouchesDir (d : String) {α : Type} (x : M α) : Prop :=
  ∀ w, w.repoPaths.contains d = true →
    ((x w).2.1).repoPaths = w.repoPaths ∧
    (∀ p, p ≠ d → ((x w).2.1).repoSt p = w.repoSt p) ∧
    (∀ p, wtKeys (((x w).2.1).repoSt p) = wtKeys (w.repoSt p)) ∧
    (∀ q, q ≠ d → ((x w).2.1).manifests q = w.manifests q) ∧
    ((x w).2.1).backups = w.backups ∧
    ((x w).2.1).savedCfg = w.savedCfg

theorem touches_of {d : String} {α : Type} {x : M α} (h : TouchesDir d x) {w : World}
    {r : Except String α} {w1 : World} {t : List GitOp} (hx : x w = (r, w1, t))
    (hd : w.repoPaths.contains d = true) :
    w1.repoPaths = w.repoPaths ∧ (∀ p, p ≠ d → w1.repoSt p = w.repoSt p) ∧
    (∀ p, wtKeys (w1.repoSt p) = wtKeys (w.repoSt p)) ∧
    (∀ q, q ≠ d → w1.manifests q = w.manifests q) ∧
    w1.backups = w.backups ∧ w1.savedCfg = w.savedCfg := by
  have h1 := h w hd
  rw [hx] at h1
  exact h1

theorem touchesDir_pureRead {α : Type} {x : M α} (h : PureRead x) (d : String) :
    TouchesDir d x := by
  intro w _
  rw [(h w).1]
  exact ⟨rfl, fun _ _ => rfl, fun _ => rfl, fun _ _ => rfl, rfl, rfl⟩

theorem touchesDir_mret {α : Type} (d : String) (a : α) : TouchesDir d (mret a) :=
  touchesDir_pureRead (pureRead_mret a) d

theorem touchesDir_mfail {α : Type} (d : String) (e : String) :
    TouchesDir d (mfail (α := α) e) :=
  touchesDir_pureRead (pureRead_mfail e) d

theorem touchesDir_mbind {d : String} {α β : Type} {x : M α} {f : α → M β}
    (hx : TouchesDir d x) (hf : ∀ a, TouchesDir d (f a)) : TouchesDir d (mbind x f) := by
  intro w hd
  rcases h : x w with ⟨r, w1, t⟩
  obtain ⟨hp1, hs1, hk1, hm1, hb1, hc1⟩ := touches_of hx h hd
  cases r with
  | error e =>
    rw [mbind_err h]
    exact ⟨hp1, hs1, hk1, hm1, hb1, hc1⟩
  | ok a =>
    rcases h2 : f a w1 with ⟨r2, w2, t2⟩
    have hd1 : w1.repoPaths.contains d = true := by rw [hp1]; exact hd
    obtain ⟨hp2, hs2, hk2, hm2, hb2, hc2⟩ := touches_of (hf a) h2 hd1
    have hrun : mbind x f w = (r2, w2, t ++ t2) := by rw [mbind_ok h, h2]
    rw [hrun]
    exact ⟨hp2.trans hp1, fun p hp => (hs2 p hp).trans (hs1 p hp),
      fun p => (hk2 p).trans (hk1 p), fun q hq => (hm2 q hq).trans (hm1 q hq),
      hb2.trans hb1, hc2.trans hc1⟩

theorem touchesDir_bind {d : String} {α β : Type} {x : M α} {f : α → M β}
    (hx : TouchesDir d x) (hf : ∀ a, TouchesDir d (f a)) : TouchesDir d (x >>= f) := by
  rw [bind_is_mbind]
  exact touchesDir_mbind hx hf

theorem touchesDir_mtry {d : String} {x : M Unit} (hx : TouchesDir d x) :
    TouchesDir d (mtry x) := by
  intro w hd
  rw [mtry_eq]
  exact hx w hd

theorem touchesDir_ite {d : String} {α : Type} {c : Prop} [Decidable c] {x y : M α}
    (hx : TouchesDir d x) (hy : TouchesDir d y) : TouchesDir d (if c then x else y) := by
  by_cases hc : c
  · rw [if_pos hc]; exact hx
  · rw [if_neg hc]; exact hy

theorem orSkip_err {α : Type} {x : M α} {f : α → M Unit} {w : World} {e : String}
    {w1 : World} {t : List GitOp} (h : x w = (.error e, w1, t)) :
    orSkip x f w = (.ok (), w1, t) := by
  unfold orSkip
  rw [h]

theorem orSkip_ok {α : Type} {x : M α} {f : α → M Unit} {w : World} {a : α}
    {w1 : World} {t : List GitOp} (h : x w = (.ok a, w1, t)) :
    orSkip x f w = ((f a w1).1, (f a w1).2.1, t ++ (f a w1).2.2) := by
  unfold orSkip
  rw [h]

theorem touchesDir_orSkip {d : String} {α : Type} {x : M α} {f : α → M Unit}
    (hx : TouchesDir d x) (hf : ∀ a, TouchesDir d (f a)) : TouchesDir d (orSkip x f) := by
  intro w hd
  rcases h : x w with ⟨r, w1, t⟩
  obtain ⟨hp1, hs1, hk1, hm1, hb1, hc1⟩ := touches_of hx h hd
  cases r with
  | error e =>
    have hrun : orSkip x f w = (.ok (), w1, t) := orSkip_err h
    rw [hrun]
    exact ⟨hp1, hs1, hk1, hm1, hb1, hc1⟩
  | ok a =>
    rcases h2 : f a w1 with ⟨r2, w2, t2⟩
    have hd1 : w1.repoPaths.contains d = true := by rw [hp1]; exact hd
    obtain ⟨hp2, hs2, hk2, hm2, hb2, hc2⟩ := touches_of (hf a) h2 hd1
    have hrun : orSkip x f w = (r2, w2, t ++ t2) := by rw [orSkip_ok h, h2]
    rw [hrun]
    exact ⟨hp2.trans hp1, fun p hp => (hs2 p hp).trans (hs1 p hp),
      fun p => (hk2 p).trans (hk1 p), fun q hq => (hm2 q hq).trans (hm1 q hq),
      hb2.trans hb1, hc2.trans hc1⟩

theorem ownerOf_self {w : World} {d : String} (hd : w.repoPaths.contains d = true) :
    w.ownerOf d = some d := by
  unfold World.ownerOf
  rw [if_pos hd]

theorem repoSt_updRepo_ne {w : World} {p q : String} {f : RepoGit → RepoGit} (h : q ≠ p) :
    (w.updRepo p f).repoSt q = w.repoSt q := by
  show (if q = p then f (w.repoSt q) else w.repoSt q) = w.repoSt q
  rw [if_neg h]

theorem repoSt_updRepo_self (w : World) (p : String) (f : RepoGit → RepoGit) :
    (w.updRepo p f).repoSt p = f (w.repoSt p) := by
  show (if p = p then f (w.repoSt p) else w.repoSt p) = f (w.repoSt p)
  rw [if_pos rfl]

theorem frame_updRepo {w : World} {d : String} {f : RepoGit → RepoGit}
    (hf : ∀ rs, (f rs).wts = rs.wts) :
    (w.updRepo d f).repoPaths = w.repoPaths ∧
    (∀ p, p ≠ d → (w.updRepo d f).repoSt p = w.repoSt p) ∧
    (∀ p, wtKeys ((w.updRepo d f).repoSt p) = wtKeys (w.repoSt p)) ∧
    (∀ q, q ≠ d → (w.updRepo d f).manifests q = w.manifests q) ∧
    (w.updRepo d f).backups = w.backups ∧
    (w.updRepo d f).savedCfg = w.savedCfg := by
  refine ⟨rfl, fun p hp => repoSt_updRepo_ne hp, fun p => ?_, fun _ _ => rfl, rfl, rfl⟩
  by_cases hp : p = d
  · subst hp
    rw [repoSt_updRepo_self]
    unfold wtKeys
    rw [hf]
  · rw [repoSt_updRepo_ne hp]

theorem frame_comp {w w1 w2 : World} {d : String}
    (h1 : w1.repoPaths = w.repoPaths ∧ (∀ p, p ≠ d → w1.repoSt p = w.repoSt p) ∧
      (∀ p, wtKeys (w1.repoSt p) = wtKeys (w.repoSt p)) ∧
      (∀ q, q ≠ d → w1.manifests q = w.manifests q) ∧
      w1.backups = w.backups ∧ w1.savedCfg = w.savedCfg)
    (h2 : w2.repoPaths = w1.repoPaths ∧ (∀ p, p ≠ d → w2.repoSt p = w1.repoSt p) ∧
      (∀ p, wtKeys (w2.repoSt p) = wtKeys (w1.repoSt p)) ∧
      (∀ q, q ≠ d → w2.manifests q = w1.manifests q) ∧
      w2.backups = w1.backups ∧ w2.savedCfg = w1.savedCfg) :
    w2.repoPaths = w.repoPaths ∧ (∀ p, p ≠ d → w2.repoSt p = w.repoSt p) ∧
    (∀ p, wtKeys (w2.repoSt p) = wtKeys (w.repoSt p)) ∧
    (∀ q, q ≠ d → w2.manifests q = w.manifests q) ∧
    w2.backups = w.backups ∧ w2.savedCfg = w.savedCfg := by
  obtain ⟨hp1, hs1, hk1, hm1, hb1, hc1⟩ := h1
  obtain ⟨hp2, hs2, hk2, hm2, hb2, hc2⟩ := h2
  exact ⟨hp2.trans hp1, fun p hp => (hs2 p hp).trans (hs1 p hp),
    fun p => (hk2 p).trans (hk1 p), fun q hq => (hm2 q hq).trans (hm1 q hq),
    hb2.trans hb1, hc2.trans hc1⟩

theorem setDirDirty_primary {w : World} {d : String}
    (hd : w.repoPaths.contains d = true) (b : Bool) :
    w.setDirDirty d b = w.updRepo d (fun rs => { rs with dirty := b }) := by
  unfold World.setDirDirty
  rw [if_pos hd]

theorem setDirBranch_primary {w : World} {d : String}
    (hd : w.repoPaths.contains d = true) (br : String) :
    w.setDirBranch d br = w.updRepo d (fun rs => { rs with current := br }) := by
  unfold World.setDirBranch
  rw [if_pos hd]

theorem touchesDir_gStashPush (env : Env) (d msg : String) :
    TouchesDir d (gStashPush env d msg) := by
  intro w hd
  unfold gStashPush
  rw [ownerOf_self hd]
  simp only []
  by_cases hg : env.gitOk (.stashPushOp d msg) = true
  · rw [if_pos hg]
    have h1 := @frame_updRepo w d (fun rs => { rs with stashes := msg :: rs.stashes })
      (fun _ => rfl)
    have h2 := @frame_updRepo (w.updRepo d (fun rs => { rs with stashes := msg :: rs.stashes }))
      d (fun rs => { rs with dirty := false }) (fun _ => rfl)
    rw [setDirDirty_primary
      (show (w.updRepo d (fun rs => { rs with stashes := msg :: rs.stashes })).repoPaths.contains d
          = true from hd)]
    exact frame_comp h1 h2
  · rw [if_neg hg]
    exact ⟨rfl, fun _ _ => rfl, fun _ => rfl, fun _ _ => rfl, rfl, rfl⟩

theorem touchesDir_gCheckout (env : Env) (d b : String) :
    TouchesDir d (gCheckout env d b) := by
  intro w hd
  unfold gCheckout
  rw [ownerOf_self hd]
  simp only []
  by_cases hg : ((w.repoSt d).branches.contains b && env.gitOk (.checkout d b)) = true
  · rw [if_pos hg]
    rw [setDirBranch_primary hd]
    exact @frame_updRepo w d (fun rs => { rs with current := b }) (fun _ => rfl)
  · rw [if_neg hg]
    exact ⟨rfl, fun _ _ => rfl, fun _ => rfl, fun _ _ => rfl, rfl, rfl⟩

theorem touchesDir_savePubspecM (d : String) (m : Manifest) :
    TouchesDir d (savePubspecM d m) := by
  intro w _
  refine ⟨rfl, fun _ _ => rfl, fun _ => rfl, fun q hq => ?_, rfl, rfl⟩
  show (if q = d then some m else w.manifests q) = w.manifests q
  rw [if_neg hq]

theorem touchesDir_setCurrentContextM (d name : String) :
    TouchesDir d (setCurrentContextM name) := by
  intro w _
  exact ⟨rfl, fun _ _ => rfl, fun _ => rfl, fun _ _ => rfl, rfl, rfl⟩

theorem touchesDir_gate (env : Env) (cfg : Config) (cur : String) {mr : Repository}
    (hmr : cfg.getMasterRepo = .ok mr) :
    TouchesDir mr.path (handleMasterRepoStashForMainSwitch env cfg cur) := by
  unfold handleMasterRepoStashForMainSwitch
  rw [hmr]
  refine touchesDir_bind (touchesDir_pureRead (pureRead_gIsGitRepo _) _) (fun isG => ?_)
  refine touchesDir_ite (touchesDir_mret _ ()) ?_
  refine touchesDir_orSkip (touchesDir_pureRead (pureRead_gHasChanges _) _) (fun hasCh => ?_)
  refine touchesDir_ite (touchesDir_mret _ ()) ?_
  cases env.stashGate with
  | answer c =>
    exact touchesDir_ite (touchesDir_gStashPush env mr.path (stashMsg cur))
      (touchesDir_mfail _ _)
  | tuiErr msg =>
    exact touchesDir_ite (touchesDir_gStashPush env mr.path (stashMsg cur))
      (touchesDir_mfail _ _)

theorem touchesDir_switchRepoToMainBranch (env : Env) (cfg : Config) (d : String) :
    TouchesDir d (switchRepoToMainBranch env cfg d) := by
  intro w hd
  unfold switchRepoToMainBranch
  split
  · exact touchesDir_gCheckout env d _ w hd
  · split
    · exact touchesDir_gCheckout env d _ w hd
    · split
      · exact ⟨rfl, fun _ _ => rfl, fun _ => rfl, fun _ _ => rfl, rfl, rfl⟩
      · exact ⟨rfl, fun _ _ => rfl, fun _ => rfl, fun _ _ => rfl, rfl, rfl⟩

theorem touchesDir_revert (cfg : Config) (mr : Repository) :
    TouchesDir mr.path (revertMasterDependenciesToGit cfg mr) := by
  unfold revertMasterDependenciesToGit
  refine touchesDir_bind (touchesDir_pureRead (pureRead_pubspecExistsM _) _) (fun ex => ?_)
  refine touchesDir_ite (touchesDir_mret _ ()) ?_
  refine touchesDir_bind (touchesDir_pureRead (pureRead_loadPubspecM _) _) (fun ms => ?_)
  exact touchesDir_savePubspecM _ _

theorem touchesDir_mainMasterPhase (env : Env) (cfg : Config) (mr : Repository) :
    TouchesDir mr.path (mainMasterPhase env cfg mr) := by
  unfold mainMasterPhase
  refine touchesDir_bind (touchesDir_switchRepoToMainBranch env cfg _) (fun _ => ?_)
  refine touchesDir_bind (touchesDir_mtry (touchesDir_revert cfg mr)) (fun _ => ?_)
  refine touchesDir_bind (touchesDir_mret _ ()) (fun _ => ?_)
  exact touchesDir_setCurrentContextM _ _

theorem touchesDir_switchToMainContext (env : Env) (cfg : Config) (cur : String)
    (mr : Repository) (hmr : cfg.getMasterRepo = .ok mr) :
    TouchesDir mr.path (switchToMainContext env cfg cur) := by
  unfold switchToMainContext
  refine touchesDir_bind ?_ (fun _ => ?_)
  · unfold mainGateStep
    exact touchesDir_ite (touchesDir_gate env cfg cur hmr) (touchesDir_mret _ ())
  · rw [hmr]
    exact touchesDir_mainMasterPhase env cfg mr

/-- C2 (corrected): a worktree-mode switch to the main context never removes
or rebinds any worktree anywhere (`wtKeys` of every repository are preserved)
and leaves every repository other than the master, every other directory's
manifest, all backups and the saved descriptor untouched.  But the claimed
frame "changes only the master's branch, the master's manifest and the
pointer" is too tight: the stash gate may also push a stash onto the master
repository, changing its stash list and dirty flag (see the
counterexample). -/
theorem c2_main_switch_frame (env : Env) (cfg : Config) (cur : String) (w : World)
    (mr : Repository) (hmr : cfg.getMasterRepo = .ok mr)
    (hd : w.repoPaths.contains mr.path = true) :
    ((switchToMainContext env cfg cur w).2.1).repoPaths = w.repoPaths ∧
    (∀ p, p ≠ mr.path →
      ((switchToMainContext env cfg cur w).2.1).repoSt p = w.repoSt p) ∧
    (∀ p, wtKeys (((switchToMainContext env cfg cur w).2.1).repoSt p)
      = wtKeys (w.repoSt p)) ∧
    (∀ q, q ≠ mr.path →
      ((switchToMainContext env cfg cur w).2.1).manifests q = w.manifests q) ∧
    ((switchToMainContext env cfg cur w).2.1).backups = w.backups ∧
    ((switchToMainContext env cfg cur w).2.1).savedCfg = w.savedCfg :=
  touchesDir_switchToMainContext env cfg cur mr hmr w hd

theorem c2_main_switch_frame_witness :
    ((switchToMainContext env6a cfg6 "feat" w6).2.1).savedCfg = w6.savedCfg ∧
    ((switchToMainContext env6a cfg6 "feat" w6).2.1).repoSt "ui" = w6.repoSt "ui" :=
  ⟨(c2_main_switch_frame env6a cfg6 "feat" w6 ⟨"app", "app", "app"⟩ (by decide)
      (by decide)).2.2.2.2.2,
   (c2_main_switch_frame env6a cfg6 "feat" w6 ⟨"app", "app", "app"⟩ (by decide)
      (by decide)).2.1 "ui" (by decide)⟩

theorem c2_main_switch_frame_counterexample :
    (SwitchContext envW1 cfg6 "main" w6).1.isOk = true ∧
    ((SwitchContext envW1 cfg6 "main" w6).2.1.repoSt "app").stashes
      ≠ ((w6.repoSt "app").stashes) :=
  ⟨by decide, by decide⟩

/-! ## Manifest lemmas for the round trip and the shape errors -/

theorem all_takeWhile_true {α : Type} (p : α → Bool) (l : List α) :
    (l.takeWhile p).all p = true := by
  induction l with
  | nil => rfl
  | cons c t ih =>
    rw [List.takeWhile_cons]
    by_cases hc : p c = true
    · rw [if_pos hc]
      simp [List.all_cons, hc, ih]
    · rw [if_neg hc]
      rfl

theorem takeWhile_cons_false {α : Type} {p : α → Bool} {c : α} (hc : p c = false)
    (l : List α) : (c :: l).takeWhile p = [] := by
  rw [List.takeWhile_cons, if_neg (by simp [hc])]

theorem dropWhile_cons_false {α : Type} {p : α → Bool} {c : α} (hc : p c = false)
    (l : List α) : (c :: l).dropWhile p = c :: l := by
  rw [List.dropWhile_cons, if_neg (by simp [hc])]

theorem takeWhile_append_all {α : Type} {p : α → Bool} {l1 : List α} (l2 : List α)
    (h1 : l1.all p = true) : (l1 ++ l2).takeWhile p = l1 ++ l2.takeWhile p := by
  induction l1 with
  | nil => simp
  | cons c t ih =>
    have hc : p c = true := by
      have := h1
      simp [List.all_cons] at this
      exact this.1
    have ht : t.all p = true := by
      have := h1
      simp [List.all_cons] at this
      exact List.all_eq_true.mpr this.2
    simp only [List.cons_append, List.takeWhile_cons, if_pos hc]
    rw [ih ht]

theorem dropWhile_append_all {α : Type} {p : α → Bool} {l1 : List α} (l2 : List α)
    (h1 : l1.all p = true) : (l1 ++ l2).dropWhile p = l2.dropWhile p := by
  induction l1 with
  | nil => simp
  | cons c t ih =>
    have hc : p c = true := by
      have := h1
      simp [List.all_cons] at this
      exact this.1
    have ht : t.all p = true := by
      have := h1
      simp [List.all_cons] at this
      exact List.all_eq_true.mpr this.2
    simp only [List.cons_append, List.dropWhile_cons, if_pos hc]
    exact ih ht

theorem takeWhile_sp_pre {ind : List Char} {c : Char} (rest : List Char)
    (hind : ind.all isSp = true) (hc : isSp c = false) :
    (ind ++ (c :: rest)).takeWhile isSp = ind ∧
    (ind ++ (c :: rest)).dropWhile isSp = c :: rest := by
  constructor
  · rw [takeWhile_append_all _ hind, takeWhile_cons_false hc, List.append_nil]
  · rw [dropWhile_append_all _ hind, dropWhile_cons_false hc]

theorem headIndent_sp {key : List Char} {l : Line} {ind : List Char}
    (h : headIndent key l = some ind) :
    ind.all isSp = true ∧ ind = l.takeWhile isSp := by
  unfold headIndent at h
  simp only [] at h
  split at h
  · split at h
    · split at h
      · injection h with h2
        subst h2
        exact ⟨all_takeWhile_true _ _, rfl⟩
      · simp at h
    · simp at h
  · simp at h

theorem headIndent_make {ind : List Char} {d : Char} (dtl : List Char)
    (hind : ind.all isSp = true) (hd : isSp d = false) :
    headIndent (d :: dtl) (ind ++ (d :: dtl) ++ [':']) = some ind := by
  have hsplit := takeWhile_sp_pre (dtl ++ [':']) hind hd
  unfold headIndent
  simp only []
  rw [List.append_assoc, List.cons_append] at *
  rw [hsplit.1, hsplit.2]
  rw [if_pos (by
    rw [show (d :: (dtl ++ [':'])) = (d :: dtl) ++ [':'] from by simp]
    exact List.isPrefixOf_iff_prefix.mpr (List.prefix_append _ _))]
  rw [show (d :: (dtl ++ [':'])) = (d :: dtl) ++ [':'] from by simp, List.drop_left]
  simp

theorem keyedLine_make {ind : List Char} {c : Char} (rest : List Char) (key : List Char)
    (hind : ind.all isSp = true) (hne : ind.isEmpty = false) (hc : isSp c = false)
    (hpre : key.isPrefixOf (c :: rest) = true) :
    keyedLine key (ind ++ (c :: rest)) = true := by
  have hsplit := takeWhile_sp_pre rest hind hc
  unfold keyedLine
  rw [hsplit.1, hsplit.2]
  simp [hne, hpre]

theorem matchGitAt_none_of_head {dep : List Char} {l : Line} (rest : Manifest)
    (h : headIndent dep l = none) : matchGitAt dep (l :: rest) = none := by
  rcases rest with _ | ⟨l2, rest2⟩
  · rfl
  · rcases rest2 with _ | ⟨l3, rest3⟩
    · rfl
    · unfold matchGitAt
      simp only []
      rw [h]

theorem matchCommentedAt_none_of_head {dep : List Char} {l : Line} (rest : Manifest)
    (h : headIndent dep l = none) : matchCommentedAt dep (l :: rest) = none := by
  rcases rest with _ | ⟨l2, rest2⟩
  · rfl
  · unfold matchCommentedAt
    simp only []
    rw [h]

/-- A canonical git-shape dependency block: `dep:` line, `git:` line, `url:`
line and an optional `ref:` line. -/
def gitBlock (dep ind1 ind2 : List Char) (url ref : Line) (useRef : Bool) : Manifest :=
  [ind1 ++ dep ++ [':'], ind2 ++ "git:".data, url] ++ (if useRef then [ref] else [])

theorem gitBlock_length (dep ind1 ind2 : List Char) (url ref : Line) (useRef : Bool) :
    (gitBlock dep ind1 ind2 url ref useRef).length
      = GitM.len ⟨ind1, ind2, useRef⟩ := by
  cases useRef <;> rfl

theorem matchGitAt_block {d : Char} (dtl ind1 ind2 : List Char) (url ref : Line)
    (useRef : Bool) (post : Manifest)
    (hd : isSp d = false) (hind1 : ind1.all isSp = true) (hind2 : ind2.all isSp = true)
    (hne2 : ind2.isEmpty = false) (hurl : keyedLine "url:".data url = true)
    (href : useRef = true → keyedLine "ref:".data ref = true)
    (hpostref : useRef = false → ∀ l ∈ post.head?, keyedLine "ref:".data l = false) :
    matchGitAt (d :: dtl) (gitBlock (d :: dtl) ind1 ind2 url ref useRef ++ post)
      = some ⟨ind1, ind2, useRef⟩ := by
  have hdep : headIndent (d :: dtl) (ind1 ++ (d :: dtl) ++ [':']) = some ind1 :=
    headIndent_make dtl hind1 hd
  have hgit : headIndent "git".data (ind2 ++ "git:".data) = some ind2 := by
    rw [show ind2 ++ "git:".data = ind2 ++ "git".data ++ [':'] from by
      rw [List.append_assoc]
      rfl]
    exact headIndent_make _ hind2 (by decide)
  cases useRef with
  | true =>
    have hr := href rfl
    show matchGitAt (d :: dtl)
      ((ind1 ++ (d :: dtl) ++ [':']) :: (ind2 ++ "git:".data) :: url :: ref :: post) = _
    unfold matchGitAt
    simp only []
    rw [hdep, hgit]
    simp only []
    rw [if_neg (by simp [hne2]), if_pos hurl, if_pos hr]
  | false =>
    show matchGitAt (d :: dtl)
      ((ind1 ++ (d :: dtl) ++ [':']) :: (ind2 ++ "git:".data) :: url :: post) = _
    rcases post with _ | ⟨l4, post2⟩
    · unfold matchGitAt
      simp only []
      rw [hdep, hgit]
      simp only []
      rw [if_neg (by simp [hne2]), if_pos hurl]
    · have hl4 : keyedLine "ref:".data l4 = false := hpostref rfl l4 rfl
      unfold matchGitAt
      simp only []
      rw [hdep, hgit]
      simp only []
      rw [if_neg (by simp [hne2]), if_pos hurl, if_neg (by simp [hl4])]

theorem commentGo_skip {dep p : List Char} {pre : Manifest} (rest : Manifest)
    (hpre : ∀ l ∈ pre, headIndent dep l = none) {out : Manifest}
    (h : commentGo dep p rest = some out) :
    commentGo dep p (pre ++ rest) = some (pre ++ out) := by
  induction pre with
  | nil => simpa using h
  | cons l t ih =>
    simp only [List.cons_append, commentGo]
    rw [matchGitAt_none_of_head _ (hpre l (List.mem_cons_self _ _))]
    simp only [List.append_eq]
    rw [ih (fun l2 hl2 => hpre l2 (List.mem_cons_of_mem _ hl2))]

theorem commentGo_at_block {dep p : List Char} {B post : Manifest} {m : GitM}
    (hm : matchGitAt dep (B ++ post) = some m) (hlen : B.length = m.len) (hB : B ≠ []) :
    commentGo dep p (B ++ post)
      = some (pathReplG dep p m ++ (B.map commentLine ++ post)) := by
  rcases B with _ | ⟨b1, Bt⟩
  · exact absurd rfl hB
  · rw [List.cons_append] at hm ⊢
    simp only [commentGo]
    rw [hm]
    simp only []
    rw [show b1 :: (Bt ++ post) = (b1 :: Bt) ++ post from rfl]
    rw [List.take_left' hlen, List.drop_left' hlen]
    simp [List.append_assoc]

theorem comment_block (dep p : List Char) {pre B post : Manifest} {m : GitM}
    (hpre : ∀ l ∈ pre, headIndent dep l = none)
    (hm : matchGitAt dep (B ++ post) = some m) (hlen : B.length = m.len) (hB : B ≠ []) :
    CommentGitDependencyAndAddPath dep p (pre ++ (B ++ post))
      = (.ok (), pre ++ (pathReplG dep p m ++ (B.map commentLine ++ post))) := by
  unfold CommentGitDependencyAndAddPath
  rw [commentGo_skip (B ++ post) hpre (commentGo_at_block hm hlen hB)]

theorem uncommentGo_skip {dep : List Char} {pre : Manifest} (rest : Manifest)
    (hpre : ∀ l ∈ pre, headIndent dep l = none) {out : Manifest}
    (h : uncommentGo dep rest = some out) :
    uncommentGo dep (pre ++ rest) = some (pre ++ out) := by
  induction pre with
  | nil => simpa using h
  | cons l t ih =>
    simp only [List.cons_append, uncommentGo]
    rw [matchCommentedAt_none_of_head _ (hpre l (List.mem_cons_self _ _))]
    simp only [List.append_eq]
    rw [ih (fun l2 hl2 => hpre l2 (List.mem_cons_of_mem _ hl2))]

theorem takeWhile_comment (B post : Manifest)
    (hpost : ∀ l ∈ post.head?, isCommentLine l = false) :
    (B.map commentLine ++ post).takeWhile isCommentLine = B.map commentLine := by
  have hall : (B.map commentLine).all isCommentLine = true := by
    rw [List.all_eq_true]
    intro x hx
    rcases List.mem_map.mp hx with ⟨l, _, rfl⟩
    rfl
  rw [takeWhile_append_all _ hall]
  rcases post with _ | ⟨l, t⟩
  · simp
  · rw [takeWhile_cons_false (hpost l rfl), List.append_nil]

theorem filterMap_strip (B : Manifest) :
    (B.map commentLine).filterMap stripComment = B := by
  induction B with
  | nil => rfl
  | cons l t ih =>
    simp only [List.map_cons, List.filterMap_cons]
    rw [show stripComment (commentLine l) = some l from rfl]
    simp only []
    rw [ih]

theorem matchCommentedAt_block {d : Char} (dtl ind1 ind2 p : List Char) (url ref : Line)
    (useRef : Bool) (post : Manifest)
    (hd : isSp d = false) (hind1 : ind1.all isSp = true) (hind2 : ind2.all isSp = true)
    (hne2 : ind2.isEmpty = false) (hurl : keyedLine "url:".data url = true)
    (href : useRef = true → keyedLine "ref:".data ref = true)
    (hpost : ∀ l ∈ post.head?, isCommentLine l = false) :
    matchCommentedAt (d :: dtl)
      ((ind1 ++ (d :: dtl) ++ [':']) :: (ind2 ++ "path: ".data ++ p)
        :: ((gitBlock (d :: dtl) ind1 ind2 url ref useRef).map commentLine ++ post))
      = some (gitBlock (d :: dtl) ind1 ind2 url ref useRef,
          GitM.len ⟨ind1, ind2, useRef⟩) := by
  have hpathline : keyedLine "path:".data (ind2 ++ "path: ".data ++ p) = true := by
    rw [List.append_assoc]
    exact keyedLine_make ("ath: ".data ++ p) "path:".data hind2 hne2 (by decide) rfl
  have hmB : matchGitAt (d :: dtl) (gitBlock (d :: dtl) ind1 ind2 url ref useRef)
      = some ⟨ind1, ind2, useRef⟩ := by
    have h2 := matchGitAt_block dtl ind1 ind2 url ref useRef [] hd hind1 hind2 hne2 hurl
      href (fun _ => by intro l hl; simp at hl)
    simpa using h2
  unfold matchCommentedAt
  simp only []
  rw [headIndent_make dtl hind1 hd]
  simp only []
  rw [if_pos hpathline]
  rw [takeWhile_comment _ _ hpost, filterMap_strip, hmB]
  simp only []
  rw [show (gitBlock (d :: dtl) ind1 ind2 url ref useRef).take
      (GitM.len ⟨ind1, ind2, useRef⟩) = gitBlock (d :: dtl) ind1 ind2 url ref useRef from by
    rw [← gitBlock_length (d :: dtl) ind1 ind2 url ref useRef]
    exact List.take_length _]

theorem uncommentGo_at_block {d : Char} (dtl ind1 ind2 p : List Char) (url ref : Line)
    (useRef : Bool) (post : Manifest)
    (hd : isSp d = false) (hind1 : ind1.all isSp = true) (hind2 : ind2.all isSp = true)
    (hne2 : ind2.isEmpty = false) (hurl : keyedLine "url:".data url = true)
    (href : useRef = true → keyedLine "ref:".data ref = true)
    (hpost : ∀ l ∈ post.head?, isCommentLine l = false) :
    uncommentGo (d :: dtl)
      (pathReplG (d :: dtl) p ⟨ind1, ind2, useRef⟩
        ++ ((gitBlock (d :: dtl) ind1 ind2 url ref useRef).map commentLine ++ post))
      = some (gitBlock (d :: dtl) ind1 ind2 url ref useRef ++ post) := by
  show uncommentGo (d :: dtl)
    ((ind1 ++ (d :: dtl) ++ [':']) :: ((ind2 ++ "path: ".data ++ p)
      :: ((gitBlock (d :: dtl) ind1 ind2 url ref useRef).map commentLine ++ post))) = _
  simp only [uncommentGo]
  rw [matchCommentedAt_block dtl ind1 ind2 p url ref useRef post hd hind1 hind2 hne2
    hurl href hpost]
  simp only []
  rw [show (1 + GitM.len ⟨ind1, ind2, useRef⟩) = GitM.len ⟨ind1, ind2, useRef⟩ + 1 from
    Nat.add_comm _ _]
  rw [List.drop_succ_cons]
  rw [List.drop_left' (by
    rw [List.length_map]
    exact gitBlock_length (d :: dtl) ind1 ind2 url ref useRef)]

/-- C3 (confirmed for the spec-modelled editor operations): commenting a
canonical git-shape block of a dependency into a path block over a
`# `-commented copy, and then uncommenting it, restores the manifest
byte-for-byte, for every prefix without a header line of the dependency and
every suffix that does not itself start with a commented line. -/
theorem c3_comment_uncomment_roundtrip (d : Char) (dtl p ind1 ind2 : List Char)
    (url ref : Line) (useRef : Bool) (pre post : Manifest)
    (hd : isSp d = false) (hind1 : ind1.all isSp = true) (hind2 : ind2.all isSp = true)
    (hne2 : ind2.isEmpty = false) (hurl : keyedLine "url:".data url = true)
    (href : useRef = true → keyedLine "ref:".data ref = true)
    (hpre : ∀ l ∈ pre, headIndent (d :: dtl) l = none)
    (hpostref : useRef = false → ∀ l ∈ post.head?, keyedLine "ref:".data l = false)
    (hpost : ∀ l ∈ post.head?, isCommentLine l = false) :
    CommentGitDependencyAndAddPath (d :: dtl) p
        (pre ++ (gitBlock (d :: dtl) ind1 ind2 url ref useRef ++ post))
      = (.ok (), pre ++ (pathReplG (d :: dtl) p ⟨ind1, ind2, useRef⟩
          ++ ((gitBlock (d :: dtl) ind1 ind2 url ref useRef).map commentLine ++ post))) ∧
    UncommentGitDependencyAndRemovePath (d :: dtl)
        (pre ++ (pathReplG (d :: dtl) p ⟨ind1, ind2, useRef⟩
          ++ ((gitBlock (d :: dtl) ind1 ind2 url ref useRef).map commentLine ++ post)))
      = (.ok (), pre ++ (gitBlock (d :: dtl) ind1 ind2 url ref useRef ++ post)) := by
  constructor
  · exact comment_block (d :: dtl) p hpre
      (matchGitAt_block dtl ind1 ind2 url ref useRef post hd hind1 hind2 hne2 hurl href
        hpostref)
      (gitBlock_length (d :: dtl) ind1 ind2 url ref useRef)
      (by cases useRef <;> simp [gitBlock])
  · unfold UncommentGitDependencyAndRemovePath
    rw [uncommentGo_skip _ hpre
      (uncommentGo_at_block dtl ind1 ind2 p url ref useRef post hd hind1 hind2 hne2 hurl
        href hpost)]

theorem c3_comment_uncomment_roundtrip_witness :
    CommentGitDependencyAndAddPath "ui".data "../x".data
        ([] ++ (gitBlock "ui".data [] " ".data "  url: u".data "  ref: r".data true ++ []))
      = (.ok (), [] ++ (pathReplG "ui".data "../x".data ⟨[], " ".data, true⟩
          ++ ((gitBlock "ui".data [] " ".data "  url: u".data "  ref: r".data true).map
            commentLine ++ []))) ∧
    UncommentGitDependencyAndRemovePath "ui".data
        ([] ++ (pathReplG "ui".data "../x".data ⟨[], " ".data, true⟩
          ++ ((gitBlock "ui".data [] " ".data "  url: u".data "  ref: r".data true).map
            commentLine ++ [])))
      = (.ok (), [] ++ (gitBlock "ui".data [] " ".data "  url: u".data "  ref: r".data true
          ++ [])) :=
  c3_comment_uncomment_roundtrip 'u' "i".data "../x".data [] " ".data
    "  url: u".data "  ref: r".data true [] []
    (by decide) (by decide) (by decide) (by decide) (by decide)
    (fun _ => by decide)
    (by intro l hl; simp at hl)
    (fun h => by simp at h)
    (by intro l hl; simp at hl)

/-! ## Claim C9: wrong-shape errors of the manifest editor -/

theorem matchPathAt_struct {dep : List Char} {v : Bool} {l1 l2 : Line} {rest : Manifest}
    {m : PathM} (h : matchPathAt dep v (l1 :: l2 :: rest) = some m) :
    m.ind1.all isSp = true ∧ m.ind2.all isSp = true ∧ m.ind2.isEmpty = false := by
  unfold matchPathAt at h
  simp only [] at h
  rcases hh : headIndent dep l1 with _ | i1
  · rw [hh] at h
    simp at h
  · rw [hh] at h
    simp only [] at h
    split at h
    case isTrue hcond =>
      injection h with h2
      subst h2
      refine ⟨(headIndent_sp hh).1, all_takeWhile_true _ _, ?_⟩
      cases h5 : (l2.takeWhile isSp).isEmpty with
      | false => rfl
      | true => rw [h5] at hcond; simp at hcond
    case isFalse => simp at h

theorem matchPathAt_make {d : Char} {dtl ind1 ind2 p : List Char} {rest : Manifest}
    (hd : isSp d = false) (hind1 : ind1.all isSp = true) (hind2 : ind2.all isSp = true)
    (hne2 : ind2.isEmpty = false) (v : Bool) :
    matchPathAt (d :: dtl) v
      ((ind1 ++ (d :: dtl) ++ [':']) :: (ind2 ++ "path: ".data ++ p) :: rest)
      = some ⟨ind1, ind2⟩ := by
  unfold matchPathAt
  simp only []
  rw [headIndent_make dtl hind1 hd]
  simp only []
  have hs := takeWhile_sp_pre ("ath: ".data ++ p) hind2 (show isSp 'p' = false by decide)
  rw [List.append_assoc, show "path: ".data ++ p = 'p' :: ("ath: ".data ++ p) from rfl]
  rw [hs.1, hs.2]
  rw [if_pos (by
    simp [hne2, show "path:".data.isPrefixOf ('p' :: ("ath: ".data ++ p)) = true from rfl,
      show isSp 'p' = false from by decide])]

theorem hasPathMatch_replace {d : Char} {dtl p : List Char} (hd : isSp d = false) :
    ∀ n (ms : Manifest), ms.length ≤ n → hasPathMatch (d :: dtl) true ms = true →
      hasPathMatch (d :: dtl) true
        (replacePathAll (d :: dtl) true (pathReplP (d :: dtl) p) ms) = true := by
  intro n
  induction n with
  | zero =>
    intro ms hlen hm
    cases ms with
    | nil => simp [hasPathMatch] at hm
    | cons a t => simp at hlen
  | succ n ih =>
    intro ms hlen hm
    cases ms with
    | nil => simp [hasPathMatch] at hm
    | cons l1 rest =>
      rcases hma : matchPathAt (d :: dtl) true (l1 :: rest) with _ | m
      · simp only [replacePathAll]
        rw [hma]
        simp only []
        have hrest : hasPathMatch (d :: dtl) true rest = true := by
          simp only [hasPathMatch, hma] at hm
          simpa using hm
        have hlen2 : rest.length ≤ n := by
          simp at hlen
          omega
        simp only [hasPathMatch]
        rw [ih rest hlen2 hrest]
        simp
      · cases rest with
        | nil => simp [matchPathAt] at hma
        | cons l2 rest2 =>
          obtain ⟨h1sp, h2sp, h2ne⟩ := matchPathAt_struct hma
          simp only [replacePathAll]
          rw [hma]
          simp only []
          rw [show pathReplP (d :: dtl) p m ++
              replacePathAll (d :: dtl) true (pathReplP (d :: dtl) p) rest2
            = (m.ind1 ++ (d :: dtl) ++ [':'])
              :: ((m.ind2 ++ "path: ".data ++ p)
                :: replacePathAll (d :: dtl) true (pathReplP (d :: dtl) p) rest2) from rfl]
          simp only [hasPathMatch]
          rw [matchPathAt_make hd h1sp h2sp h2ne true]
          simp

theorem matchGitAt_pathRepl_none (dep p : List Char) (m : GitM)
    (h2 : m.ind2.all isSp = true) (rest : Manifest) :
    matchGitAt dep (pathReplG dep p m ++ rest) = none := by
  have hgl : headIndent "git".data (m.ind2 ++ "path: ".data ++ p) = none := by
    unfold headIndent
    simp only []
    have hs := takeWhile_sp_pre ("ath: ".data ++ p) h2 (show isSp 'p' = false by decide)
    rw [List.append_assoc, show "path: ".data ++ p = 'p' :: ("ath: ".data ++ p) from rfl]
    rw [hs.2]
    rw [if_neg (by
      simp [show "git".data.isPrefixOf ('p' :: ("ath: ".data ++ p)) = false from rfl])]
  rcases rest with _ | ⟨l3, r3⟩
  · rfl
  · show matchGitAt dep
      ((m.ind1 ++ dep ++ [':']) :: (m.ind2 ++ "path: ".data ++ p) :: l3 :: r3) = none
    unfold matchGitAt
    simp only []
    rcases hdl : headIndent dep (m.ind1 ++ dep ++ [':']) with _ | i1
    · rw [hgl]
    · rw [hgl]

theorem matchPathAt_gitRepl_none (dep url ref : List Char) (mp : PathM)
    (h2 : mp.ind2.all isSp = true) (v : Bool) (rest : Manifest) :
    matchPathAt dep v (gitRepl dep url ref mp ++ rest) = none := by
  show matchPathAt dep v ((mp.ind1 ++ dep ++ [':']) :: (mp.ind2 ++ "git:".data)
    :: ((mp.ind2 ++ "  url: ".data ++ url) :: (mp.ind2 ++ "  ref: ".data ++ ref) :: rest))
    = none
  unfold matchPathAt
  simp only []
  rcases hdl : headIndent dep (mp.ind1 ++ dep ++ [':']) with _ | i1
  · rfl
  · simp only []
    have hs := takeWhile_sp_pre "it:".data h2 (show isSp 'g' = false by decide)
    rw [show mp.ind2 ++ "git:".data = mp.ind2 ++ ('g' :: "it:".data) from rfl]
    rw [hs.2]
    rw [if_neg (by
      simp [show "path:".data.isPrefixOf ('g' :: "it:".data) = false from rfl])]

/-- C9 (corrected): every mutating editor operation given a manifest without a
block of the required shape returns the wrong-shape error with the text
byte-identical; the block a convert operation writes is no longer of the
shape that operation requires (so converting twice errors at that block);
but `UpdatePathDependency` applied to an already path-shaped block succeeds
again rather than erroring (see the counterexample), refuting the "second
invocation returns the wrong-shape error" part. -/
theorem c9_wrong_shape_error (dep p url ref : List Char) (ms rest : Manifest)
    (m : GitM) (mp : PathM) :
    (hasGitMatch dep ms = false →
      ConvertGitToPath dep p ms = (.error "dependency is not a git dependency", ms)) ∧
    (hasPathMatch dep false ms = false →
      ConvertPathToGit dep url ref ms = (.error "dependency is not a path dependency", ms)) ∧
    (hasPathMatch dep true ms = false →
      UpdatePathDependency dep p ms = (.error "dependency is not a path dependency", ms)) ∧
    (m.ind2.all isSp = true → matchGitAt dep (pathReplG dep p m ++ rest) = none) ∧
    (mp.ind2.all isSp = true → ∀ v,
      matchPathAt dep v (gitRepl dep url ref mp ++ rest) = none) ∧
    (∀ d dtl, dep = d :: dtl → isSp d = false → hasPathMatch dep true ms = true →
      (UpdatePathDependency dep p ms).1 = .ok () ∧
      (UpdatePathDependency dep p (UpdatePathDependency dep p ms).2).1 = .ok ()) := by
  refine ⟨?_, ?_, ?_, ?_, ?_, ?_⟩
  · intro h
    unfold ConvertGitToPath
    rw [if_neg (by simp [h])]
  · intro h
    unfold ConvertPathToGit
    rw [if_neg (by simp [h])]
  · intro h
    unfold UpdatePathDependency
    rw [if_neg (by simp [h])]
  · intro h
    exact matchGitAt_pathRepl_none dep p m h rest
  · intro h v
    exact matchPathAt_gitRepl_none dep url ref mp h v rest
  · rintro d dtl rfl hd hq
    constructor
    · unfold UpdatePathDependency
      rw [if_pos hq]
    · have hq2 := hasPathMatch_replace (p := p) hd ms.length ms (Nat.le_refl _) hq
      unfold UpdatePathDependency
      rw [if_pos hq]
      simp only []
      rw [if_pos hq2]

/-- A manifest holding one path-shape block for `ui`. -/
def ms9 : Manifest := ["ui:".data, " path: ../old".data]

theorem c9_wrong_shape_error_witness :
    ConvertGitToPath "ui".data "../x".data ms9
      = (.error "dependency is not a git dependency", ms9) ∧
    ((UpdatePathDependency "ui".data "../x".data ms9).1 = .ok () ∧
     (UpdatePathDependency "ui".data "../x".data
       (UpdatePathDependency "ui".data "../x".data ms9).2).1 = .ok ()) :=
  ⟨(c9_wrong_shape_error "ui".data "../x".data [] [] ms9 [] ⟨[], [], false⟩
      ⟨[], []⟩).1 (by decide),
   (c9_wrong_shape_error "ui".data "../x".data [] [] ms9 [] ⟨[], [], false⟩
      ⟨[], []⟩).2.2.2.2.2 'u' "i".data rfl (by decide) (by decide)⟩

theorem c9_wrong_shape_error_counterexample :
    (UpdatePathDependency "ui".data "../x".data ms9).1 = .ok () ∧
    (UpdatePathDependency "ui".data "../x".data
      (UpdatePathDependency "ui".data "../x".data ms9).2).1 = .ok () ∧
    (UpdatePathDependency "ui".data "../x".data
      (UpdatePathDependency "ui".data "../x".data ms9).2).1
      ≠ .error "dependency is not a path dependency" :=
  ⟨by decide, by decide, by decide⟩

end Alfred
